import Mathlib

/-!
Verification of the buffer-management core of the bustub storage engine:
the LRU-K replacer (`src/buffer/lru_k_replacer.cpp`), the legacy LRU
replacer (`src/buffer/lru_replacer.cpp`), the extendible hash table
(`src/container/hash/extendible_hash_table.cpp`) and the buffer pool
manager (`src/buffer/buffer_pool_manager_instance.cpp`), shallowly
embedded as pure Lean functions over explicit state records.

Conventions of the embedding:
* intrusive doubly-linked lists with a dummy head become Lean `List`s
  whose head is the element right after the dummy (most recent) and whose
  last element is the one right before the dummy (the tail);
* `std::unordered_map` tracking maps are kept implicit: a frame is in the
  map exactly when a node with its id is in the corresponding list (the
  code maintains them in lockstep);
* C++ `int` values that can be negative (page ids with the -1 sentinel,
  pin counts) become `Int`; `size_t` counters become `Nat`;
* page payloads are abstracted to a single `Nat` token (`0` is the
  zero-filled page), since the claims only compare whole-page contents;
* the mutexes are dropped: every public operation runs atomically under
  its component's latch, so the sequential functions below are exactly
  the observable behaviour.
-/

namespace Bustub

/-- A node of the LRU-K replacer's intrusive lists
(`LRUKReplacer::ListNode` in `lru_k_replacer.h`): frame id, access
counter and evictability flag.  The `prev_`/`next_` pointers are
represented by the node's position in the enclosing `List`. -/
structure ListNode where
  frameId : Nat
  accessTimes : Nat
  evictable : Bool
deriving DecidableEq, Repr

/-- State of `LRUKReplacer`: the history list (fewer than K accesses) and
the cache list (`buffer_dummy_`, at least K accesses), both most-recent
first, together with the size counters `history_frame_size_`,
`buffer_frame_size_`, `curr_size_`, and the constructor parameters
`replacer_size_` and `k_`. -/
structure LRUK where
  history : List ListNode
  buffer : List ListNode
  histSize : Nat
  bufSize : Nat
  currSize : Nat
  replacerSize : Nat
  k : Nat
deriving DecidableEq, Repr

/-- `LRUKReplacer::LRUKReplacer(num_frames, k)`: both lists empty, all
counters zero. -/
def initLRUK (numFrames k : Nat) : LRUK :=
  ⟨[], [], 0, 0, 0, numFrames, k⟩

/-- Frame ids of the nodes of a list. -/
def ids (l : List ListNode) : List Nat := l.map ListNode.frameId

/-- Detach the first node with the given frame id from a list
(`EvictNodeFromList` on the node found by the tracking map). -/
def eraseF : List ListNode → Nat → List ListNode
  | [], _ => []
  | n :: ns, f => if n.frameId = f then ns else n :: eraseF ns f

/-- Replace the node with the given frame id by `node`, in place
(a field update through the `ListNode *` returned by `GetNode`). -/
def updateF (l : List ListNode) (f : Nat) (node : ListNode) : List ListNode :=
  l.map (fun n => if n.frameId = f then node else n)

/-- `LRUKReplacer::GetNode`: look the frame up in both tracking maps; the
buffer entry wins when both exist (the C++ overwrites `node` in that
order; the `assert(occurrence < 2)` rules the case out in valid states). -/
def getNode? (r : LRUK) (f : Nat) : Option ListNode :=
  match r.buffer.find? (fun n => n.frameId == f) with
  | some n => some n
  | none => r.history.find? (fun n => n.frameId == f)

/-- The increment half of `LRUKReplacer::RecordAccess`, starting at
`node->access_times_++` with `n` the node the access hit (already
inserted into the history list when it is fresh). -/
def recordBump (r : LRUK) (f : Nat) (n : ListNode) : LRUK :=
  let a := n.accessTimes + 1
  let node : ListNode := { n with accessTimes := a }
  if a = r.k then
    -- detach from history, move to the head of the cache list
    { r with history := eraseF r.history f, histSize := r.histSize - 1,
             buffer := node :: eraseF r.buffer f, bufSize := r.bufSize + 1 }
  else if a < r.k then
    if a ≠ 1 then
      -- MoveNodeToHead(history_dummy_, node)
      { r with history := node :: eraseF r.history f, buffer := eraseF r.buffer f }
    else
      -- freshly created node: the in-place ++ is the only change
      { r with history := updateF r.history f node, buffer := updateF r.buffer f node }
  else
    -- MoveNodeToHead(buffer_dummy_, node)
    { r with history := eraseF r.history f, buffer := node :: eraseF r.buffer f }

/-- `LRUKReplacer::RecordAccess`: create the frame at the head of the
history list when it is unknown and capacity permits (no change at all
when `history_frame_size_ + buffer_frame_size_ == replacer_size_`), then
bump its access count and relocate it. -/
def recordAccess (r : LRUK) (f : Nat) : LRUK :=
  match getNode? r f with
  | some n => recordBump r f n
  | none =>
    if r.histSize + r.bufSize = r.replacerSize then r
    else
      let node : ListNode := ⟨f, 0, false⟩
      recordBump { r with history := node :: r.history, histSize := r.histSize + 1 } f node

/-- `LRUKReplacer::SetEvictable`: no-op on unknown frames and when the
flag already has the requested value; otherwise flip it and adjust
`curr_size_`. -/
def setEvictable (r : LRUK) (f : Nat) (b : Bool) : LRUK :=
  match getNode? r f with
  | none => r
  | some n =>
    if n.evictable = b then r
    else
      { r with history := updateF r.history f { n with evictable := b },
               buffer := updateF r.buffer f { n with evictable := b },
               currSize := if b then r.currSize + 1 else r.currSize - 1 }

/-- `GetFirstEvictableNode` composed with `EvictNodeFromList`: walk the
list from the tail (`head->prev_`) towards the head and detach the first
evictable node met, returning it with the remaining list. -/
def removeLastEvictable : List ListNode → Option (ListNode × List ListNode)
  | [] => none
  | n :: ns =>
    match removeLastEvictable ns with
    | some (m, ns') => some (m, n :: ns')
    | none => if n.evictable then some (n, ns) else none

/-- `LRUKReplacer::Evict`: nothing to do when `curr_size_ == 0`;
otherwise take the tail-most evictable node of the history list, or of
the cache list when the history has none, erase it from its list and
tracking map, and decrement the size counters. -/
def evict (r : LRUK) : Option Nat × LRUK :=
  if r.currSize = 0 then (none, r)
  else
    match removeLastEvictable r.history with
    | some (n, h') =>
      (some n.frameId,
        { r with history := h', histSize := r.histSize - 1, currSize := r.currSize - 1 })
    | none =>
      match removeLastEvictable r.buffer with
      | some (n, b') =>
        (some n.frameId,
          { r with buffer := b', bufSize := r.bufSize - 1, currSize := r.currSize - 1 })
      | none => (none, r)   -- `assert(node != nullptr)` fires here in C++

/-- `LRUKReplacer::Remove`: no-op on unknown or non-evictable frames;
otherwise detach the node from its list and tracking map and decrement
`curr_size_`. -/
def lrukRemove (r : LRUK) (f : Nat) : LRUK :=
  match getNode? r f with
  | none => r
  | some n =>
    if !n.evictable then r
    else if r.history.any (fun m => m.frameId == f) then
      { r with history := eraseF r.history f, histSize := r.histSize - 1,
               currSize := r.currSize - 1 }
    else
      { r with buffer := eraseF r.buffer f, bufSize := r.bufSize - 1,
               currSize := r.currSize - 1 }

/-- `LRUKReplacer::Size`: the count of evictable frames. -/
def lrukSize (r : LRUK) : Nat := r.currSize

/-- A frame is tracked when a node with its id is in either list (it has
an entry in `history_frames_` or `buffer_frames_`). -/
def tracked (r : LRUK) (f : Nat) : Prop := f ∈ ids r.history ∨ f ∈ ids r.buffer

instance (r : LRUK) (f : Nat) : Decidable (tracked r f) := by
  unfold tracked; infer_instance

/-- A frame is evictable in the replacer when a node with its id and a
set evictable flag is in one of the two lists. -/
def evictableIn (r : LRUK) (f : Nat) : Prop :=
  ∃ n ∈ r.history ++ r.buffer, n.frameId = f ∧ n.evictable = true

instance (r : LRUK) (f : Nat) : Decidable (evictableIn r f) := by
  unfold evictableIn; infer_instance

/-- Count of evictable nodes in a list. -/
def countE (l : List ListNode) : Nat := l.countP (fun n => n.evictable)

/-- Well-formedness of a replacer state, maintained by every operation:
the size counters agree with the lists, `curr_size_` counts the
evictable nodes, no frame appears twice, history nodes have between 1
and K-1 accesses, cache nodes at least K, and the tracked frames never
exceed `replacer_size_`. -/
def WF (r : LRUK) : Prop :=
  r.histSize = r.history.length ∧
  r.bufSize = r.buffer.length ∧
  r.currSize = countE r.history + countE r.buffer ∧
  (ids r.history ++ ids r.buffer).Nodup ∧
  (∀ n ∈ r.history, 1 ≤ n.accessTimes ∧ n.accessTimes < r.k) ∧
  (∀ n ∈ r.buffer, r.k ≤ n.accessTimes) ∧
  r.history.length + r.buffer.length ≤ r.replacerSize ∧
  1 ≤ r.k

instance (r : LRUK) : Decidable (WF r) := by
  unfold WF; infer_instance

/-!  Legacy LRU replacer (`src/buffer/lru_replacer.cpp`).  The intrusive
list keeps only frame ids; `Unpin` inserts at the head (right after the
dummy), `Victim` takes the tail (`dummy_node_->prev_`). -/

/-- State of the legacy `LRUReplacer`: the list of unpinned frame ids,
most recent first, plus `cur_size_` and the constructor parameter
`page_size_`. -/
structure LRUState where
  lruList : List Int
  curSize : Nat
  pageSize : Nat
deriving DecidableEq, Repr

/-- `LRUReplacer::LRUReplacer(num_pages)`. -/
def initLRU (numPages : Nat) : LRUState := ⟨[], 0, numPages⟩

/-- `LRUReplacer::Victim`: on an empty replacer return `false` with no
frame; otherwise unlink the tail node, store its id in the out
parameter, decrement `cur_size_` — and still return `false` (the final
`return false` of the source). -/
def lruVictim (s : LRUState) : Bool × Option Int × LRUState :=
  if s.curSize = 0 then (false, none, s)
  else
    (false, s.lruList.getLast?,
      { s with lruList := s.lruList.dropLast, curSize := s.curSize - 1 })

/-- `LRUReplacer::Pin`: remove the frame from the replacer if present. -/
def lruPin (s : LRUState) (f : Int) : LRUState :=
  if s.lruList.contains f then
    { s with lruList := s.lruList.erase f, curSize := s.curSize - 1 }
  else s

/-- `LRUReplacer::Unpin`: no-op when the frame is already present or the
replacer is full; otherwise insert at the head. -/
def lruUnpin (s : LRUState) (f : Int) : LRUState :=
  if s.lruList.contains f then s
  else if s.curSize = s.pageSize then s
  else { s with lruList := f :: s.lruList, curSize := s.curSize + 1 }

/-- `LRUReplacer::Size`. -/
def lruSize (s : LRUState) : Nat := s.curSize

/-!  Extendible hash table (`src/container/hash/extendible_hash_table.cpp`),
at the `ExtendibleHashTable<int, int>` instantiation (explicitly compiled
by the source; `std::hash<int>` is the identity on non-negative ints, so
keys are their own hash values).  Sharing of buckets between directory
slots is modelled by a directory of bucket ids indexing into a growing
pool of buckets; aliased slots hold the same id. -/

/-- A bucket: its entries and its local depth
(`ExtendibleHashTable::Bucket`). -/
structure Bucket where
  items : List (Nat × Nat)
  depth : Nat
deriving DecidableEq, Repr

/-- State of the extendible hash table: directory of bucket ids, bucket
pool, `global_depth_`, `bucket_size_` and the `num_buckets_` counter. -/
structure EHT where
  dir : List Nat
  buckets : List Bucket
  globalDepth : Nat
  bucketSize : Nat
  numBuckets : Nat
deriving DecidableEq, Repr

/-- `ExtendibleHashTable::ExtendibleHashTable(bucket_size)`: global depth
0, one empty bucket of depth 0 at the single directory slot,
`num_buckets_ = 1`. -/
def initEHT (bucketSize : Nat) : EHT :=
  ⟨[0], [⟨[], 0⟩], 0, bucketSize, 1⟩

/-- `ExtendibleHashTable::IndexOf`: hash of the key masked with
`(1 << global_depth_) - 1`, i.e. the key modulo `2 ^ global_depth_`. -/
def indexOf (s : EHT) (key : Nat) : Nat := key % 2 ^ s.globalDepth

/-- `ExtendibleHashTable::PairIndex(bucket_no, local_depth)`:
`bucket_no ^ (1 << (local_depth - 1))`. -/
def pairIndex (bucketNo localDepth : Nat) : Nat :=
  bucketNo ^^^ 2 ^ (localDepth - 1)

/-- Read a directory slot (`dir_[i]`). -/
def dirAt (s : EHT) (i : Nat) : Nat := s.dir.getD i 0

/-- Read a bucket by id (dereference the shared pointer). -/
def bucketAt (s : EHT) (bid : Nat) : Bucket := s.buckets.getD bid ⟨[], 0⟩

/-- `GetLocalDepth` of the bucket with the given id. -/
def bucketDepth (s : EHT) (bid : Nat) : Nat := (bucketAt s bid).depth

/-- `Bucket::Insert`.  Modelled from the spec: the bodies of
`Bucket::IsOverflow` and `Bucket::IsFull` live in the header
`extendible_hash_table.h`, which is not part of the sources; the spec
says a bucket holds at most `bucket_size` entries, so `IsOverflow` is
`size > bucket_size` and `IsFull` is `size = bucket_size`.  Overwrite an
existing key, else append when there is room, else fail. -/
def bucketInsert (size : Nat) (b : Bucket) (k v : Nat) : Bucket × Bool :=
  if b.items.length > size then (b, false)
  else if b.items.any (fun kv => kv.1 == k) then
    ({ b with items := b.items.map (fun kv => if kv.1 == k then (k, v) else kv) }, true)
  else if b.items.length = size then (b, false)
  else ({ b with items := b.items ++ [(k, v)] }, true)

/-- `Bucket::Find`: linear search. -/
def bucketFind? (b : Bucket) (k : Nat) : Option Nat :=
  (b.items.find? (fun kv => kv.1 == k)).map Prod.snd

/-- `Bucket::Remove`: erase the first entry with the key, report
presence. -/
def bucketRemove (b : Bucket) (k : Nat) : Bucket × Bool :=
  if b.items.any (fun kv => kv.1 == k) then
    ({ b with items := b.items.eraseP (fun kv => kv.1 == k) }, true)
  else (b, false)

/-- `ExtendibleHashTable::Find`: locate the bucket through the directory
and search it.  No state change. -/
def ehtFind? (s : EHT) (key : Nat) : Option Nat :=
  bucketFind? (bucketAt s (dirAt s (indexOf s key))) key

/-- `ExtendibleHashTable::Remove`: locate the bucket and erase in
place. -/
def ehtRemove (s : EHT) (key : Nat) : EHT × Bool :=
  let bid := dirAt s (indexOf s key)
  let (b', present) := bucketRemove (bucketAt s bid) key
  ({ s with buckets := s.buckets.set bid b' }, present)

/-- Re-insert one redistributed entry after a split (the final loop of
`ExtendibleHashTable::Insert`): recompute the slot with the current
global depth and insert at the bucket level, ignoring failure (the
source only logs a warning; the outer retry loop deals with a still-full
half). -/
def reinsertItem (s : EHT) (kv : Nat × Nat) : EHT :=
  let bid := dirAt s (indexOf s kv.1)
  let (b', _) := bucketInsert s.bucketSize (bucketAt s bid) kv.1 kv.2
  { s with buckets := s.buckets.set bid b' }

/-- One iteration of the retry loop of `ExtendibleHashTable::Insert`.
Returns the new state and whether the bucket-level insert succeeded
(`complete`).  On failure: increment the bucket's local depth; double
the directory (appending an alias of every slot) and bump the global
depth when the new local depth exceeds it; plant a fresh empty sibling
bucket of the same local depth at `PairIndex` and rewire every slot
congruent to it modulo `2 ^ local_depth` (the two stride loops of the
source walk exactly those slots); finally redistribute the old bucket's
entries. -/
def insertStep (s : EHT) (key v : Nat) : EHT × Bool :=
  let bucketNo := indexOf s key
  let bid := dirAt s bucketNo
  let bold := bucketAt s bid
  let (b', success) := bucketInsert s.bucketSize bold key v
  if success then ({ s with buckets := s.buckets.set bid b' }, true)
  else
    let ld := bold.depth + 1   -- IncrementDepth; local_depth = GetDepth()
    let dir1 := if s.globalDepth < ld then s.dir ++ s.dir else s.dir
    let g1 := if s.globalDepth < ld then s.globalDepth + 1 else s.globalDepth
    let pair := pairIndex bucketNo ld
    let nb := s.buckets.length
    let buckets1 := (s.buckets.set bid { bold with depth := ld, items := [] }) ++ [⟨[], ld⟩]
    let dir2 := dir1.mapIdx (fun i b => if i % 2 ^ ld = pair % 2 ^ ld then nb else b)
    let s1 : EHT := ⟨dir2, buckets1, g1, s.bucketSize, s.numBuckets⟩
    (bold.items.foldl reinsertItem s1, false)

/-- `ExtendibleHashTable::Insert`: the retry loop, run with explicit
fuel (each iteration either completes or performs one full split; the
state after every iteration is a quiescent table state). -/
def ehtInsert (s : EHT) (key v : Nat) : Nat → EHT
  | 0 => s
  | fuel + 1 =>
    match insertStep s key v with
    | (s', true) => s'
    | (s', false) => ehtInsert s' key v fuel

/-- `ExtendibleHashTable::GetNumBuckets`. -/
def ehtGetNumBuckets (s : EHT) : Nat := s.numBuckets

/-- Table states reachable from the constructor by the public mutating
operations (`Find` leaves the state untouched). -/
inductive EHTReachable : EHT → Prop
  | init (bucketSize : Nat) : EHTReachable (initEHT bucketSize)
  | insert {s} (key v fuel : Nat) : EHTReachable s → EHTReachable (ehtInsert s key v fuel)
  | remove {s} (key : Nat) : EHTReachable s → EHTReachable (ehtRemove s key).1

/-!  Buffer pool manager (`src/buffer/buffer_pool_manager_instance.cpp`).

The page table (`page_table_`, an `ExtendibleHashTable<page_id_t,
frame_id_t>`) is modelled at its map interface as an association list:
`Find`/`Insert`/`Remove` of the hash table are exactly the finite-map
operations below.  Page ids are `Int` with `INVALID_PAGE_ID = -1`; frame
ids are indices into the frame array and use `Nat` (`GetVictimPage`'s
`INVALID_FRAME_ID` failure becomes `none`).  The disk manager is an
association list of written pages (a page never written reads as the
zero-filled page `0`) plus the list of `DeallocatePage` calls; the
`Page` payload is the abstract token described at the top of the
file. -/

/-- A frame of the pool (`Page` metadata plus abstracted `data_`). -/
structure Frame where
  pageId : Int
  pinCount : Int
  isDirty : Bool
  data : Nat
deriving DecidableEq, Repr

/-- `Page::Page()`: invalid id, pin count zero, clean, zeroed memory. -/
def emptyFrame : Frame := ⟨-1, 0, false, 0⟩

/-- Page-table lookup (`ExtendibleHashTable::Find` with an out
parameter). -/
def lookupPT (t : List (Int × Nat)) (p : Int) : Option Nat :=
  (t.find? (fun e => e.1 == p)).map Prod.snd

/-- Page-table insert (`ExtendibleHashTable::Insert`: overwrite an
existing key, else add the entry). -/
def insertPT (t : List (Int × Nat)) (p : Int) (f : Nat) : List (Int × Nat) :=
  if t.any (fun e => e.1 == p) then
    t.map (fun e => if e.1 == p then (p, f) else e)
  else t ++ [(p, f)]

/-- Page-table removal (`ExtendibleHashTable::Remove`), with the
presence flag the caller checks. -/
def erasePT (t : List (Int × Nat)) (p : Int) : List (Int × Nat) :=
  t.eraseP (fun e => e.1 == p)

/-- `ExtendibleHashTable::Remove`'s return value. -/
def containsPT (t : List (Int × Nat)) (p : Int) : Bool :=
  t.any (fun e => e.1 == p)

/-- The disk manager's persisted pages; reading an unwritten page yields
the zero-filled page. -/
def diskRead (d : List (Int × Nat)) (p : Int) : Nat :=
  ((d.find? (fun e => e.1 == p)).map Prod.snd).getD 0

/-- `DiskManager::WritePage`. -/
def diskWrite (d : List (Int × Nat)) (p : Int) (v : Nat) : List (Int × Nat) :=
  if d.any (fun e => e.1 == p) then
    d.map (fun e => if e.1 == p then (p, v) else e)
  else d ++ [(p, v)]

/-- State of a `BufferPoolManagerInstance`: the frame array, free list,
page table, replacer, `next_page_id_`, the disk image, and the list of
deallocated page ids. -/
structure BP where
  pages : List Frame
  freeList : List Nat
  pageTable : List (Int × Nat)
  replacer : LRUK
  nextPageId : Int
  disk : List (Int × Nat)
  deallocated : List Int
deriving DecidableEq, Repr

/-- `BufferPoolManagerInstance::BufferPoolManagerInstance(pool_size, …,
replacer_k, …)`: every frame starts fresh and on the free list, the
replacer and page table empty, `next_page_id_ = 0`. -/
def initBP (poolSize replacerK : Nat) : BP :=
  ⟨List.replicate poolSize emptyFrame, List.range poolSize, [],
    initLRUK poolSize replacerK, 0, [], []⟩

/-- Read `pages_[f]`. -/
def getFrame (s : BP) (f : Nat) : Frame := s.pages.getD f emptyFrame

/-- Overwrite `pages_[f]`. -/
def setFrame (s : BP) (f : Nat) (fr : Frame) : BP :=
  { s with pages := s.pages.set f fr }

/-- `BufferPoolManagerInstance::AllocatePage`: `next_page_id_++`. -/
def allocatePage (s : BP) : Int × BP :=
  (s.nextPageId, { s with nextPageId := s.nextPageId + 1 })

/-- `BufferPoolManagerInstance::GetVictimPage`: pop the head of the free
list when it is non-empty (the source asserts the popped frame holds no
page), otherwise ask the replacer to evict. -/
def getVictimPage (s : BP) : Option Nat × BP :=
  match s.freeList with
  | f :: rest => (some f, { s with freeList := rest })
  | [] =>
    let (res, r') := evict s.replacer
    (res, { s with replacer := r' })

/-- `BufferPoolManagerInstance::ResetPage`: nothing to do when the frame
holds no page; when it does and the page table knows the page, flush it
if dirty, clear the mapping and reset the metadata and memory; report
`false` (a warning in the source) when the page id is valid but not in
the table. -/
def resetPage (s : BP) (f : Nat) : Bool × BP :=
  let fr := getFrame s f
  if fr.pageId = -1 then (true, s)
  else if containsPT s.pageTable fr.pageId then
    let s1 := { s with pageTable := erasePT s.pageTable fr.pageId }
    let s2 := if fr.isDirty then { s1 with disk := diskWrite s1.disk fr.pageId fr.data } else s1
    (true, setFrame s2 f ⟨-1, 0, false, 0⟩)
  else (false, s)

/-- `BufferPoolManagerInstance::InitPage`: give the (reset) frame its new
page id and pin count 1 and install the page-table mapping. -/
def initPage (s : BP) (f : Nat) (p : Int) : BP :=
  let fr := getFrame s f
  { setFrame s f { fr with pageId := p, pinCount := 1 } with
      pageTable := insertPT s.pageTable p f }

/-- `BufferPoolManagerInstance::UpdateFrameInfo`: record the access in
the replacer and, when the pin count is exactly 1, mark the frame
non-evictable. -/
def updateFrameInfo (s : BP) (f : Nat) (pinCount : Int) : BP :=
  let r1 := recordAccess s.replacer f
  let r2 := if pinCount = 1 then setEvictable r1 f false else r1
  { s with replacer := r2 }

/-- `BufferPoolManagerInstance::UnpinFrame`: decrement the pin count and
mark the frame evictable when it reaches zero. -/
def unpinFrame (s : BP) (f : Nat) : BP :=
  let fr := getFrame s f
  let s1 := setFrame s f { fr with pinCount := fr.pinCount - 1 }
  if fr.pinCount - 1 = 0 then
    { s1 with replacer := setEvictable s1.replacer f true }
  else s1

/-- `BufferPoolManagerInstance::NewPgImp`: obtain a victim frame (null on
failure), allocate a fresh page id, reset the victim, install the new
page pinned once, and record the access as non-evictable.  Returns the
new page id with the frame id. -/
def newPage (s : BP) : Option (Int × Nat) × BP :=
  let (v, s1) := getVictimPage s
  match v with
  | none => (none, s1)
  | some f =>
    let (pid, s2) := allocatePage s1
    let (_, s3) := resetPage s2 f
    let s4 := initPage s3 f pid
    let s5 := updateFrameInfo s4 f (getFrame s4 f).pinCount
    (some (pid, f), s5)

/-- `BufferPoolManagerInstance::FetchPgImp`: on a page-table hit bump the
pin count and record the access; on a miss obtain a victim, reset it,
install the mapping, read the page from disk and record the access. -/
def fetchPage (s : BP) (p : Int) : Option Nat × BP :=
  match lookupPT s.pageTable p with
  | some f =>
    let fr := getFrame s f
    let s1 := setFrame s f { fr with pinCount := fr.pinCount + 1 }
    (some f, updateFrameInfo s1 f (fr.pinCount + 1))
  | none =>
    let (v, s1) := getVictimPage s
    match v with
    | none => (none, s1)
    | some f =>
      let (_, s2) := resetPage s1 f
      let s3 := initPage s2 f p
      let fr := getFrame s3 f
      let s4 := setFrame s3 f { fr with data := diskRead s3.disk p }   -- ReadPage
      (some f, updateFrameInfo s4 f (getFrame s4 f).pinCount)

/-- `BufferPoolManagerInstance::UnpinPgImp`: `false` when the page is not
resident or its pin count is already 0; otherwise decrement the pin
count (marking the frame evictable at 0) and make the dirty flag sticky
under `is_dirty`. -/
def unpinPage (s : BP) (p : Int) (isDirty : Bool) : Bool × BP :=
  match lookupPT s.pageTable p with
  | none => (false, s)
  | some f =>
    let fr := getFrame s f
    if fr.pinCount = 0 then (false, s)
    else
      let s1 := unpinFrame s f
      let s2 :=
        if isDirty then setFrame s1 f { getFrame s1 f with isDirty := true } else s1
      (true, s2)

/-- `BufferPoolManagerInstance::FlushPgImp`: `false` on the sentinel and
on a page-table miss; otherwise write the frame to disk regardless of
the dirty flag, and clear the flag. -/
def flushPage (s : BP) (p : Int) : Bool × BP :=
  if p = -1 then (false, s)
  else
    match lookupPT s.pageTable p with
    | none => (false, s)
    | some f =>
      let fr := getFrame s f
      (true, setFrame { s with disk := diskWrite s.disk p fr.data } f
          { fr with isDirty := false })

/-- The loop body of `FlushAllPgsImp` for one frame index. -/
def flushFrame (s : BP) (f : Nat) : BP :=
  let fr := getFrame s f
  if fr.pageId ≠ -1 then
    setFrame { s with disk := diskWrite s.disk fr.pageId fr.data } f
      { fr with isDirty := false }
  else s

/-- `BufferPoolManagerInstance::FlushAllPgsImp`: flush every frame that
holds a page. -/
def flushAllPages (s : BP) : BP :=
  (List.range s.pages.length).foldl flushFrame s

/-- `BufferPoolManagerInstance::DeletePgImp`: deleting an absent page
trivially succeeds; a pinned page cannot be deleted; otherwise reset the
frame (flush-if-dirty and drop the mapping), drop it from the replacer,
return it to the free list and deallocate the page id. -/
def deletePage (s : BP) (p : Int) : Bool × BP :=
  match lookupPT s.pageTable p with
  | none => (true, s)
  | some f =>
    let fr := getFrame s f
    if fr.pinCount > 0 then (false, s)
    else
      let (ok, s1) := resetPage s f
      if ok then
        (true, { s1 with replacer := lrukRemove s1.replacer f,
                         freeList := s1.freeList ++ [f],
                         deallocated := s1.deallocated ++ [p] })
      else (false, s1)

/-- The condition `InitPage` asserts of its frame (`assert(page->page_id_
== INVALID_PAGE_ID && !page->is_dirty_ && page->pin_count_ == 0)`): the
frame is fully reset when the new page is installed. -/
def initPageReady (s : BP) (f : Nat) : Prop :=
  (getFrame s f).pageId = -1 ∧ (getFrame s f).pinCount = 0 ∧
  (getFrame s f).isDirty = false

instance (s : BP) (f : Nat) : Decidable (initPageReady s f) := by
  unfold initPageReady
  infer_instance

/-- The assertions executed on `NewPgImp`'s path: `GetVictimPage` asserts
that a frame popped from the free list holds no page, and `InitPage`
asserts that the victim frame reaches it fully reset (evaluated in the
state `InitPage` actually sees: after the pop, the page-id allocation
and `ResetPage`).  A C++ `assert` aborts the process — the spec files
invariant breaches under "abort (assertion)" — so the states reachable
by completed operations are exactly those whose executed assertions
held. -/
def newPageAssert (s : BP) : Prop :=
  (∀ f, s.freeList.head? = some f → (getFrame s f).pageId = -1) ∧
  ∀ f, (getVictimPage s).1 = some f →
    initPageReady (resetPage (allocatePage (getVictimPage s).2).2 f).2 f

instance (s : BP) : Decidable (newPageAssert s) :=
  decidable_of_iff
    ((∀ f ∈ s.freeList.head?.toList, (getFrame s f).pageId = -1) ∧
     ∀ f ∈ ((getVictimPage s).1).toList,
       initPageReady (resetPage (allocatePage (getVictimPage s).2).2 f).2 f)
    (by unfold newPageAssert; simp [Option.mem_toList, Option.mem_def])

/-- The assertions executed on `FetchPgImp`'s path: none on a page-table
hit; on a miss, the same `GetVictimPage` and `InitPage` assertions as
`NewPgImp` (with no allocation step in between). -/
def fetchAssert (s : BP) (p : Int) : Prop :=
  lookupPT s.pageTable p = none →
    ((∀ f, s.freeList.head? = some f → (getFrame s f).pageId = -1) ∧
     ∀ f, (getVictimPage s).1 = some f →
       initPageReady (resetPage (getVictimPage s).2 f).2 f)

instance (s : BP) (p : Int) : Decidable (fetchAssert s p) :=
  decidable_of_iff
    (lookupPT s.pageTable p = none →
      ((∀ f ∈ s.freeList.head?.toList, (getFrame s f).pageId = -1) ∧
       ∀ f ∈ ((getVictimPage s).1).toList,
         initPageReady (resetPage (getVictimPage s).2 f).2 f))
    (by unfold fetchAssert; simp [Option.mem_toList, Option.mem_def])

/-- Buffer-pool states reachable from the constructor by completed public
operations: each constructor whose C++ path executes an `assert` carries
the assertion as a hypothesis (a run that trips an assertion aborts and
produces no successor state). -/
inductive Reachable : BP → Prop
  | init (poolSize replacerK : Nat) (hk : 1 ≤ replacerK) :
      Reachable (initBP poolSize replacerK)
  | newPage {s} : Reachable s → newPageAssert s → Reachable (newPage s).2
  | fetchPage {s} (p : Int) : Reachable s → fetchAssert s p →
      Reachable (fetchPage s p).2
  | unpinPage {s} (p : Int) (d : Bool) : Reachable s → Reachable (unpinPage s p d).2
  | flushPage {s} (p : Int) : Reachable s → Reachable (flushPage s p).2
  | flushAllPages {s} : Reachable s → Reachable (flushAllPages s)
  | deletePage {s} (p : Int) : Reachable s → Reachable (deletePage s p).2

/-!  Supporting lemmas about the intrusive-list helpers. -/

theorem ids_nil : ids [] = [] := rfl

theorem ids_cons (n : ListNode) (l : List ListNode) :
    ids (n :: l) = n.frameId :: ids l := rfl

theorem ids_append (l1 l2 : List ListNode) :
    ids (l1 ++ l2) = ids l1 ++ ids l2 := by
  simp [ids]

theorem mem_ids {l : List ListNode} {f : Nat} :
    f ∈ ids l ↔ ∃ n ∈ l, n.frameId = f := by
  simp [ids, eq_comm]

theorem eraseF_of_not_mem {l : List ListNode} {f : Nat} (h : f ∉ ids l) :
    eraseF l f = l := by
  induction l with
  | nil => rfl
  | cons n ns ih =>
    rw [ids_cons, List.mem_cons] at h
    push_neg at h
    simp only [eraseF, if_neg (Ne.symm h.1)]
    rw [ih h.2]

theorem updateF_of_not_mem {l : List ListNode} {f : Nat} (node : ListNode)
    (h : f ∉ ids l) : updateF l f node = l := by
  induction l with
  | nil => rfl
  | cons n ns ih =>
    rw [ids_cons, List.mem_cons] at h
    push_neg at h
    simp only [updateF, List.map_cons, if_neg (Ne.symm h.1)]
    rw [show List.map _ ns = updateF ns f node from rfl, ih h.2]

/-- Canonical decomposition at the first node carrying frame id `f`:
this is the node `GetNode` returns and the one `eraseF` detaches. -/
theorem findF_decomp {l : List ListNode} {f : Nat} (h : f ∈ ids l) :
    ∃ l1 n l2, l = l1 ++ n :: l2 ∧ n.frameId = f ∧ f ∉ ids l1 ∧
      eraseF l f = l1 ++ l2 ∧ l.find? (fun m => m.frameId == f) = some n := by
  induction l with
  | nil => cases h
  | cons n ns ih =>
    by_cases hn : n.frameId = f
    · exact ⟨[], n, ns, by simp, hn, by simp [ids_nil],
        by simp [eraseF, hn], by simp [List.find?, hn]⟩
    · rw [ids_cons, List.mem_cons] at h
      rcases h with h | h
      · exact absurd h.symm hn
      · obtain ⟨l1, m, l2, hl, hm, hnot, herase, hfind⟩ := ih h
        refine ⟨n :: l1, m, l2, by rw [hl]; rfl, hm, ?_, ?_, ?_⟩
        · rw [ids_cons, List.mem_cons]; push_neg
          exact ⟨fun hc => hn hc.symm, hnot⟩
        · simp only [eraseF, if_neg hn, herase]; rfl
        · simp only [List.find?, beq_eq_false_iff_ne.mpr hn, hfind]

theorem find?_eq_none_of_not_mem {l : List ListNode} {f : Nat}
    (h : f ∉ ids l) : l.find? (fun m => m.frameId == f) = none := by
  rw [List.find?_eq_none]
  intro n hn
  simp only [beq_iff_eq]
  intro he
  exact h (mem_ids.2 ⟨n, hn, he⟩)

theorem getNode?_eq_none {r : LRUK} {f : Nat} (h : ¬ tracked r f) :
    getNode? r f = none := by
  unfold tracked at h
  push_neg at h
  unfold getNode?
  rw [find?_eq_none_of_not_mem h.2, find?_eq_none_of_not_mem h.1]

theorem tracked_of_getNode?_some {r : LRUK} {f : Nat} {n : ListNode}
    (h : getNode? r f = some n) : tracked r f := by
  by_contra hc
  rw [getNode?_eq_none hc] at h
  cases h

theorem getNode?_spec {r : LRUK} {f : Nat} {n : ListNode}
    (h : getNode? r f = some n) :
    (n ∈ r.history ∨ n ∈ r.buffer) ∧ n.frameId = f := by
  unfold getNode? at h
  rcases hb : r.buffer.find? (fun m => m.frameId == f) with _ | m
  · rw [hb] at h
    have := List.find?_some h
    exact ⟨Or.inl (List.mem_of_find?_eq_some h), by simpa using this⟩
  · rw [hb] at h
    cases h
    have := List.find?_some hb
    exact ⟨Or.inr (List.mem_of_find?_eq_some hb), by simpa using this⟩

/-- The nodes of a list carrying frame id `g`; per-frame observables of
the replacer only depend on these. -/
def nodesOf (l : List ListNode) (g : Nat) : List ListNode :=
  l.filter (fun n => n.frameId == g)

theorem nodesOf_nil (g : Nat) : nodesOf [] g = [] := rfl

theorem nodesOf_append (l1 l2 : List ListNode) (g : Nat) :
    nodesOf (l1 ++ l2) g = nodesOf l1 g ++ nodesOf l2 g :=
  List.filter_append ..

theorem nodesOf_cons_ne {n : ListNode} {g : Nat} (l : List ListNode)
    (h : n.frameId ≠ g) : nodesOf (n :: l) g = nodesOf l g := by
  simp [nodesOf, List.filter_cons, h]

theorem nodesOf_eraseF_ne {l : List ListNode} {f g : Nat} (h : g ≠ f) :
    nodesOf (eraseF l f) g = nodesOf l g := by
  induction l with
  | nil => rfl
  | cons n ns ih =>
    by_cases hn : n.frameId = f
    · rw [show eraseF (n :: ns) f = ns from by simp [eraseF, hn],
        nodesOf_cons_ne ns (by rw [hn]; exact fun hc => h hc.symm)]
    · rw [show eraseF (n :: ns) f = n :: eraseF ns f from by simp [eraseF, hn]]
      by_cases hg : n.frameId = g
      · simp only [nodesOf, List.filter_cons, hg]
        simp only [beq_self_eq_true, if_pos]
        exact congrArg _ ih
      · rw [nodesOf_cons_ne _ hg, nodesOf_cons_ne _ hg, ih]

theorem nodesOf_updateF_ne {l : List ListNode} {f g : Nat} {node : ListNode}
    (hnode : node.frameId = f) (h : g ≠ f) :
    nodesOf (updateF l f node) g = nodesOf l g := by
  induction l with
  | nil => rfl
  | cons n ns ih =>
    by_cases hn : n.frameId = f
    · rw [show updateF (n :: ns) f node = node :: updateF ns f node from by
        simp [updateF, hn]]
      rw [nodesOf_cons_ne _ (by rw [hnode]; exact fun hc => h hc.symm),
        nodesOf_cons_ne _ (by rw [hn]; exact fun hc => h hc.symm), ih]
    · rw [show updateF (n :: ns) f node = n :: updateF ns f node from by
        simp [updateF, hn]]
      by_cases hg : n.frameId = g
      · simp only [nodesOf, List.filter_cons, hg]
        simp only [beq_self_eq_true, if_pos]
        exact congrArg _ ih
      · rw [nodesOf_cons_ne _ hg, nodesOf_cons_ne _ hg, ih]

theorem tracked_iff_nodesOf {r : LRUK} {g : Nat} :
    tracked r g ↔ nodesOf r.history g ++ nodesOf r.buffer g ≠ [] := by
  unfold tracked nodesOf
  constructor
  · rintro (h | h) <;> rw [mem_ids] at h <;> obtain ⟨n, hn, hfn⟩ := h
    · intro hc
      have : n ∈ r.history.filter (fun m => m.frameId == g) :=
        List.mem_filter.2 ⟨hn, by simp [hfn]⟩
      rw [List.append_eq_nil] at hc
      rw [hc.1] at this
      cases this
    · intro hc
      have : n ∈ r.buffer.filter (fun m => m.frameId == g) :=
        List.mem_filter.2 ⟨hn, by simp [hfn]⟩
      rw [List.append_eq_nil] at hc
      rw [hc.2] at this
      cases this
  · intro h
    rcases List.exists_mem_of_ne_nil _ h with ⟨n, hn⟩
    rw [List.mem_append] at hn
    rcases hn with hn | hn <;> rw [List.mem_filter] at hn
    · exact Or.inl (mem_ids.2 ⟨n, hn.1, by simpa using hn.2⟩)
    · exact Or.inr (mem_ids.2 ⟨n, hn.1, by simpa using hn.2⟩)

theorem evictableIn_iff_nodesOf {r : LRUK} {g : Nat} :
    evictableIn r g ↔
      ∃ n ∈ nodesOf r.history g ++ nodesOf r.buffer g, n.evictable = true := by
  unfold evictableIn nodesOf
  constructor
  · rintro ⟨n, hn, hfn, he⟩
    rw [List.mem_append] at hn
    refine ⟨n, ?_, he⟩
    rw [List.mem_append]
    rcases hn with hn | hn
    · exact Or.inl (List.mem_filter.2 ⟨hn, by simp [hfn]⟩)
    · exact Or.inr (List.mem_filter.2 ⟨hn, by simp [hfn]⟩)
  · rintro ⟨n, hn, he⟩
    rw [List.mem_append] at hn
    rcases hn with hn | hn <;> rw [List.mem_filter] at hn
    · exact ⟨n, List.mem_append.2 (Or.inl hn.1), by simpa using hn.2, he⟩
    · exact ⟨n, List.mem_append.2 (Or.inr hn.1), by simpa using hn.2, he⟩

/-- `removeLastEvictable` fails exactly on lists with no evictable
node. -/
theorem rle_eq_none {l : List ListNode} :
    removeLastEvictable l = none ↔ ∀ n ∈ l, n.evictable = false := by
  induction l with
  | nil => simp [removeLastEvictable]
  | cons n ns ih =>
    simp only [removeLastEvictable]
    rcases h : removeLastEvictable ns with _ | ⟨m, ns'⟩
    · rw [h] at ih
      simp only [true_iff] at ih
      constructor
      · intro hc
        by_cases he : n.evictable
        · rw [if_pos he] at hc; cases hc
        · intro m hm
          rw [List.mem_cons] at hm
          rcases hm with rfl | hm
          · exact Bool.eq_false_iff.2 he
          · exact ih m hm
      · intro hall
        rw [if_neg]; exact fun hc => by
          have := hall n (List.mem_cons_self n ns)
          rw [this] at hc; cases hc
    · simp only [h]
      constructor
      · intro hc; cases hc
      · intro hall
        have : ∀ x ∈ ns, x.evictable = false := fun x hx =>
          hall x (List.mem_cons_of_mem n hx)
        rw [ih.2 this] at h
        cases h

/-- `removeLastEvictable` returns the tail-most evictable node together
with the list without it. -/
theorem rle_eq_some {l : List ListNode} {n : ListNode} {l' : List ListNode}
    (h : removeLastEvictable l = some (n, l')) :
    ∃ l1 l2, l = l1 ++ n :: l2 ∧ l' = l1 ++ l2 ∧ n.evictable = true ∧
      ∀ m ∈ l2, m.evictable = false := by
  induction l generalizing l' with
  | nil => cases h
  | cons x xs ih =>
    simp only [removeLastEvictable] at h
    rcases hx : removeLastEvictable xs with _ | ⟨m, xs'⟩
    · rw [hx] at h
      by_cases he : x.evictable
      · rw [if_pos he] at h
        cases h
        exact ⟨[], xs, rfl, rfl, he, rle_eq_none.1 hx⟩
      · rw [if_neg he] at h; cases h
    · rw [hx] at h
      cases h
      obtain ⟨l1, l2, hl, hl', hev, hrest⟩ := ih hx
      exact ⟨x :: l1, l2, by rw [hl]; rfl, by rw [hl']; rfl, hev, hrest⟩

theorem nodesOf_eq_nil {l : List ListNode} {f : Nat} (h : f ∉ ids l) :
    nodesOf l f = [] := by
  unfold nodesOf
  rw [List.filter_eq_nil_iff]
  intro n hn
  simp only [beq_iff_eq]
  exact fun hc => h (mem_ids.2 ⟨n, hn, hc⟩)

theorem nodesOf_eq_single {f : Nat} {l l1 l2 : List ListNode} {n : ListNode}
    (hl : l = l1 ++ n :: l2) (hn : n.frameId = f)
    (h1 : f ∉ ids l1) (h2 : f ∉ ids l2) : nodesOf l f = [n] := by
  subst hl
  rw [nodesOf_append, nodesOf_eq_nil h1]
  show [] ++ nodesOf (n :: l2) f = [n]
  rw [List.nil_append]
  unfold nodesOf
  rw [List.filter_cons, if_pos (by simp [hn])]
  rw [show List.filter (fun n => n.frameId == f) l2 = nodesOf l2 f from rfl,
    nodesOf_eq_nil h2]

/-- In a well-formed replacer a tracked frame sits in exactly one of the
two lists. -/
theorem tracked_cases {r : LRUK} (hWF : WF r) {f : Nat} (h : tracked r f) :
    (f ∈ ids r.history ∧ f ∉ ids r.buffer) ∨
      (f ∉ ids r.history ∧ f ∈ ids r.buffer) := by
  obtain ⟨-, -, -, hnd, -⟩ := hWF
  have hdisj := (List.nodup_append.1 hnd).2.2
  rcases h with h | h
  · exact Or.inl ⟨h, fun hc => hdisj h hc⟩
  · exact Or.inr ⟨fun hc => hdisj hc h, h⟩

/-- Nodup of a list of ids split around one occurrence. -/
theorem nodup_split {A B : List Nat} {f : Nat} (h : (A ++ f :: B).Nodup) :
    f ∉ A ∧ f ∉ B ∧ (A ++ B).Nodup := by
  have hperm : (A ++ f :: B).Perm (f :: (A ++ B)) := List.perm_middle
  have h2 := hperm.nodup h
  rw [List.nodup_cons, List.mem_append] at h2
  push_neg at h2
  exact ⟨h2.1.1, h2.1.2, h2.2⟩

/-!  Branch-level unfoldings of `recordBump`. -/

theorem recordBump_toCache {r : LRUK} {f : Nat} {n : ListNode}
    (h : n.accessTimes + 1 = r.k) :
    recordBump r f n =
      { r with history := eraseF r.history f, histSize := r.histSize - 1,
               buffer := { n with accessTimes := n.accessTimes + 1 } :: eraseF r.buffer f,
               bufSize := r.bufSize + 1 } := by
  simp only [recordBump, if_pos h]

theorem recordBump_toHistHead {r : LRUK} {f : Nat} {n : ListNode}
    (h1 : n.accessTimes + 1 ≠ r.k) (h2 : n.accessTimes + 1 < r.k)
    (h3 : n.accessTimes + 1 ≠ 1) :
    recordBump r f n =
      { r with history := { n with accessTimes := n.accessTimes + 1 } :: eraseF r.history f,
               buffer := eraseF r.buffer f } := by
  simp only [recordBump, if_neg h1, if_pos h2, if_pos h3]

theorem recordBump_inPlace {r : LRUK} {f : Nat} {n : ListNode}
    (h1 : n.accessTimes + 1 ≠ r.k) (h2 : n.accessTimes + 1 < r.k)
    (h3 : n.accessTimes + 1 = 1) :
    recordBump r f n =
      { r with history := updateF r.history f { n with accessTimes := n.accessTimes + 1 },
               buffer := updateF r.buffer f { n with accessTimes := n.accessTimes + 1 } } := by
  simp only [recordBump, if_neg h1, if_pos h2, if_neg (not_not.2 h3)]

theorem recordBump_toCacheHead {r : LRUK} {f : Nat} {n : ListNode}
    (h1 : n.accessTimes + 1 ≠ r.k) (h2 : ¬ n.accessTimes + 1 < r.k) :
    recordBump r f n =
      { r with history := eraseF r.history f,
               buffer := { n with accessTimes := n.accessTimes + 1 } :: eraseF r.buffer f } := by
  simp only [recordBump, if_neg h1, if_neg h2]

/-- `RecordAccess` on an unknown frame when the replacer is at capacity
is a no-op. -/
theorem recordAccess_full {r : LRUK} {f : Nat} (h : ¬ tracked r f)
    (hfull : r.histSize + r.bufSize = r.replacerSize) :
    recordAccess r f = r := by
  simp only [recordAccess, getNode?_eq_none h, if_pos hfull]

/-- `RecordAccess` never changes `curr_size_`, `replacer_size_` or
`k_`. -/
theorem recordAccess_const (r : LRUK) (f : Nat) :
    (recordAccess r f).currSize = r.currSize ∧
    (recordAccess r f).replacerSize = r.replacerSize ∧
    (recordAccess r f).k = r.k := by
  unfold recordAccess recordBump
  cases hg : getNode? r f <;> simp only [hg] <;> split_ifs <;> simp

theorem nodup_move_mid {A B C : List Nat} {f : Nat}
    (h : ((A ++ f :: B) ++ C).Nodup) : ((A ++ B) ++ f :: C).Nodup := by
  refine List.Perm.nodup ?_ h
  have p1 : List.Perm ((A ++ f :: B) ++ C) (f :: ((A ++ B) ++ C)) :=
    List.Perm.append_right C List.perm_middle
  have p2 : List.Perm ((A ++ B) ++ f :: C) (f :: ((A ++ B) ++ C)) :=
    List.perm_middle
  exact p1.trans p2.symm

theorem nodup_move_head {A B C : List Nat} {f : Nat}
    (h : ((A ++ f :: B) ++ C).Nodup) : ((f :: (A ++ B)) ++ C).Nodup :=
  List.Perm.nodup (List.Perm.append_right C List.perm_middle) h

theorem nodup_move_buf {A B C : List Nat} {f : Nat}
    (h : (A ++ (B ++ f :: C)).Nodup) : (A ++ f :: (B ++ C)).Nodup :=
  List.Perm.nodup (List.Perm.append_left A List.perm_middle) h

theorem countE_append (l1 l2 : List ListNode) :
    countE (l1 ++ l2) = countE l1 + countE l2 :=
  List.countP_append ..

theorem countE_cons (n : ListNode) (l : List ListNode) :
    countE (n :: l) = countE l + if n.evictable then 1 else 0 := by
  simp [countE, List.countP_cons]

/-- `RecordAccess` on a tracked frame: well-formedness is preserved, the
frame stays tracked with an unchanged evictable flag, every other frame
is untouched, and no node appears or disappears. -/
theorem recordAccess_tracked {r : LRUK} {f : Nat} (hWF : WF r) (ht : tracked r f) :
    WF (recordAccess r f) ∧
    tracked (recordAccess r f) f ∧
    (evictableIn (recordAccess r f) f ↔ evictableIn r f) ∧
    (∀ g, g ≠ f → nodesOf (recordAccess r f).history g = nodesOf r.history g ∧
      nodesOf (recordAccess r f).buffer g = nodesOf r.buffer g) ∧
    (recordAccess r f).history.length + (recordAccess r f).buffer.length
      = r.history.length + r.buffer.length ∧
    (recordAccess r f).histSize + (recordAccess r f).bufSize
      = r.histSize + r.bufSize := by
  obtain ⟨h1, h2, h3, h4, h5, h6, h7, h8⟩ := hWF
  rcases tracked_cases ⟨h1, h2, h3, h4, h5, h6, h7, h8⟩ ht with ⟨hh, hb⟩ | ⟨hh, hb⟩
  · -- the frame's node lives in the history list
    obtain ⟨l1, n, l2, hl, hnf, hl1, herase, hfind⟩ := findF_decomp hh
    have hga : getNode? r f = some n := by
      unfold getNode?
      rw [find?_eq_none_of_not_mem hb, hfind]
    have hra : recordAccess r f = recordBump r f n := by
      simp only [recordAccess, hga]
    have hnH : n ∈ r.history := by
      rw [hl]
      exact List.mem_append.2 (Or.inr (List.mem_cons_self _ _))
    have hbound := h5 n hnH
    have hidh : ids r.history = ids l1 ++ f :: ids l2 := by
      rw [hl, ids_append, ids_cons, hnf]
    have hl2 : f ∉ ids l2 := by
      have hx := (List.nodup_append.1 h4).1
      rw [hidh] at hx
      exact (nodup_split hx).2.1
    have hNfh : nodesOf r.history f = [n] := nodesOf_eq_single hl hnf hl1 hl2
    have hNfb : nodesOf r.buffer f = [] := nodesOf_eq_nil hb
    have hlen1 : r.history.length = l1.length + 1 + l2.length := by
      rw [hl, List.length_append, List.length_cons]
      omega
    have hnodesH : ∀ g, g ≠ f → nodesOf (l1 ++ l2) g = nodesOf r.history g := by
      intro g hg
      rw [hl, nodesOf_append, nodesOf_append,
        nodesOf_cons_ne l2 (by rw [hnf]; exact fun hc => hg hc.symm)]
    by_cases hak : n.accessTimes + 1 = r.k
    · rw [hra, recordBump_toCache hak, herase, eraseF_of_not_mem hb]
      have hids : ids ({ n with accessTimes := n.accessTimes + 1 } :: r.buffer)
          = f :: ids r.buffer := by
        simp [ids, hnf]
      have hN1 : nodesOf ({ n with accessTimes := n.accessTimes + 1 } :: r.buffer) f
          = { n with accessTimes := n.accessTimes + 1 } :: nodesOf r.buffer f := by
        simp [nodesOf, List.filter_cons, hnf]
      have hNg : ∀ g, g ≠ f →
          nodesOf ({ n with accessTimes := n.accessTimes + 1 } :: r.buffer) g
            = nodesOf r.buffer g := by
        intro g hg
        refine nodesOf_cons_ne _ ?_
        intro hc
        have hcg : n.frameId = g := hc
        rw [hnf] at hcg
        exact hg hcg.symm
      have hcE : countE ({ n with accessTimes := n.accessTimes + 1 } :: r.buffer)
          = countE r.buffer + if n.evictable then 1 else 0 := by
        cases hne : n.evictable <;> simp [countE, List.countP_cons, hne]
      refine ⟨⟨?_, ?_, ?_, ?_, ?_, ?_, ?_, h8⟩, ?_, ?_, ?_, ?_, ?_⟩
      · show r.histSize - 1 = (l1 ++ l2).length
        rw [h1, hlen1, List.length_append]
        omega
      · show r.bufSize + 1 = ({ n with accessTimes := n.accessTimes + 1 } :: r.buffer).length
        rw [h2, List.length_cons]
      · show r.currSize = countE (l1 ++ l2)
          + countE ({ n with accessTimes := n.accessTimes + 1 } :: r.buffer)
        have e1 : countE r.history = countE l1 + (countE l2 + if n.evictable then 1 else 0) := by
          rw [hl, countE_append, countE_cons]
        rw [h3, e1, hcE, countE_append]
        omega
      · show (ids (l1 ++ l2)
          ++ ids ({ n with accessTimes := n.accessTimes + 1 } :: r.buffer)).Nodup
        rw [hids, ids_append]
        refine nodup_move_mid ?_
        rw [← hidh]
        exact h4
      · intro m hm
        refine h5 m ?_
        rw [hl]
        rcases List.mem_append.1 hm with hm | hm
        · exact List.mem_append.2 (Or.inl hm)
        · exact List.mem_append.2 (Or.inr (List.mem_cons_of_mem _ hm))
      · intro m hm
        rcases List.mem_cons.1 hm with rfl | hm
        · show r.k ≤ n.accessTimes + 1
          omega
        · exact h6 m hm
      · show (l1 ++ l2).length
          + ({ n with accessTimes := n.accessTimes + 1 } :: r.buffer).length
          ≤ r.replacerSize
        rw [List.length_append, List.length_cons]
        rw [hlen1] at h7
        omega
      · show tracked _ f
        right
        show f ∈ ids ({ n with accessTimes := n.accessTimes + 1 } :: r.buffer)
        rw [hids]
        exact List.mem_cons_self _ _
      · rw [evictableIn_iff_nodesOf, evictableIn_iff_nodesOf]
        show (∃ m ∈ nodesOf (l1 ++ l2) f
          ++ nodesOf ({ n with accessTimes := n.accessTimes + 1 } :: r.buffer) f,
          m.evictable = true) ↔ _
        rw [hN1, hNfh, hNfb, nodesOf_append, nodesOf_eq_nil hl1, nodesOf_eq_nil hl2]
        simp
      · intro g hg
        exact ⟨hnodesH g hg, hNg g hg⟩
      · show (l1 ++ l2).length
          + ({ n with accessTimes := n.accessTimes + 1 } :: r.buffer).length = _
        rw [List.length_append, List.length_cons, hlen1]
        omega
      · show r.histSize - 1 + (r.bufSize + 1) = r.histSize + r.bufSize
        rw [h1, hlen1]
        omega
    · have halt : n.accessTimes + 1 < r.k := lt_of_le_of_ne (by omega) hak
      have ha1 : n.accessTimes + 1 ≠ 1 := by omega
      rw [hra, recordBump_toHistHead hak halt ha1, herase, eraseF_of_not_mem hb]
      have hids : ids ({ n with accessTimes := n.accessTimes + 1 } :: (l1 ++ l2))
          = f :: ids (l1 ++ l2) := by
        simp [ids, hnf]
      have hN1 : nodesOf ({ n with accessTimes := n.accessTimes + 1 } :: (l1 ++ l2)) f
          = { n with accessTimes := n.accessTimes + 1 }
            :: (nodesOf l1 f ++ nodesOf l2 f) := by
        simp [nodesOf, List.filter_cons, List.filter_append, hnf]
      have hNg : ∀ g, g ≠ f →
          nodesOf ({ n with accessTimes := n.accessTimes + 1 } :: (l1 ++ l2)) g
            = nodesOf (l1 ++ l2) g := by
        intro g hg
        refine nodesOf_cons_ne _ ?_
        intro hc
        have hcg : n.frameId = g := hc
        rw [hnf] at hcg
        exact hg hcg.symm
      have hcE : countE ({ n with accessTimes := n.accessTimes + 1 } :: (l1 ++ l2))
          = countE (l1 ++ l2) + if n.evictable then 1 else 0 := by
        cases hne : n.evictable <;> simp [countE, List.countP_cons, hne]
      refine ⟨⟨?_, h2, ?_, ?_, ?_, h6, ?_, h8⟩, ?_, ?_, ?_, ?_, ?_⟩
      · show r.histSize = ({ n with accessTimes := n.accessTimes + 1 } :: (l1 ++ l2)).length
        rw [h1, hlen1, List.length_cons, List.length_append]
        omega
      · show r.currSize = countE ({ n with accessTimes := n.accessTimes + 1 } :: (l1 ++ l2))
          + countE r.buffer
        have e1 : countE r.history
            = countE l1 + (countE l2 + if n.evictable then 1 else 0) := by
          rw [hl, countE_append, countE_cons]
        rw [h3, e1, hcE, countE_append]
        omega
      · show (ids ({ n with accessTimes := n.accessTimes + 1 } :: (l1 ++ l2))
          ++ ids r.buffer).Nodup
        rw [hids, ids_append]
        refine nodup_move_head ?_
        rw [← hidh]
        exact h4
      · intro m hm
        rcases List.mem_cons.1 hm with rfl | hm
        · exact ⟨Nat.succ_le_succ (Nat.zero_le _), halt⟩
        · refine h5 m ?_
          rw [hl]
          rcases List.mem_append.1 hm with hm | hm
          · exact List.mem_append.2 (Or.inl hm)
          · exact List.mem_append.2 (Or.inr (List.mem_cons_of_mem _ hm))
      · show ({ n with accessTimes := n.accessTimes + 1 } :: (l1 ++ l2)).length
          + r.buffer.length ≤ r.replacerSize
        rw [List.length_cons, List.length_append]
        rw [hlen1] at h7
        omega
      · show tracked _ f
        left
        show f ∈ ids ({ n with accessTimes := n.accessTimes + 1 } :: (l1 ++ l2))
        rw [hids]
        exact List.mem_cons_self _ _
      · rw [evictableIn_iff_nodesOf, evictableIn_iff_nodesOf]
        show (∃ m ∈ nodesOf ({ n with accessTimes := n.accessTimes + 1 } :: (l1 ++ l2)) f
          ++ nodesOf r.buffer f, m.evictable = true) ↔ _
        rw [hNfh, hNfb, hN1, nodesOf_eq_nil hl1, nodesOf_eq_nil hl2]
        simp
      · intro g hg
        refine ⟨?_, rfl⟩
        show nodesOf ({ n with accessTimes := n.accessTimes + 1 } :: (l1 ++ l2)) g
          = nodesOf r.history g
        rw [hNg g hg]
        exact hnodesH g hg
      · show ({ n with accessTimes := n.accessTimes + 1 } :: (l1 ++ l2)).length
          + r.buffer.length = _
        rw [List.length_cons, List.length_append, hlen1]
        omega
      · rfl
  · -- the frame's node lives in the cache list
    obtain ⟨l1, n, l2, hl, hnf, hl1, herase, hfind⟩ := findF_decomp hb
    have hga : getNode? r f = some n := by
      unfold getNode?
      rw [hfind]
    have hra : recordAccess r f = recordBump r f n := by
      simp only [recordAccess, hga]
    have hnB : n ∈ r.buffer := by
      rw [hl]
      exact List.mem_append.2 (Or.inr (List.mem_cons_self _ _))
    have hbound := h6 n hnB
    have hidb : ids r.buffer = ids l1 ++ f :: ids l2 := by
      rw [hl, ids_append, ids_cons, hnf]
    have hl2 : f ∉ ids l2 := by
      have hx := (List.nodup_append.1 h4).2.1
      rw [hidb] at hx
      exact (nodup_split hx).2.1
    have hNfh : nodesOf r.history f = [] := nodesOf_eq_nil hh
    have hNfb : nodesOf r.buffer f = [n] := nodesOf_eq_single hl hnf hl1 hl2
    have hlen1 : r.buffer.length = l1.length + 1 + l2.length := by
      rw [hl, List.length_append, List.length_cons]
      omega
    have hnodesB : ∀ g, g ≠ f → nodesOf (l1 ++ l2) g = nodesOf r.buffer g := by
      intro g hg
      rw [hl, nodesOf_append, nodesOf_append,
        nodesOf_cons_ne l2 (by rw [hnf]; exact fun hc => hg hc.symm)]
    have hak : n.accessTimes + 1 ≠ r.k := by omega
    have halt : ¬ n.accessTimes + 1 < r.k := by omega
    rw [hra, recordBump_toCacheHead hak halt, eraseF_of_not_mem hh, herase]
    have hids : ids ({ n with accessTimes := n.accessTimes + 1 } :: (l1 ++ l2))
        = f :: ids (l1 ++ l2) := by
      simp [ids, hnf]
    have hN1 : nodesOf ({ n with accessTimes := n.accessTimes + 1 } :: (l1 ++ l2)) f
        = { n with accessTimes := n.accessTimes + 1 }
          :: (nodesOf l1 f ++ nodesOf l2 f) := by
      simp [nodesOf, List.filter_cons, List.filter_append, hnf]
    have hNg : ∀ g, g ≠ f →
        nodesOf ({ n with accessTimes := n.accessTimes + 1 } :: (l1 ++ l2)) g
          = nodesOf (l1 ++ l2) g := by
      intro g hg
      refine nodesOf_cons_ne _ ?_
      intro hc
      have hcg : n.frameId = g := hc
      rw [hnf] at hcg
      exact hg hcg.symm
    have hcE : countE ({ n with accessTimes := n.accessTimes + 1 } :: (l1 ++ l2))
        = countE (l1 ++ l2) + if n.evictable then 1 else 0 := by
      cases hne : n.evictable <;> simp [countE, List.countP_cons, hne]
    refine ⟨⟨h1, ?_, ?_, ?_, h5, ?_, ?_, h8⟩, ?_, ?_, ?_, ?_, ?_⟩
    · show r.bufSize = ({ n with accessTimes := n.accessTimes + 1 } :: (l1 ++ l2)).length
      rw [h2, hlen1, List.length_cons, List.length_append]
      omega
    · show r.currSize = countE r.history
        + countE ({ n with accessTimes := n.accessTimes + 1 } :: (l1 ++ l2))
      have e1 : countE r.buffer
          = countE l1 + (countE l2 + if n.evictable then 1 else 0) := by
        rw [hl, countE_append, countE_cons]
      rw [h3, e1, hcE, countE_append]
      omega
    · show (ids r.history
        ++ ids ({ n with accessTimes := n.accessTimes + 1 } :: (l1 ++ l2))).Nodup
      rw [hids, ids_append]
      refine nodup_move_buf ?_
      rw [← hidb]
      exact h4
    · intro m hm
      rcases List.mem_cons.1 hm with rfl | hm
      · show r.k ≤ n.accessTimes + 1
        omega
      · refine h6 m ?_
        rw [hl]
        rcases List.mem_append.1 hm with hm | hm
        · exact List.mem_append.2 (Or.inl hm)
        · exact List.mem_append.2 (Or.inr (List.mem_cons_of_mem _ hm))
    · show r.history.length
        + ({ n with accessTimes := n.accessTimes + 1 } :: (l1 ++ l2)).length
        ≤ r.replacerSize
      rw [List.length_cons, List.length_append]
      rw [hlen1] at h7
      omega
    · show tracked _ f
      right
      show f ∈ ids ({ n with accessTimes := n.accessTimes + 1 } :: (l1 ++ l2))
      rw [hids]
      exact List.mem_cons_self _ _
    · rw [evictableIn_iff_nodesOf, evictableIn_iff_nodesOf]
      show (∃ m ∈ nodesOf r.history f
        ++ nodesOf ({ n with accessTimes := n.accessTimes + 1 } :: (l1 ++ l2)) f,
        m.evictable = true) ↔ _
      rw [hNfh, hNfb, hN1, nodesOf_eq_nil hl1, nodesOf_eq_nil hl2]
      simp
    · intro g hg
      refine ⟨rfl, ?_⟩
      show nodesOf ({ n with accessTimes := n.accessTimes + 1 } :: (l1 ++ l2)) g
        = nodesOf r.buffer g
      rw [hNg g hg]
      exact hnodesB g hg
    · show r.history.length
        + ({ n with accessTimes := n.accessTimes + 1 } :: (l1 ++ l2)).length = _
      rw [List.length_cons, List.length_append, hlen1]
      omega
    · rfl

theorem nodup_insert_mid {A B : List Nat} {f : Nat} (h : (A ++ B).Nodup)
    (hA : f ∉ A) (hB : f ∉ B) : (A ++ f :: B).Nodup := by
  refine List.Perm.nodup List.perm_middle.symm ?_
  refine List.nodup_cons.2 ⟨?_, h⟩
  rw [List.mem_append]
  push_neg
  exact ⟨hA, hB⟩

theorem eraseF_cons (n : ListNode) (l : List ListNode) (f : Nat) :
    eraseF (n :: l) f = if n.frameId = f then l else n :: eraseF l f := rfl

theorem updateF_cons (n : ListNode) (l : List ListNode) (f : Nat) (node : ListNode) :
    updateF (n :: l) f node
      = (if n.frameId = f then node else n) :: updateF l f node := rfl

/-- `RecordAccess` on an unknown frame with room, when `K = 1`: the fresh
node's single access already reaches K, so it lands at the head of the
cache list. -/
theorem recordAccess_create_cache {r : LRUK} {f : Nat} (hg : getNode? r f = none)
    (hroom : r.histSize + r.bufSize ≠ r.replacerSize) (hk : r.k = 1)
    (hb : f ∉ ids r.buffer) :
    recordAccess r f =
      { r with buffer := ⟨f, 1, false⟩ :: r.buffer, bufSize := r.bufSize + 1 } := by
  simp [recordAccess, hg, hroom, recordBump, hk, eraseF_cons, eraseF_of_not_mem hb]

/-- `RecordAccess` on an unknown frame with room, when `K ≥ 2`: the fresh
node stays at the head of the history list with one access. -/
theorem recordAccess_create_hist {r : LRUK} {f : Nat} (hg : getNode? r f = none)
    (hroom : r.histSize + r.bufSize ≠ r.replacerSize) (hk : 2 ≤ r.k)
    (hh : f ∉ ids r.history) (hb : f ∉ ids r.buffer) :
    recordAccess r f =
      { r with history := ⟨f, 1, false⟩ :: r.history, histSize := r.histSize + 1 } := by
  have hne : (0 : Nat) + 1 ≠ r.k := by omega
  have hlt : (0 : Nat) + 1 < r.k := by omega
  simp [recordAccess, hg, hroom, recordBump, hne, hlt, updateF_cons,
    updateF_of_not_mem _ hh, updateF_of_not_mem _ hb]

/-- `RecordAccess` on an unknown frame when the replacer has room: the
frame becomes tracked and non-evictable, no other frame is touched, and
exactly one node is added. -/
theorem recordAccess_untracked_room {r : LRUK} {f : Nat} (hWF : WF r)
    (ht : ¬ tracked r f) (hroom : r.histSize + r.bufSize ≠ r.replacerSize) :
    WF (recordAccess r f) ∧
    tracked (recordAccess r f) f ∧
    ¬ evictableIn (recordAccess r f) f ∧
    (∀ g, g ≠ f → nodesOf (recordAccess r f).history g = nodesOf r.history g ∧
      nodesOf (recordAccess r f).buffer g = nodesOf r.buffer g) ∧
    (recordAccess r f).history.length + (recordAccess r f).buffer.length
      = r.history.length + r.buffer.length + 1 ∧
    (recordAccess r f).histSize + (recordAccess r f).bufSize
      = r.histSize + r.bufSize + 1 := by
  obtain ⟨h1, h2, h3, h4, h5, h6, h7, h8⟩ := hWF
  have hh : f ∉ ids r.history := fun hc => ht (Or.inl hc)
  have hb : f ∉ ids r.buffer := fun hc => ht (Or.inr hc)
  have hg : getNode? r f = none := getNode?_eq_none ht
  have hroom' : r.history.length + r.buffer.length < r.replacerSize := by
    rw [h1, h2] at hroom
    omega
  by_cases hk : r.k = 1
  · rw [recordAccess_create_cache hg hroom hk hb]
    have hN1 : nodesOf ((⟨f, 1, false⟩ : ListNode) :: r.buffer) f
        = (⟨f, 1, false⟩ : ListNode) :: nodesOf r.buffer f := by
      simp [nodesOf, List.filter_cons]
    have hids : ids ((⟨f, 1, false⟩ : ListNode) :: r.buffer) = f :: ids r.buffer := by
      simp [ids]
    refine ⟨⟨h1, ?_, ?_, ?_, h5, ?_, ?_, h8⟩, ?_, ?_, ?_, ?_, ?_⟩
    · show r.bufSize + 1 = ((⟨f, 1, false⟩ : ListNode) :: r.buffer).length
      rw [h2, List.length_cons]
    · show r.currSize = countE r.history + countE ((⟨f, 1, false⟩ : ListNode) :: r.buffer)
      rw [h3, show countE ((⟨f, 1, false⟩ : ListNode) :: r.buffer) = countE r.buffer from by
        simp [countE, List.countP_cons]]
    · show (ids r.history ++ ids ((⟨f, 1, false⟩ : ListNode) :: r.buffer)).Nodup
      rw [hids]
      exact nodup_insert_mid h4 hh hb
    · intro m hm
      rcases List.mem_cons.1 hm with rfl | hm
      · show r.k ≤ 1
        omega
      · exact h6 m hm
    · show r.history.length + ((⟨f, 1, false⟩ : ListNode) :: r.buffer).length
        ≤ r.replacerSize
      rw [List.length_cons]
      omega
    · show tracked _ f
      right
      show f ∈ ids ((⟨f, 1, false⟩ : ListNode) :: r.buffer)
      rw [hids]
      exact List.mem_cons_self _ _
    · rw [evictableIn_iff_nodesOf]
      show ¬ ∃ m ∈ nodesOf r.history f
        ++ nodesOf ((⟨f, 1, false⟩ : ListNode) :: r.buffer) f, m.evictable = true
      rw [hN1, nodesOf_eq_nil hh, nodesOf_eq_nil hb]
      simp
    · intro g hg'
      exact ⟨rfl, nodesOf_cons_ne _ (fun hc => hg' (show f = g from hc).symm)⟩
    · show r.history.length + ((⟨f, 1, false⟩ : ListNode) :: r.buffer).length = _
      rw [List.length_cons]
      omega
    · show r.histSize + (r.bufSize + 1) = _
      omega
  · have hk2 : 2 ≤ r.k := by omega
    rw [recordAccess_create_hist hg hroom hk2 hh hb]
    have hN1 : nodesOf ((⟨f, 1, false⟩ : ListNode) :: r.history) f
        = (⟨f, 1, false⟩ : ListNode) :: nodesOf r.history f := by
      simp [nodesOf, List.filter_cons]
    have hids : ids ((⟨f, 1, false⟩ : ListNode) :: r.history) = f :: ids r.history := by
      simp [ids]
    refine ⟨⟨?_, h2, ?_, ?_, ?_, h6, ?_, h8⟩, ?_, ?_, ?_, ?_, ?_⟩
    · show r.histSize + 1 = ((⟨f, 1, false⟩ : ListNode) :: r.history).length
      rw [h1, List.length_cons]
    · show r.currSize = countE ((⟨f, 1, false⟩ : ListNode) :: r.history) + countE r.buffer
      rw [h3, show countE ((⟨f, 1, false⟩ : ListNode) :: r.history) = countE r.history from by
        simp [countE, List.countP_cons]]
    · show (ids ((⟨f, 1, false⟩ : ListNode) :: r.history) ++ ids r.buffer).Nodup
      rw [hids]
      show (f :: (ids r.history ++ ids r.buffer)).Nodup
      refine List.nodup_cons.2 ⟨?_, h4⟩
      rw [List.mem_append]
      push_neg
      exact ⟨hh, hb⟩
    · intro m hm
      rcases List.mem_cons.1 hm with rfl | hm
      · exact ⟨le_refl 1, show (1 : Nat) < r.k by omega⟩
      · exact h5 m hm
    · show ((⟨f, 1, false⟩ : ListNode) :: r.history).length + r.buffer.length
        ≤ r.replacerSize
      rw [List.length_cons]
      omega
    · show tracked _ f
      left
      show f ∈ ids ((⟨f, 1, false⟩ : ListNode) :: r.history)
      rw [hids]
      exact List.mem_cons_self _ _
    · rw [evictableIn_iff_nodesOf]
      show ¬ ∃ m ∈ nodesOf ((⟨f, 1, false⟩ : ListNode) :: r.history) f
        ++ nodesOf r.buffer f, m.evictable = true
      rw [hN1, nodesOf_eq_nil hh, nodesOf_eq_nil hb]
      simp
    · intro g hg'
      exact ⟨nodesOf_cons_ne _ (fun hc => hg' (show f = g from hc).symm), rfl⟩
    · show ((⟨f, 1, false⟩ : ListNode) :: r.history).length + r.buffer.length = _
      rw [List.length_cons]
      omega
    · show r.histSize + 1 + r.bufSize = _
      omega

theorem updateF_decomp {l l1 l2 : List ListNode} {n node : ListNode} {f : Nat}
    (hl : l = l1 ++ n :: l2) (hn : n.frameId = f) (h1 : f ∉ ids l1) (h2 : f ∉ ids l2) :
    updateF l f node = l1 ++ node :: l2 := by
  subst hl
  show List.map _ (l1 ++ n :: l2) = _
  rw [List.map_append, List.map_cons]
  rw [show List.map (fun m => if m.frameId = f then node else m) l1 = updateF l1 f node
    from rfl]
  rw [show List.map (fun m => if m.frameId = f then node else m) l2 = updateF l2 f node
    from rfl]
  rw [updateF_of_not_mem _ h1, updateF_of_not_mem _ h2, if_pos hn]

/-- `SetEvictable` on an unknown frame is a no-op. -/
theorem setEvictable_not_tracked {r : LRUK} {f : Nat} {b : Bool}
    (h : ¬ tracked r f) : setEvictable r f b = r := by
  simp only [setEvictable, getNode?_eq_none h]

theorem countE_cons_true {n : ListNode} (hn : n.evictable = true)
    (l : List ListNode) : countE (n :: l) = countE l + 1 := by
  simp [countE, List.countP_cons, hn]

theorem countE_cons_false {n : ListNode} (hn : n.evictable = false)
    (l : List ListNode) : countE (n :: l) = countE l := by
  simp [countE, List.countP_cons, hn]

/-- `SetEvictable` on a tracked frame: well-formedness is preserved, the
frame stays tracked, its evictability becomes the requested flag, and
nothing else changes. -/
theorem setEvictable_tracked {r : LRUK} {f : Nat} {b : Bool} (hWF : WF r)
    (ht : tracked r f) :
    WF (setEvictable r f b) ∧
    tracked (setEvictable r f b) f ∧
    (evictableIn (setEvictable r f b) f ↔ b = true) ∧
    (∀ g, g ≠ f → nodesOf (setEvictable r f b).history g = nodesOf r.history g ∧
      nodesOf (setEvictable r f b).buffer g = nodesOf r.buffer g) ∧
    (setEvictable r f b).history.length = r.history.length ∧
    (setEvictable r f b).buffer.length = r.buffer.length ∧
    (setEvictable r f b).histSize = r.histSize ∧
    (setEvictable r f b).bufSize = r.bufSize ∧
    (setEvictable r f b).replacerSize = r.replacerSize ∧
    (setEvictable r f b).k = r.k := by
  obtain ⟨h1, h2, h3, h4, h5, h6, h7, h8⟩ := hWF
  rcases tracked_cases ⟨h1, h2, h3, h4, h5, h6, h7, h8⟩ ht with ⟨hh, hb⟩ | ⟨hh, hb⟩
  · obtain ⟨l1, n, l2, hl, hnf, hl1, herase, hfind⟩ := findF_decomp hh
    have hga : getNode? r f = some n := by
      unfold getNode?
      rw [find?_eq_none_of_not_mem hb, hfind]
    have hidh : ids r.history = ids l1 ++ f :: ids l2 := by
      rw [hl, ids_append, ids_cons, hnf]
    have hl2 : f ∉ ids l2 := by
      have hx := (List.nodup_append.1 h4).1
      rw [hidh] at hx
      exact (nodup_split hx).2.1
    have hmem : n ∈ r.history := by
      rw [hl]
      exact List.mem_append_right _ (List.mem_cons_self _ _)
    have hsub : ∀ m, m ∈ l1 ∨ m ∈ l2 → m ∈ r.history := by
      intro m hm
      rw [hl]
      rcases hm with hm | hm
      · exact List.mem_append_left _ hm
      · exact List.mem_append_right _ (List.mem_cons_of_mem _ hm)
    have hNfh : nodesOf r.history f = [n] := nodesOf_eq_single hl hnf hl1 hl2
    have hNfb : nodesOf r.buffer f = [] := nodesOf_eq_nil hb
    by_cases heb : n.evictable = b
    · have hre : setEvictable r f b = r := by
        simp only [setEvictable, hga, if_pos heb]
      rw [hre]
      refine ⟨⟨h1, h2, h3, h4, h5, h6, h7, h8⟩, ht, ?_, fun g _ => ⟨rfl, rfl⟩,
        rfl, rfl, rfl, rfl, rfl, rfl⟩
      rw [evictableIn_iff_nodesOf, hNfh, hNfb, ← heb]
      simp
    · have hre : setEvictable r f b =
          { r with history := updateF r.history f { n with evictable := b },
                   buffer := updateF r.buffer f { n with evictable := b },
                   currSize := if b then r.currSize + 1 else r.currSize - 1 } := by
        simp only [setEvictable, hga, if_neg heb]
      have hupH : updateF r.history f { n with evictable := b }
          = l1 ++ { n with evictable := b } :: l2 :=
        updateF_decomp hl hnf hl1 hl2
      have hupB : updateF r.buffer f { n with evictable := b } = r.buffer :=
        updateF_of_not_mem _ hb
      have hidh' : ids (l1 ++ { n with evictable := b } :: l2) = ids r.history := by
        rw [ids_append, ids_cons]
        show ids l1 ++ n.frameId :: ids l2 = _
        rw [hnf, hidh]
      have hlenH : (l1 ++ { n with evictable := b } :: l2).length
          = r.history.length := by
        rw [hl]
        simp
      have hNf' : nodesOf (l1 ++ { n with evictable := b } :: l2) f
          = [{ n with evictable := b }] :=
        nodesOf_eq_single rfl hnf hl1 hl2
      rw [hre]
      refine ⟨⟨?_, ?_, ?_, ?_, ?_, ?_, ?_, h8⟩, ?_, ?_, ?_, ?_, ?_, rfl, rfl, rfl, rfl⟩
      · show r.histSize = (updateF r.history f _).length
        rw [hupH, hlenH, h1]
      · show r.bufSize = (updateF r.buffer f _).length
        rw [hupB, h2]
      · show (if b then r.currSize + 1 else r.currSize - 1)
          = countE (updateF r.history f _) + countE (updateF r.buffer f _)
        rw [hupH, hupB]
        cases b
        · have hnv : n.evictable = true := by
            cases hne : n.evictable
            · exact absurd hne heb
            · rfl
          have hc1 : countE r.history = countE l1 + (countE l2 + 1) := by
            rw [hl, countE_append, countE_cons_true hnv]
          have hc2 : countE (l1 ++ ({ n with evictable := false } : ListNode) :: l2)
              = countE l1 + countE l2 := by
            rw [countE_append, countE_cons_false rfl]
          rw [if_neg Bool.false_ne_true, h3, hc1, hc2]
          omega
        · have hnv : n.evictable = false := by
            cases hne : n.evictable
            · rfl
            · exact absurd hne heb
          have hc1 : countE r.history = countE l1 + countE l2 := by
            rw [hl, countE_append, countE_cons_false hnv]
          have hc2 : countE (l1 ++ ({ n with evictable := true } : ListNode) :: l2)
              = countE l1 + (countE l2 + 1) := by
            rw [countE_append, countE_cons_true rfl]
          rw [if_pos rfl, h3, hc1, hc2]
          omega
      · show (ids (updateF r.history f _) ++ ids (updateF r.buffer f _)).Nodup
        rw [hupH, hupB, hidh']
        exact h4
      · intro m hm
        rw [hupH] at hm
        rcases List.mem_append.1 hm with hm | hm
        · exact h5 m (hsub m (Or.inl hm))
        · rcases List.mem_cons.1 hm with rfl | hm
          · show 1 ≤ n.accessTimes ∧ n.accessTimes < r.k
            exact h5 n hmem
          · exact h5 m (hsub m (Or.inr hm))
      · intro m hm
        rw [hupB] at hm
        exact h6 m hm
      · show (updateF r.history f _).length + (updateF r.buffer f _).length
          ≤ r.replacerSize
        rw [hupH, hupB, hlenH]
        exact h7
      · show tracked _ f
        left
        show f ∈ ids (updateF r.history f _)
        rw [hupH, hidh']
        exact hh
      · rw [evictableIn_iff_nodesOf]
        show (∃ m ∈ nodesOf (updateF r.history f _) f
          ++ nodesOf (updateF r.buffer f _) f, m.evictable = true) ↔ _
        rw [hupH, hupB, hNf', hNfb]
        cases b <;> simp
      · intro g hg
        constructor
        · show nodesOf (updateF r.history f _) g = nodesOf r.history g
          exact nodesOf_updateF_ne hnf hg
        · show nodesOf (updateF r.buffer f _) g = nodesOf r.buffer g
          exact nodesOf_updateF_ne hnf hg
      · show (updateF r.history f _).length = r.history.length
        rw [hupH, hlenH]
      · show (updateF r.buffer f _).length = r.buffer.length
        rw [hupB]
  · obtain ⟨l1, n, l2, hl, hnf, hl1, herase, hfind⟩ := findF_decomp hb
    have hga : getNode? r f = some n := by
      unfold getNode?
      rw [hfind]
    have hidb : ids r.buffer = ids l1 ++ f :: ids l2 := by
      rw [hl, ids_append, ids_cons, hnf]
    have hl2 : f ∉ ids l2 := by
      have hx := (List.nodup_append.1 h4).2.1
      rw [hidb] at hx
      exact (nodup_split hx).2.1
    have hmem : n ∈ r.buffer := by
      rw [hl]
      exact List.mem_append_right _ (List.mem_cons_self _ _)
    have hsub : ∀ m, m ∈ l1 ∨ m ∈ l2 → m ∈ r.buffer := by
      intro m hm
      rw [hl]
      rcases hm with hm | hm
      · exact List.mem_append_left _ hm
      · exact List.mem_append_right _ (List.mem_cons_of_mem _ hm)
    have hNfh : nodesOf r.history f = [] := nodesOf_eq_nil hh
    have hNfb : nodesOf r.buffer f = [n] := nodesOf_eq_single hl hnf hl1 hl2
    by_cases heb : n.evictable = b
    · have hre : setEvictable r f b = r := by
        simp only [setEvictable, hga, if_pos heb]
      rw [hre]
      refine ⟨⟨h1, h2, h3, h4, h5, h6, h7, h8⟩, ht, ?_, fun g _ => ⟨rfl, rfl⟩,
        rfl, rfl, rfl, rfl, rfl, rfl⟩
      rw [evictableIn_iff_nodesOf, hNfh, hNfb, ← heb]
      simp
    · have hre : setEvictable r f b =
          { r with history := updateF r.history f { n with evictable := b },
                   buffer := updateF r.buffer f { n with evictable := b },
                   currSize := if b then r.currSize + 1 else r.currSize - 1 } := by
        simp only [setEvictable, hga, if_neg heb]
      have hupB : updateF r.buffer f { n with evictable := b }
          = l1 ++ { n with evictable := b } :: l2 :=
        updateF_decomp hl hnf hl1 hl2
      have hupH : updateF r.history f { n with evictable := b } = r.history :=
        updateF_of_not_mem _ hh
      have hidb' : ids (l1 ++ { n with evictable := b } :: l2) = ids r.buffer := by
        rw [ids_append, ids_cons]
        show ids l1 ++ n.frameId :: ids l2 = _
        rw [hnf, hidb]
      have hlenB : (l1 ++ { n with evictable := b } :: l2).length
          = r.buffer.length := by
        rw [hl]
        simp
      have hNf' : nodesOf (l1 ++ { n with evictable := b } :: l2) f
          = [{ n with evictable := b }] :=
        nodesOf_eq_single rfl hnf hl1 hl2
      rw [hre]
      refine ⟨⟨?_, ?_, ?_, ?_, ?_, ?_, ?_, h8⟩, ?_, ?_, ?_, ?_, ?_, rfl, rfl, rfl, rfl⟩
      · show r.histSize = (updateF r.history f _).length
        rw [hupH, h1]
      · show r.bufSize = (updateF r.buffer f _).length
        rw [hupB, hlenB, h2]
      · show (if b then r.currSize + 1 else r.currSize - 1)
          = countE (updateF r.history f _) + countE (updateF r.buffer f _)
        rw [hupH, hupB]
        cases b
        · have hnv : n.evictable = true := by
            cases hne : n.evictable
            · exact absurd hne heb
            · rfl
          have hc1 : countE r.buffer = countE l1 + (countE l2 + 1) := by
            rw [hl, countE_append, countE_cons_true hnv]
          have hc2 : countE (l1 ++ ({ n with evictable := false } : ListNode) :: l2)
              = countE l1 + countE l2 := by
            rw [countE_append, countE_cons_false rfl]
          rw [if_neg Bool.false_ne_true, h3, hc1, hc2]
          omega
        · have hnv : n.evictable = false := by
            cases hne : n.evictable
            · rfl
            · exact absurd hne heb
          have hc1 : countE r.buffer = countE l1 + countE l2 := by
            rw [hl, countE_append, countE_cons_false hnv]
          have hc2 : countE (l1 ++ ({ n with evictable := true } : ListNode) :: l2)
              = countE l1 + (countE l2 + 1) := by
            rw [countE_append, countE_cons_true rfl]
          rw [if_pos rfl, h3, hc1, hc2]
          omega
      · show (ids (updateF r.history f _) ++ ids (updateF r.buffer f _)).Nodup
        rw [hupH, hupB, hidb']
        exact h4
      · intro m hm
        rw [hupH] at hm
        exact h5 m hm
      · intro m hm
        rw [hupB] at hm
        rcases List.mem_append.1 hm with hm | hm
        · exact h6 m (hsub m (Or.inl hm))
        · rcases List.mem_cons.1 hm with rfl | hm
          · show r.k ≤ n.accessTimes
            exact h6 n hmem
          · exact h6 m (hsub m (Or.inr hm))
      · show (updateF r.history f _).length + (updateF r.buffer f _).length
          ≤ r.replacerSize
        rw [hupH, hupB, hlenB]
        exact h7
      · show tracked _ f
        right
        show f ∈ ids (updateF r.buffer f _)
        rw [hupB, hidb']
        exact hb
      · rw [evictableIn_iff_nodesOf]
        show (∃ m ∈ nodesOf (updateF r.history f _) f
          ++ nodesOf (updateF r.buffer f _) f, m.evictable = true) ↔ _
        rw [hupH, hupB, hNf', hNfh]
        cases b <;> simp
      · intro g hg
        constructor
        · show nodesOf (updateF r.history f _) g = nodesOf r.history g
          exact nodesOf_updateF_ne hnf hg
        · show nodesOf (updateF r.buffer f _) g = nodesOf r.buffer g
          exact nodesOf_updateF_ne hnf hg
      · show (updateF r.history f _).length = r.history.length
        rw [hupH]
      · show (updateF r.buffer f _).length = r.buffer.length
        rw [hupB, hlenB]

theorem nodup_remove_mid {A B C : List Nat} {f : Nat}
    (h : ((A ++ f :: B) ++ C).Nodup) : ((A ++ B) ++ C).Nodup ∧ f ∉ (A ++ B) ++ C := by
  have hp : List.Perm ((A ++ f :: B) ++ C) (f :: ((A ++ B) ++ C)) :=
    List.Perm.append_right C List.perm_middle
  have h2 := hp.nodup h
  rw [List.nodup_cons] at h2
  exact ⟨h2.2, h2.1⟩

theorem nodup_remove_buf {A B C : List Nat} {f : Nat}
    (h : (A ++ (B ++ f :: C)).Nodup) : (A ++ (B ++ C)).Nodup ∧ f ∉ A ++ (B ++ C) := by
  have hp : List.Perm (A ++ (B ++ f :: C)) (f :: (A ++ (B ++ C))) := by
    have p1 : List.Perm (B ++ f :: C) (f :: (B ++ C)) := List.perm_middle
    have p2 := List.Perm.append_left A p1
    exact p2.trans (@List.perm_middle _ f A (B ++ C))
  have h2 := hp.nodup h
  rw [List.nodup_cons] at h2
  exact ⟨h2.2, h2.1⟩

/-- A failed `Evict` leaves the replacer untouched. -/
theorem evict_none_eq {r : LRUK} (h : (evict r).1 = none) : (evict r).2 = r := by
  by_cases hc : r.currSize = 0
  · simp [evict, hc]
  · rcases hH : removeLastEvictable r.history with _ | ⟨n, h'⟩
    · rcases hB : removeLastEvictable r.buffer with _ | ⟨m, b'⟩
      · simp [evict, hc, hH, hB]
      · simp [evict, hc, hH, hB] at h
    · simp [evict, hc, hH] at h

/-- Under well-formedness a failed `Evict` means no tracked frame is
evictable at all. -/
theorem evict_none_no_evictable {r : LRUK} (hWF : WF r)
    (h : (evict r).1 = none) : ∀ f, ¬ evictableIn r f := by
  obtain ⟨h1, h2, h3, h4, h5, h6, h7, h8⟩ := hWF
  have hall : ∀ n ∈ r.history ++ r.buffer, n.evictable = false := by
    by_cases hc : r.currSize = 0
    · rw [hc] at h3
      intro n hn
      rcases List.mem_append.1 hn with hn | hn
      · exact Bool.eq_false_iff.2
          (List.countP_eq_zero.1 (by omega : countE r.history = 0) n hn)
      · exact Bool.eq_false_iff.2
          (List.countP_eq_zero.1 (by omega : countE r.buffer = 0) n hn)
    · rcases hH : removeLastEvictable r.history with _ | ⟨n, h'⟩
      · rcases hB : removeLastEvictable r.buffer with _ | ⟨m, b'⟩
        · intro n hn
          rcases List.mem_append.1 hn with hn | hn
          · exact rle_eq_none.1 hH n hn
          · exact rle_eq_none.1 hB n hn
        · rw [show (evict r).1 = some m.frameId from by
            simp [evict, hc, hH, hB]] at h
          cases h
      · rw [show (evict r).1 = some n.frameId from by
          simp [evict, hc, hH]] at h
        cases h
  rintro f ⟨n, hn, -, he⟩
  rw [hall n hn] at he
  cases he

/-- A successful `Evict` removes exactly the returned frame, preserves
well-formedness and every other frame's state, and decrements the
size counters. -/
theorem evict_spec_some {r : LRUK} {f : Nat} (hWF : WF r)
    (h : (evict r).1 = some f) :
    WF (evict r).2 ∧ tracked r f ∧ evictableIn r f ∧
    ¬ tracked (evict r).2 f ∧
    (∀ g, g ≠ f → nodesOf (evict r).2.history g = nodesOf r.history g ∧
      nodesOf (evict r).2.buffer g = nodesOf r.buffer g) ∧
    (evict r).2.currSize = r.currSize - 1 ∧
    (evict r).2.history.length + (evict r).2.buffer.length + 1
      = r.history.length + r.buffer.length ∧
    (evict r).2.histSize + (evict r).2.bufSize + 1 = r.histSize + r.bufSize ∧
    (evict r).2.replacerSize = r.replacerSize ∧ (evict r).2.k = r.k := by
  obtain ⟨h1, h2, h3, h4, h5, h6, h7, h8⟩ := hWF
  by_cases hc : r.currSize = 0
  · rw [show (evict r).1 = none from by simp [evict, hc]] at h
    cases h
  rcases hH : removeLastEvictable r.history with _ | ⟨n, h'⟩
  · rcases hB : removeLastEvictable r.buffer with _ | ⟨m, b'⟩
    · rw [show (evict r).1 = none from by simp [evict, hc, hH, hB]] at h
      cases h
    · -- eviction from the cache list
      have hev : evict r = (some m.frameId,
          { r with buffer := b', bufSize := r.bufSize - 1,
                   currSize := r.currSize - 1 }) := by
        simp [evict, hc, hH, hB]
      have hf : m.frameId = f := by
        rw [hev] at h
        exact Option.some.inj h
      obtain ⟨L1, L2, hl, hl', hevm, hrest⟩ := rle_eq_some hB
      have hidb : ids r.buffer = ids L1 ++ f :: ids L2 := by
        rw [hl, ids_append, ids_cons, hf]
      have hnodup := nodup_remove_buf (A := ids r.history) (B := ids L1)
        (C := ids L2) (f := f) (by rw [← hidb]; exact h4)
      have hmemB : m ∈ r.buffer := by
        rw [hl]
        exact List.mem_append_right _ (List.mem_cons_self _ _)
      have hfh : f ∉ ids r.history := by
        intro hc2
        exact hnodup.2 (List.mem_append_left _ hc2)
      have hfl : f ∉ ids L1 ++ ids L2 := by
        intro hc2
        exact hnodup.2 (List.mem_append_right _ hc2)
      have hcntB : countE r.buffer = countE L1 + (countE L2 + 1) := by
        rw [hl, countE_append, countE_cons_true hevm]
      have hlenB : r.buffer.length = L1.length + 1 + L2.length := by
        rw [hl, List.length_append, List.length_cons]
        omega
      rw [hev]
      refine ⟨⟨h1, ?_, ?_, ?_, h5, ?_, ?_, h8⟩, ?_, ?_, ?_, ?_, rfl, ?_, ?_, rfl, rfl⟩
      · show r.bufSize - 1 = b'.length
        rw [h2, hl', hlenB, List.length_append]
        omega
      · show r.currSize - 1 = countE r.history + countE b'
        rw [h3, hl', countE_append, hcntB]
        omega
      · show (ids r.history ++ ids b').Nodup
        rw [hl', ids_append]
        exact hnodup.1
      · intro x hx
        refine h6 x ?_
        rw [hl' ] at hx
        rw [hl]
        rcases List.mem_append.1 hx with hx | hx
        · exact List.mem_append_left _ hx
        · exact List.mem_append_right _ (List.mem_cons_of_mem _ hx)
      · show r.history.length + b'.length ≤ r.replacerSize
        rw [hl', List.length_append]
        rw [hlenB] at h7
        omega
      · right
        rw [hidb]
        exact List.mem_append_right _ (List.mem_cons_self _ _)
      · exact ⟨m, List.mem_append.2 (Or.inr hmemB), hf, hevm⟩
      · rintro (hc2 | hc2)
        · exact hfh hc2
        · rw [show ids b' = ids L1 ++ ids L2 from by rw [hl', ids_append]] at hc2
          exact hfl hc2
      · intro g hg
        refine ⟨rfl, ?_⟩
        show nodesOf b' g = nodesOf r.buffer g
        rw [hl', hl, nodesOf_append, nodesOf_append,
          nodesOf_cons_ne L2 (by rw [hf]; exact fun hc2 => hg hc2.symm)]
      · show r.history.length + b'.length + 1 = _
        rw [hl', List.length_append, hlenB]
        omega
      · show r.histSize + (r.bufSize - 1) + 1 = _
        rw [h2, hlenB]
        omega
  · -- eviction from the history list
    have hev : evict r = (some n.frameId,
        { r with history := h', histSize := r.histSize - 1,
                 currSize := r.currSize - 1 }) := by
      simp [evict, hc, hH]
    have hf : n.frameId = f := by
      rw [hev] at h
      exact Option.some.inj h
    obtain ⟨L1, L2, hl, hl', hevn, hrest⟩ := rle_eq_some hH
    have hidh : ids r.history = ids L1 ++ f :: ids L2 := by
      rw [hl, ids_append, ids_cons, hf]
    have hnodup := nodup_remove_mid (A := ids L1) (B := ids L2)
      (C := ids r.buffer) (f := f) (by rw [← hidh]; exact h4)
    have hmemH : n ∈ r.history := by
      rw [hl]
      exact List.mem_append_right _ (List.mem_cons_self _ _)
    have hfb : f ∉ ids r.buffer := by
      intro hc2
      exact hnodup.2 (List.mem_append_right _ hc2)
    have hfl : f ∉ ids L1 ++ ids L2 := by
      intro hc2
      exact hnodup.2 (List.mem_append_left _ hc2)
    have hcntH : countE r.history = countE L1 + (countE L2 + 1) := by
      rw [hl, countE_append, countE_cons_true hevn]
    have hlenH : r.history.length = L1.length + 1 + L2.length := by
      rw [hl, List.length_append, List.length_cons]
      omega
    rw [hev]
    refine ⟨⟨?_, h2, ?_, ?_, ?_, h6, ?_, h8⟩, ?_, ?_, ?_, ?_, rfl, ?_, ?_, rfl, rfl⟩
    · show r.histSize - 1 = h'.length
      rw [h1, hl', hlenH, List.length_append]
      omega
    · show r.currSize - 1 = countE h' + countE r.buffer
      rw [h3, hl', countE_append, hcntH]
      omega
    · show (ids h' ++ ids r.buffer).Nodup
      rw [hl', ids_append]
      exact hnodup.1
    · intro x hx
      refine h5 x ?_
      rw [hl'] at hx
      rw [hl]
      rcases List.mem_append.1 hx with hx | hx
      · exact List.mem_append_left _ hx
      · exact List.mem_append_right _ (List.mem_cons_of_mem _ hx)
    · show h'.length + r.buffer.length ≤ r.replacerSize
      rw [hl', List.length_append]
      rw [hlenH] at h7
      omega
    · left
      rw [hidh]
      exact List.mem_append_right _ (List.mem_cons_self _ _)
    · exact ⟨n, List.mem_append.2 (Or.inl hmemH), hf, hevn⟩
    · rintro (hc2 | hc2)
      · rw [show ids h' = ids L1 ++ ids L2 from by rw [hl', ids_append]] at hc2
        exact hfl hc2
      · exact hfb hc2
    · intro g hg
      refine ⟨?_, rfl⟩
      show nodesOf h' g = nodesOf r.history g
      rw [hl', hl, nodesOf_append, nodesOf_append,
        nodesOf_cons_ne L2 (by rw [hf]; exact fun hc2 => hg hc2.symm)]
    · show h'.length + r.buffer.length + 1 = _
      rw [hl', List.length_append, hlenH]
      omega
    · show r.histSize - 1 + r.bufSize + 1 = _
      rw [h1, hlenH]
      omega

/-- `Remove` on an unknown frame is a no-op. -/
theorem lrukRemove_not_tracked {r : LRUK} {f : Nat} (h : ¬ tracked r f) :
    lrukRemove r f = r := by
  simp only [lrukRemove, getNode?_eq_none h]

theorem any_eq_false_of_not_mem {l : List ListNode} {f : Nat} (h : f ∉ ids l) :
    l.any (fun m => m.frameId == f) = false := by
  rw [List.any_eq_false]
  intro x hx
  simp only [beq_iff_eq]
  exact fun hc => h (mem_ids.2 ⟨x, hx, hc⟩)

/-- `Remove` on a tracked but non-evictable frame is a no-op. -/
theorem lrukRemove_not_evictable {r : LRUK} {f : Nat} (hWF : WF r)
    (ht : tracked r f) (he : ¬ evictableIn r f) : lrukRemove r f = r := by
  obtain ⟨h1, h2, h3, h4, h5, h6, h7, h8⟩ := hWF
  rcases tracked_cases ⟨h1, h2, h3, h4, h5, h6, h7, h8⟩ ht with ⟨hh, hb⟩ | ⟨hh, hb⟩
  · obtain ⟨l1, n, l2, hl, hnf, hl1, herase, hfind⟩ := findF_decomp hh
    have hga : getNode? r f = some n := by
      unfold getNode?
      rw [find?_eq_none_of_not_mem hb, hfind]
    have hnev : n.evictable = false := by
      cases hne : n.evictable
      · rfl
      · exact absurd ⟨n, List.mem_append.2 (Or.inl (by
          rw [hl]; exact List.mem_append_right _ (List.mem_cons_self _ _))),
          hnf, hne⟩ he
    simp only [lrukRemove, hga, hnev, Bool.not_false, if_pos]
  · obtain ⟨l1, n, l2, hl, hnf, hl1, herase, hfind⟩ := findF_decomp hb
    have hga : getNode? r f = some n := by
      unfold getNode?
      rw [hfind]
    have hnev : n.evictable = false := by
      cases hne : n.evictable
      · rfl
      · exact absurd ⟨n, List.mem_append.2 (Or.inr (by
          rw [hl]; exact List.mem_append_right _ (List.mem_cons_self _ _))),
          hnf, hne⟩ he
    simp only [lrukRemove, hga, hnev, Bool.not_false, if_pos]

/-- `Remove` on a tracked evictable frame erases exactly that frame and
decrements the sizes, leaving every other frame untouched. -/
theorem lrukRemove_spec {r : LRUK} {f : Nat} (hWF : WF r)
    (ht : tracked r f) (he : evictableIn r f) :
    WF (lrukRemove r f) ∧ ¬ tracked (lrukRemove r f) f ∧
    (∀ g, g ≠ f → nodesOf (lrukRemove r f).history g = nodesOf r.history g ∧
      nodesOf (lrukRemove r f).buffer g = nodesOf r.buffer g) ∧
    (lrukRemove r f).currSize = r.currSize - 1 ∧
    (lrukRemove r f).history.length + (lrukRemove r f).buffer.length + 1
      = r.history.length + r.buffer.length ∧
    (lrukRemove r f).histSize + (lrukRemove r f).bufSize + 1
      = r.histSize + r.bufSize ∧
    (lrukRemove r f).replacerSize = r.replacerSize ∧
    (lrukRemove r f).k = r.k := by
  obtain ⟨h1, h2, h3, h4, h5, h6, h7, h8⟩ := hWF
  rcases tracked_cases ⟨h1, h2, h3, h4, h5, h6, h7, h8⟩ ht with ⟨hh, hb⟩ | ⟨hh, hb⟩
  · obtain ⟨l1, n, l2, hl, hnf, hl1, herase, hfind⟩ := findF_decomp hh
    have hga : getNode? r f = some n := by
      unfold getNode?
      rw [find?_eq_none_of_not_mem hb, hfind]
    have hidh : ids r.history = ids l1 ++ f :: ids l2 := by
      rw [hl, ids_append, ids_cons, hnf]
    have hl2 : f ∉ ids l2 := by
      have hx := (List.nodup_append.1 h4).1
      rw [hidh] at hx
      exact (nodup_split hx).2.1
    have hNfh : nodesOf r.history f = [n] := nodesOf_eq_single hl hnf hl1 hl2
    have hNfb : nodesOf r.buffer f = [] := nodesOf_eq_nil hb
    have hnev : n.evictable = true := by
      rw [evictableIn_iff_nodesOf, hNfh, hNfb] at he
      simpa using he
    have hany : r.history.any (fun m => m.frameId == f) = true := by
      rw [List.any_eq_true]
      refine ⟨n, ?_, by simp [hnf]⟩
      rw [hl]
      exact List.mem_append_right _ (List.mem_cons_self _ _)
    have hre : lrukRemove r f =
        { r with history := eraseF r.history f, histSize := r.histSize - 1,
                 currSize := r.currSize - 1 } := by
      simp [lrukRemove, hga, hnev, hany]
    have hnodup := nodup_remove_mid (A := ids l1) (B := ids l2)
      (C := ids r.buffer) (f := f) (by rw [← hidh]; exact h4)
    have hcntH : countE r.history = countE l1 + (countE l2 + 1) := by
      rw [hl, countE_append, countE_cons_true hnev]
    have hlenH : r.history.length = l1.length + 1 + l2.length := by
      rw [hl, List.length_append, List.length_cons]
      omega
    rw [hre, herase]
    refine ⟨⟨?_, h2, ?_, ?_, ?_, h6, ?_, h8⟩, ?_, ?_, rfl, ?_, ?_, rfl, rfl⟩
    · show r.histSize - 1 = (l1 ++ l2).length
      rw [h1, hlenH, List.length_append]
      omega
    · show r.currSize - 1 = countE (l1 ++ l2) + countE r.buffer
      rw [h3, countE_append, hcntH]
      omega
    · show (ids (l1 ++ l2) ++ ids r.buffer).Nodup
      rw [ids_append]
      exact hnodup.1
    · intro x hx
      refine h5 x ?_
      rw [hl]
      rcases List.mem_append.1 hx with hx | hx
      · exact List.mem_append_left _ hx
      · exact List.mem_append_right _ (List.mem_cons_of_mem _ hx)
    · show (l1 ++ l2).length + r.buffer.length ≤ r.replacerSize
      rw [List.length_append]
      rw [hlenH] at h7
      omega
    · rintro (hc2 | hc2)
      · rw [ids_append] at hc2
        exact hnodup.2 (List.mem_append_left _ hc2)
      · exact hnodup.2 (List.mem_append_right _ hc2)
    · intro g hg
      refine ⟨?_, rfl⟩
      show nodesOf (l1 ++ l2) g = nodesOf r.history g
      rw [hl, nodesOf_append, nodesOf_append,
        nodesOf_cons_ne l2 (by rw [hnf]; exact fun hc2 => hg hc2.symm)]
    · show (l1 ++ l2).length + r.buffer.length + 1 = _
      rw [List.length_append, hlenH]
      omega
    · show r.histSize - 1 + r.bufSize + 1 = _
      rw [h1, hlenH]
      omega
  · obtain ⟨l1, n, l2, hl, hnf, hl1, herase, hfind⟩ := findF_decomp hb
    have hga : getNode? r f = some n := by
      unfold getNode?
      rw [hfind]
    have hidb : ids r.buffer = ids l1 ++ f :: ids l2 := by
      rw [hl, ids_append, ids_cons, hnf]
    have hl2 : f ∉ ids l2 := by
      have hx := (List.nodup_append.1 h4).2.1
      rw [hidb] at hx
      exact (nodup_split hx).2.1
    have hNfh : nodesOf r.history f = [] := nodesOf_eq_nil hh
    have hNfb : nodesOf r.buffer f = [n] := nodesOf_eq_single hl hnf hl1 hl2
    have hnev : n.evictable = true := by
      rw [evictableIn_iff_nodesOf, hNfh, hNfb] at he
      simpa using he
    have hany : r.history.any (fun m => m.frameId == f) = false :=
      any_eq_false_of_not_mem hh
    have hre : lrukRemove r f =
        { r with buffer := eraseF r.buffer f, bufSize := r.bufSize - 1,
                 currSize := r.currSize - 1 } := by
      simp [lrukRemove, hga, hnev, hany]
    have hnodup := nodup_remove_buf (A := ids r.history) (B := ids l1)
      (C := ids l2) (f := f) (by rw [← hidb]; exact h4)
    have hcntB : countE r.buffer = countE l1 + (countE l2 + 1) := by
      rw [hl, countE_append, countE_cons_true hnev]
    have hlenB : r.buffer.length = l1.length + 1 + l2.length := by
      rw [hl, List.length_append, List.length_cons]
      omega
    rw [hre, herase]
    refine ⟨⟨h1, ?_, ?_, ?_, h5, ?_, ?_, h8⟩, ?_, ?_, rfl, ?_, ?_, rfl, rfl⟩
    · show r.bufSize - 1 = (l1 ++ l2).length
      rw [h2, hlenB, List.length_append]
      omega
    · show r.currSize - 1 = countE r.history + countE (l1 ++ l2)
      rw [h3, countE_append, hcntB]
      omega
    · show (ids r.history ++ ids (l1 ++ l2)).Nodup
      rw [ids_append]
      exact hnodup.1
    · intro x hx
      refine h6 x ?_
      rw [hl]
      rcases List.mem_append.1 hx with hx | hx
      · exact List.mem_append_left _ hx
      · exact List.mem_append_right _ (List.mem_cons_of_mem _ hx)
    · show r.history.length + (l1 ++ l2).length ≤ r.replacerSize
      rw [List.length_append]
      rw [hlenB] at h7
      omega
    · rintro (hc2 | hc2)
      · exact hnodup.2 (List.mem_append_left _ hc2)
      · rw [ids_append] at hc2
        exact hnodup.2 (List.mem_append_right _ hc2)
    · intro g hg
      refine ⟨rfl, ?_⟩
      show nodesOf (l1 ++ l2) g = nodesOf r.buffer g
      rw [hl, nodesOf_append, nodesOf_append,
        nodesOf_cons_ne l2 (by rw [hnf]; exact fun hc2 => hg hc2.symm)]
    · show r.history.length + (l1 ++ l2).length + 1 = _
      rw [List.length_append, hlenB]
      omega
    · show r.histSize + (r.bufSize - 1) + 1 = _
      rw [h2, hlenB]
      omega

theorem rle_eq_some_of_decomp {L1 L2 : List ListNode} {n : ListNode}
    (hn : n.evictable = true) (hrest : ∀ m ∈ L2, m.evictable = false) :
    removeLastEvictable (L1 ++ n :: L2) = some (n, L1 ++ L2) := by
  induction L1 with
  | nil =>
    show removeLastEvictable (n :: L2) = _
    simp only [removeLastEvictable, rle_eq_none.2 hrest, hn, if_pos]
    rfl
  | cons x L1 ih =>
    show removeLastEvictable (x :: (L1 ++ n :: L2)) = _
    simp only [removeLastEvictable, ih]
    rfl

/-- The constructed replacer is well-formed for any positive K. -/
theorem WF_initLRUK (numFrames k : Nat) (hk : 1 ≤ k) : WF (initLRUK numFrames k) := by
  refine ⟨rfl, rfl, rfl, List.nodup_nil, ?_, ?_, ?_, hk⟩
  · intro n hn
    cases hn
  · intro n hn
    cases hn
  · show 0 + 0 ≤ numFrames
    omega

/-- The behaviour of `LRUKReplacer::Evict` on a single state: the
tail-most evictable node of the history list is evicted when one exists;
otherwise the tail-most evictable node of the cache list; the evicted
node leaves both its list and its tracking map and `Size()` drops by
one; the result is `none` exactly when no tracked frame is evictable
(and then nothing changes).  The final two conjuncts are the corrected
K = 3 scenario: frames must be marked evictable before eviction, and
after B is evicted its whole access history is gone, so B re-enters the
history list and reaches K only after three fresh accesses; with A
accessed once more first, the cache tail is A. -/
def EvictSpec (r : LRUK) : Prop :=
  (∀ n L1 L2, r.history = L1 ++ n :: L2 → n.evictable = true →
    (∀ m ∈ L2, m.evictable = false) →
    (evict r).1 = some n.frameId ∧
    (evict r).2 = ({ r with history := L1 ++ L2, histSize := r.histSize - 1,
                            currSize := r.currSize - 1 }) ∧
    ¬ tracked (evict r).2 n.frameId ∧
    lrukSize (evict r).2 = lrukSize r - 1) ∧
  ((∀ m ∈ r.history, m.evictable = false) →
    ∀ n L1 L2, r.buffer = L1 ++ n :: L2 → n.evictable = true →
    (∀ m ∈ L2, m.evictable = false) →
    (evict r).1 = some n.frameId ∧
    (evict r).2 = ({ r with buffer := L1 ++ L2, bufSize := r.bufSize - 1,
                            currSize := r.currSize - 1 }) ∧
    ¬ tracked (evict r).2 n.frameId ∧
    lrukSize (evict r).2 = lrukSize r - 1) ∧
  ((evict r).1 = none ↔ ∀ m ∈ r.history ++ r.buffer, m.evictable = false) ∧
  ((evict r).1 = none → (evict r).2 = r) ∧
  (evict (setEvictable (setEvictable (recordAccess (recordAccess (recordAccess
    (recordAccess (initLRUK 10 3) 0) 0) 0) 1) 0 true) 1 true)).1 = some 1 ∧
  (evict (setEvictable (recordAccess (recordAccess (recordAccess (recordAccess
    (evict (setEvictable (setEvictable (recordAccess (recordAccess (recordAccess
      (recordAccess (initLRUK 10 3) 0) 0) 0) 1) 0 true) 1 true)).2
    0) 1) 1) 1) 1 true)).1 = some 0

/-- C2, counterexample to the claim as stated: with K = 3, accessing
frame A (= 0) three times and frame B (= 1) once and then calling
`Evict` yields `none`, not B — freshly created nodes are non-evictable
until `SetEvictable(true)`, which the claimed scenario never calls. -/
theorem claim_C2_counterexample :
    (evict (recordAccess (recordAccess (recordAccess (recordAccess
      (initLRUK 10 3) 0) 0) 0) 1)).1 = none ∧
    ¬ (evict (recordAccess (recordAccess (recordAccess (recordAccess
      (initLRUK 10 3) 0) 0) 0) 1)).1 = some 1 := by
  decide

/-- C2 (amended): on every well-formed replacer state `Evict` follows
`EvictSpec` — tail-most evictable of history first, cache second, full
removal, size decrement, `none` exactly when nothing is evictable — and
the K = 3 scenario holds once the accessed frames are marked evictable
and B's second round of accesses is counted from a fresh node. -/
theorem claim_C2_evict (r : LRUK) (hWF : WF r) : EvictSpec r := by
  obtain ⟨h1, h2, h3, h4, h5, h6, h7, h8⟩ := hWF
  refine ⟨?_, ?_, ?_, evict_none_eq, by decide, by decide⟩
  · intro n L1 L2 hl hn hrest
    have hcnt : 0 < countE r.history := by
      refine List.countP_pos.2 ⟨n, ?_, by simp [hn]⟩
      rw [hl]
      exact List.mem_append_right _ (List.mem_cons_self _ _)
    have hc : ¬ r.currSize = 0 := by
      rw [h3]
      omega
    have hrle : removeLastEvictable r.history = some (n, L1 ++ L2) := by
      rw [hl]
      exact rle_eq_some_of_decomp hn hrest
    have hev : evict r = (some n.frameId,
        { r with history := L1 ++ L2, histSize := r.histSize - 1,
                 currSize := r.currSize - 1 }) := by
      simp [evict, hc, hrle]
    have hidh : ids r.history = ids L1 ++ n.frameId :: ids L2 := by
      rw [hl, ids_append, ids_cons]
    have hnodup := nodup_remove_mid (A := ids L1) (B := ids L2)
      (C := ids r.buffer) (f := n.frameId) (by rw [← hidh]; exact h4)
    refine ⟨by rw [hev], by rw [hev], ?_, by rw [hev]; rfl⟩
    rw [hev]
    rintro (hc2 | hc2)
    · rw [show ids (L1 ++ L2) = ids L1 ++ ids L2 from ids_append _ _] at hc2
      exact hnodup.2 (List.mem_append_left _ hc2)
    · exact hnodup.2 (List.mem_append_right _ hc2)
  · intro hall n L1 L2 hl hn hrest
    have hcnt : 0 < countE r.buffer := by
      refine List.countP_pos.2 ⟨n, ?_, by simp [hn]⟩
      rw [hl]
      exact List.mem_append_right _ (List.mem_cons_self _ _)
    have hc : ¬ r.currSize = 0 := by
      rw [h3]
      omega
    have hrleH : removeLastEvictable r.history = none := rle_eq_none.2 hall
    have hrle : removeLastEvictable r.buffer = some (n, L1 ++ L2) := by
      rw [hl]
      exact rle_eq_some_of_decomp hn hrest
    have hev : evict r = (some n.frameId,
        { r with buffer := L1 ++ L2, bufSize := r.bufSize - 1,
                 currSize := r.currSize - 1 }) := by
      simp [evict, hc, hrleH, hrle]
    have hidb : ids r.buffer = ids L1 ++ n.frameId :: ids L2 := by
      rw [hl, ids_append, ids_cons]
    have hnodup := nodup_remove_buf (A := ids r.history) (B := ids L1)
      (C := ids L2) (f := n.frameId) (by rw [← hidb]; exact h4)
    refine ⟨by rw [hev], by rw [hev], ?_, by rw [hev]; rfl⟩
    rw [hev]
    rintro (hc2 | hc2)
    · exact hnodup.2 (List.mem_append_left _ hc2)
    · rw [show ids (L1 ++ L2) = ids L1 ++ ids L2 from ids_append _ _] at hc2
      exact hnodup.2 (List.mem_append_right _ hc2)
  · constructor
    · intro h m hm
      cases hme : m.evictable
      · rfl
      · exact absurd (⟨m, hm, rfl, hme⟩ : evictableIn r m.frameId)
          (evict_none_no_evictable ⟨h1, h2, h3, h4, h5, h6, h7, h8⟩ h m.frameId)
    · intro hall
      have hcz : r.currSize = 0 := by
        rw [h3]
        have hH : countE r.history = 0 :=
          List.countP_eq_zero.2 fun m hm => by
            simp [hall m (List.mem_append_left _ hm)]
        have hB : countE r.buffer = 0 :=
          List.countP_eq_zero.2 fun m hm => by
            simp [hall m (List.mem_append_right _ hm)]
        omega
      simp [evict, hcz]

/-- C2 witness: the amended claim applied at the freshly constructed
replacer. -/
theorem claim_C2_evict_witness : WF (initLRUK 0 1) ∧ EvictSpec (initLRUK 0 1) :=
  ⟨by decide, claim_C2_evict (initLRUK 0 1) (by decide)⟩

/-- The behaviour of the legacy `LRUReplacer::Victim`: the return value
is `false` in every state — both when the replacer is empty and on a
successful eviction (the reimplementation should return `true` there);
on an empty replacer nothing changes and no frame is produced; otherwise
the tail node — the least-recently-unpinned frame — is unlinked, its id
is stored in the out parameter, and `Size()` drops by one. -/
def VictimSpec (s : LRUState) : Prop :=
  (lruVictim s).1 = false ∧
  (s.curSize = 0 → lruVictim s = (false, none, s)) ∧
  (0 < s.curSize → ∃ l x, s.lruList = l ++ [x] ∧
    lruVictim s = (false, some x, ⟨l, s.curSize - 1, s.pageSize⟩))

/-- C10: `LRUReplacer::Victim` removes the list tail (the
least-recently-unpinned frame), reports it through the out parameter,
decrements the size — and returns `false` even on success, unlike the
LRU-K contract. -/
theorem claim_C10_lruVictim (s : LRUState)
    (hWF : s.curSize = s.lruList.length) : VictimSpec s := by
  refine ⟨?_, ?_, ?_⟩
  · unfold lruVictim
    split <;> rfl
  · intro h
    simp [lruVictim, h]
  · intro h
    have hne : s.lruList ≠ [] := by
      intro hc
      rw [hc] at hWF
      simp at hWF
      omega
    refine ⟨s.lruList.dropLast, s.lruList.getLast hne,
      (List.dropLast_append_getLast hne).symm, ?_⟩
    have hcz : ¬ s.curSize = 0 := by omega
    simp only [lruVictim, if_neg hcz]
    rw [List.getLast?_eq_getLast _ hne]

/-- C10 witness: the theorem applied at a two-frame replacer state. -/
theorem claim_C10_lruVictim_witness :
    (⟨[5, 3], 2, 4⟩ : LRUState).curSize = (⟨[5, 3], 2, 4⟩ : LRUState).lruList.length ∧
    VictimSpec ⟨[5, 3], 2, 4⟩ :=
  ⟨by decide, claim_C10_lruVictim ⟨[5, 3], 2, 4⟩ (by decide)⟩

/-!  List access helpers for the directory and bucket pool. -/

theorem getD_set_eq {α : Type} {l : List α} {i : Nat} (a d : α)
    (h : i < l.length) : (l.set i a).getD i d = a := by
  rw [List.getD_eq_getElem _ _ (by simpa using h), List.getElem_set_self]

theorem getD_set_ne {α : Type} {l : List α} {i j : Nat} (a d : α)
    (hij : i ≠ j) : (l.set i a).getD j d = l.getD j d := by
  rcases Nat.lt_or_ge j l.length with hj | hj
  · rw [List.getD_eq_getElem _ _ (by simpa using hj),
      List.getD_eq_getElem _ _ hj, List.getElem_set_ne hij]
  · rw [List.getD_eq_default _ _ (by simpa using hj), List.getD_eq_default _ _ hj]

theorem getD_mapIdx {l : List Nat} {f : Nat → Nat → Nat} {i : Nat}
    (h : i < l.length) : (l.mapIdx f).getD i 0 = f i (l.getD i 0) := by
  rw [List.getD_eq_getElem _ _ (by simpa using h), List.getD_eq_getElem _ _ h]
  exact List.get_mapIdx l f i h

theorem getD_append_left {α : Type} {l1 l2 : List α} {i : Nat} (d : α)
    (h : i < l1.length) : (l1 ++ l2).getD i d = l1.getD i d :=
  List.getD_append _ _ _ _ h

theorem getD_append_right' {α : Type} {l1 l2 : List α} {i : Nat} (d : α)
    (h : l1.length ≤ i) : (l1 ++ l2).getD i d = l2.getD (i - l1.length) d :=
  List.getD_append_right _ _ _ _ h

/-!  Congruence-class arithmetic modulo powers of two, through `testBit`.
`IndexOf` masks with `(1 << global_depth_) - 1`; `PairIndex` flips the
bit below the new local depth. -/

theorem and_two_pow_sub_one (a d : Nat) : a &&& (2 ^ d - 1) = a % 2 ^ d :=
  Nat.and_pow_two_sub_one_eq_mod a d

theorem mod_two_pow_eq_iff {a b d : Nat} :
    a % 2 ^ d = b % 2 ^ d ↔ ∀ t, t < d → a.testBit t = b.testBit t := by
  constructor
  · intro h t ht
    have h2 := congrArg (fun x => x.testBit t) h
    simpa [Nat.testBit_mod_two_pow, ht] using h2
  · intro h
    refine Nat.eq_of_testBit_eq fun i => ?_
    simp only [Nat.testBit_mod_two_pow]
    by_cases hi : i < d
    · simp [hi, h i hi]
    · simp [hi]

theorem mod_transfer {a b d e : Nat} (hde : d ≤ e)
    (h : a % 2 ^ e = b % 2 ^ e) : a % 2 ^ d = b % 2 ^ d := by
  rw [mod_two_pow_eq_iff] at h ⊢
  intro t ht
  exact h t (lt_of_lt_of_le ht hde)

theorem mod_self_mod {a d g : Nat} (hdg : d ≤ g) :
    a % 2 ^ g % 2 ^ d = a % 2 ^ d :=
  Nat.mod_mod_of_dvd a (pow_dvd_pow 2 hdg)

theorem xor_high_mod (b0 d : Nat) : (b0 ^^^ 2 ^ d) % 2 ^ d = b0 % 2 ^ d := by
  rw [mod_two_pow_eq_iff]
  intro t ht
  simp [Nat.testBit_xor, Nat.testBit_two_pow_of_ne (by omega : d ≠ t)]

theorem xor_high_mod_succ_ne (b0 d : Nat) :
    ¬ (b0 ^^^ 2 ^ d) % 2 ^ (d + 1) = b0 % 2 ^ (d + 1) := by
  intro h
  rw [mod_two_pow_eq_iff] at h
  have h2 := h d (by omega)
  rw [Nat.testBit_xor, Nat.testBit_two_pow_self] at h2
  cases hb : b0.testBit d <;> rw [hb] at h2 <;> cases h2

theorem mod_succ_of_mod {j b0 d : Nat} (h : j % 2 ^ d = b0 % 2 ^ d) :
    j % 2 ^ (d + 1) = b0 % 2 ^ (d + 1) ∨
    j % 2 ^ (d + 1) = (b0 ^^^ 2 ^ d) % 2 ^ (d + 1) := by
  rw [mod_two_pow_eq_iff] at h
  by_cases hd : j.testBit d = b0.testBit d
  · left
    rw [mod_two_pow_eq_iff]
    intro t ht
    rcases Nat.lt_or_ge t d with h2 | h2
    · exact h t h2
    · rw [show t = d by omega]
      exact hd
  · right
    rw [mod_two_pow_eq_iff]
    intro t ht
    rcases Nat.lt_or_ge t d with h2 | h2
    · rw [h t h2]
      simp [Nat.testBit_xor, Nat.testBit_two_pow_of_ne (by omega : d ≠ t)]
    · rw [show t = d by omega]
      rw [Nat.testBit_xor, Nat.testBit_two_pow_self]
      cases hj : j.testBit d <;> cases hb : b0.testBit d <;>
        rw [hj, hb] at hd <;> simp at hd ⊢

/-!  The structural invariant of the extendible hash table and its
preservation. -/

/-- Structure-level invariant: the directory has `2 ^ global_depth_`
slots, every slot indexes an allocated bucket, local depths never exceed
the global depth, and two slots share a bucket exactly when they agree
modulo `2 ^ local_depth` of that bucket. -/
def Inv (s : EHT) : Prop :=
  s.dir.length = 2 ^ s.globalDepth ∧
  (∀ i, i < 2 ^ s.globalDepth → dirAt s i < s.buckets.length) ∧
  (∀ i, i < 2 ^ s.globalDepth → bucketDepth s (dirAt s i) ≤ s.globalDepth) ∧
  (∀ i < 2 ^ s.globalDepth, ∀ j < 2 ^ s.globalDepth,
    (dirAt s i = dirAt s j ↔
      i % 2 ^ bucketDepth s (dirAt s i) = j % 2 ^ bucketDepth s (dirAt s i)))

instance (s : EHT) : Decidable (Inv s) := by
  unfold Inv
  infer_instance

theorem inv_initEHT (bucketSize : Nat) : Inv (initEHT bucketSize) := by
  have hz : ∀ i : Nat, i < 2 ^ (initEHT bucketSize).globalDepth → i = 0 := by
    intro i hi
    have h1 : i < 1 := by simpa [initEHT] using hi
    omega
  refine ⟨rfl, ?_, ?_, ?_⟩
  · intro i hi
    rw [hz i hi]
    simp [initEHT, dirAt, bucketAt]
  · intro i hi
    rw [hz i hi]
    simp [initEHT, dirAt, bucketDepth, bucketAt]
  · intro i hi j hj
    rw [hz i hi, hz j hj]
    simp

/-- Fields and shape that bucket-content updates leave alone. -/
def SameShape (s s' : EHT) : Prop :=
  s'.dir = s.dir ∧ s'.globalDepth = s.globalDepth ∧
  s'.buckets.length = s.buckets.length ∧
  s'.numBuckets = s.numBuckets ∧
  ∀ x, bucketDepth s' x = bucketDepth s x

theorem sameShape_refl (s : EHT) : SameShape s s :=
  ⟨rfl, rfl, rfl, rfl, fun _ => rfl⟩

theorem sameShape_trans {s t u : EHT} (h1 : SameShape s t)
    (h2 : SameShape t u) : SameShape s u := by
  obtain ⟨a1, b1, c1, d1, e1⟩ := h1
  obtain ⟨a2, b2, c2, d2, e2⟩ := h2
  exact ⟨a2.trans a1, b2.trans b1, c2.trans c1, d2.trans d1,
    fun x => (e2 x).trans (e1 x)⟩

theorem sameShape_inv {s s' : EHT} (h : SameShape s s') (hInv : Inv s) :
    Inv s' := by
  obtain ⟨hd, hg, hl, -, hdep⟩ := h
  obtain ⟨i1, i2, i3, i4⟩ := hInv
  have hdirAt : ∀ i, dirAt s' i = dirAt s i := by
    intro i
    unfold dirAt
    rw [hd]
  refine ⟨?_, ?_, ?_, ?_⟩
  · rw [hd, hg]
    exact i1
  · intro i hi
    rw [hg] at hi
    rw [hdirAt, hl]
    exact i2 i hi
  · intro i hi
    rw [hg] at hi
    rw [hdirAt, hdep, hg]
    exact i3 i hi
  · intro i hi j hj
    rw [hg] at hi hj
    rw [hdirAt, hdirAt, hdep]
    exact i4 i hi j hj

theorem bucketInsert_depth (size : Nat) (b : Bucket) (k v : Nat) :
    (bucketInsert size b k v).1.depth = b.depth := by
  unfold bucketInsert
  split_ifs <;> rfl

theorem reinsertItem_sameShape (s : EHT) (kv : Nat × Nat) :
    SameShape s (reinsertItem s kv) := by
  unfold reinsertItem
  refine ⟨rfl, rfl, by simp, rfl, ?_⟩
  intro x
  unfold bucketDepth bucketAt
  show ((s.buckets.set _ _).getD x ⟨[], 0⟩).depth = _
  by_cases hx : dirAt s (indexOf s kv.1) = x
  · rcases Nat.lt_or_ge x s.buckets.length with hlt | hge
    · rw [hx, getD_set_eq _ _ hlt, bucketInsert_depth]
    · rw [List.getD_eq_default, List.getD_eq_default _ _ hge]
      simp only [List.length_set]
      exact hge
  · rw [getD_set_ne _ _ hx]

theorem foldl_reinsert_sameShape (items : List (Nat × Nat)) (s : EHT) :
    SameShape s (items.foldl reinsertItem s) := by
  induction items generalizing s with
  | nil => exact sameShape_refl s
  | cons kv items ih =>
    exact sameShape_trans (reinsertItem_sameShape s kv) (ih (reinsertItem s kv))

theorem set_bucket_sameShape (s : EHT) (x : Nat) (b' : Bucket)
    (hd : b'.depth = bucketDepth s x) :
    SameShape s { s with buckets := s.buckets.set x b' } := by
  refine ⟨rfl, rfl, by simp, rfl, ?_⟩
  intro y
  unfold bucketDepth bucketAt
  show ((s.buckets.set x b').getD y ⟨[], 0⟩).depth = _
  by_cases hx : x = y
  · rcases Nat.lt_or_ge y s.buckets.length with hlt | hge
    · rw [hx, getD_set_eq _ _ hlt, hd, hx]
      exact rfl
    · rw [List.getD_eq_default, List.getD_eq_default _ _ hge]
      simp only [List.length_set]
      exact hge
  · rw [getD_set_ne _ _ hx]

/-- The single hard step: a bucket split (with or without directory
doubling) preserves the structural invariant.  `b0` is the slot whose
bucket overflowed, `d0` its local depth before the split.  The new state
`S` is described by the three field equations, matching the else branch
of `insertStep` (before the item redistribution, which only touches
bucket contents). -/
theorem inv_split {s S : EHT} {b0 d0 : Nat} (hb0 : b0 < 2 ^ s.globalDepth)
    (hd0 : d0 = bucketDepth s (dirAt s b0)) (hInv : Inv s)
    (hSdir : S.dir = (if s.globalDepth < d0 + 1 then s.dir ++ s.dir
        else s.dir).mapIdx
      (fun i b => if i % 2 ^ (d0 + 1) = (b0 ^^^ 2 ^ d0) % 2 ^ (d0 + 1)
        then s.buckets.length else b))
    (hSbuckets : S.buckets = (s.buckets.set (dirAt s b0)
        { bucketAt s (dirAt s b0) with depth := d0 + 1, items := [] })
      ++ [⟨[], d0 + 1⟩])
    (hSg : S.globalDepth = if s.globalDepth < d0 + 1 then s.globalDepth + 1
        else s.globalDepth) :
    Inv S := by
  obtain ⟨i1, i2, i3, i4⟩ := hInv
  have hpos : (0 : Nat) < 2 ^ s.globalDepth := Nat.pos_pow_of_pos _ (by omega)
  have hd0g : d0 ≤ s.globalDepth := hd0 ▸ i3 b0 hb0
  have hbidlt : dirAt s b0 < s.buckets.length := i2 b0 hb0
  have hg1cases :
      (s.globalDepth < d0 + 1 ∧ S.globalDepth = s.globalDepth + 1) ∨
      (¬ s.globalDepth < d0 + 1 ∧ S.globalDepth = s.globalDepth) := by
    by_cases hdb : s.globalDepth < d0 + 1
    · exact Or.inl ⟨hdb, by rw [hSg, if_pos hdb]⟩
    · exact Or.inr ⟨hdb, by rw [hSg, if_neg hdb]⟩
  have hldle : d0 + 1 ≤ S.globalDepth := by
    rcases hg1cases with ⟨hdb, hq⟩ | ⟨hdb, hq⟩ <;> omega
  have hgle : s.globalDepth ≤ S.globalDepth := by
    rcases hg1cases with ⟨hdb, hq⟩ | ⟨hdb, hq⟩ <;> omega
  have hdir1len : (if s.globalDepth < d0 + 1 then s.dir ++ s.dir
      else s.dir).length = 2 ^ S.globalDepth := by
    rcases hg1cases with ⟨hdb, hq⟩ | ⟨hdb, hq⟩
    · rw [if_pos hdb, List.length_append, i1, hq, pow_succ]
      omega
    · rw [if_neg hdb, i1, hq]
  have hSdirlen : S.dir.length = 2 ^ S.globalDepth := by
    rw [hSdir, List.length_mapIdx, hdir1len]
  have hmodlt : ∀ i : Nat, i % 2 ^ s.globalDepth < 2 ^ s.globalDepth :=
    fun i => Nat.mod_lt _ hpos
  have hdir1at : ∀ i, i < 2 ^ S.globalDepth →
      (if s.globalDepth < d0 + 1 then s.dir ++ s.dir else s.dir).getD i 0
        = dirAt s (i % 2 ^ s.globalDepth) := by
    intro i hi
    rcases hg1cases with ⟨hdb, hq⟩ | ⟨hdb, hq⟩
    · rw [if_pos hdb]
      rcases Nat.lt_or_ge i (2 ^ s.globalDepth) with h2 | h2
      · rw [getD_append_left _ (by rw [i1]; exact h2), Nat.mod_eq_of_lt h2]
        rfl
      · have hi2 : i < 2 ^ (s.globalDepth + 1) := by
          rw [← hq]
          exact hi
        rw [pow_succ] at hi2
        rw [getD_append_right' _ (by rw [i1]; exact h2), i1,
          show i % 2 ^ s.globalDepth = i - 2 ^ s.globalDepth from by
            rw [Nat.mod_eq_sub_mod h2, Nat.mod_eq_of_lt (by omega)]]
        rfl
    · rw [if_neg hdb, Nat.mod_eq_of_lt (by rw [← hq]; exact hi)]
      rfl
  have hD : ∀ i, i < 2 ^ S.globalDepth → dirAt S i =
      (if i % 2 ^ (d0 + 1) = (b0 ^^^ 2 ^ d0) % 2 ^ (d0 + 1)
        then s.buckets.length else dirAt s (i % 2 ^ s.globalDepth)) := by
    intro i hi
    show S.dir.getD i 0 = _
    rw [hSdir, getD_mapIdx (by rw [hdir1len]; exact hi), hdir1at i hi]
  have hSbucklen : S.buckets.length = s.buckets.length + 1 := by
    rw [hSbuckets, List.length_append, List.length_set]
    rfl
  have hdep_bid : bucketDepth S (dirAt s b0) = d0 + 1 := by
    unfold bucketDepth bucketAt
    rw [hSbuckets, getD_append_left _ (by rw [List.length_set]; exact hbidlt),
      getD_set_eq _ _ hbidlt]
  have hdep_nb : bucketDepth S s.buckets.length = d0 + 1 := by
    unfold bucketDepth bucketAt
    rw [hSbuckets, getD_append_right' _ (by rw [List.length_set]),
      List.length_set]
    simp
  have hdep_other : ∀ x, x ≠ dirAt s b0 → x < s.buckets.length →
      bucketDepth S x = bucketDepth s x := by
    intro x hne hx
    unfold bucketDepth bucketAt
    rw [hSbuckets, getD_append_left _ (by rw [List.length_set]; exact hx),
      getD_set_ne _ _ fun hc => hne hc.symm]
  have hpair0 : (b0 ^^^ 2 ^ d0) % 2 ^ d0 = b0 % 2 ^ d0 := xor_high_mod b0 d0
  have hpairne : ¬ (b0 ^^^ 2 ^ d0) % 2 ^ (d0 + 1) = b0 % 2 ^ (d0 + 1) :=
    xor_high_mod_succ_ne b0 d0
  have hclass : ∀ j, j < 2 ^ s.globalDepth →
      (dirAt s b0 = dirAt s j ↔ b0 % 2 ^ d0 = j % 2 ^ d0) := by
    intro j hj
    have h := i4 b0 hb0 j hj
    rw [← hd0] at h
    exact h
  have hPib : ∀ i, i % 2 ^ (d0 + 1) = (b0 ^^^ 2 ^ d0) % 2 ^ (d0 + 1) →
      i % 2 ^ d0 = b0 % 2 ^ d0 := by
    intro i hPi
    have h2 := @mod_transfer i (b0 ^^^ 2 ^ d0) d0 (d0 + 1) (by omega) hPi
    rw [hpair0] at h2
    exact h2
  have hbidClass : ∀ i, dirAt s (i % 2 ^ s.globalDepth) = dirAt s b0 ↔
      i % 2 ^ d0 = b0 % 2 ^ d0 := by
    intro i
    rw [show i % 2 ^ d0 = i % 2 ^ s.globalDepth % 2 ^ d0 from
      (mod_self_mod hd0g).symm]
    constructor
    · intro h
      exact ((hclass _ (hmodlt i)).1 h.symm).symm
    · intro h
      exact ((hclass _ (hmodlt i)).2 h.symm).symm
  have hsplitclass : ∀ i, i % 2 ^ d0 = b0 % 2 ^ d0 →
      ¬ i % 2 ^ (d0 + 1) = (b0 ^^^ 2 ^ d0) % 2 ^ (d0 + 1) →
      i % 2 ^ (d0 + 1) = b0 % 2 ^ (d0 + 1) := by
    intro i h1 h2
    rcases mod_succ_of_mod h1 with h3 | h3
    · exact h3
    · exact absurd h3 h2
  refine ⟨hSdirlen, ?_, ?_, ?_⟩
  · intro i hi
    rw [hD i hi, hSbucklen]
    by_cases hPi : i % 2 ^ (d0 + 1) = (b0 ^^^ 2 ^ d0) % 2 ^ (d0 + 1)
    · rw [if_pos hPi]
      omega
    · rw [if_neg hPi]
      have := i2 _ (hmodlt i)
      omega
  · intro i hi
    rw [hD i hi]
    by_cases hPi : i % 2 ^ (d0 + 1) = (b0 ^^^ 2 ^ d0) % 2 ^ (d0 + 1)
    · rw [if_pos hPi, hdep_nb]
      exact hldle
    · rw [if_neg hPi]
      by_cases hci : dirAt s (i % 2 ^ s.globalDepth) = dirAt s b0
      · rw [hci, hdep_bid]
        exact hldle
      · rw [hdep_other _ hci (i2 _ (hmodlt i))]
        exact le_trans (i3 _ (hmodlt i)) hgle
  · intro i hi j hj
    rw [hD i hi, hD j hj]
    by_cases hPi : i % 2 ^ (d0 + 1) = (b0 ^^^ 2 ^ d0) % 2 ^ (d0 + 1) <;>
      by_cases hPj : j % 2 ^ (d0 + 1) = (b0 ^^^ 2 ^ d0) % 2 ^ (d0 + 1)
    · rw [if_pos hPi, if_pos hPj, hdep_nb]
      constructor
      · intro _
        rw [hPi, hPj]
      · intro _
        rfl
    · rw [if_pos hPi, if_neg hPj, hdep_nb]
      constructor
      · intro h
        have := i2 _ (hmodlt j)
        omega
      · intro h
        exact absurd (h ▸ hPi) hPj
    · rw [if_neg hPi, if_pos hPj]
      by_cases hci : dirAt s (i % 2 ^ s.globalDepth) = dirAt s b0
      · rw [hci, hdep_bid]
        constructor
        · intro h
          have := i2 b0 hb0
          omega
        · intro h
          exact absurd (h.symm ▸ hPj) hPi
      · rw [hdep_other _ hci (i2 _ (hmodlt i))]
        constructor
        · intro h
          have := i2 _ (hmodlt i)
          rw [h] at this
          omega
        · intro h
          exfalso
          have hdci : bucketDepth s (dirAt s (i % 2 ^ s.globalDepth))
              ≤ s.globalDepth := i3 _ (hmodlt i)
          have h2 : i % 2 ^ s.globalDepth
                % 2 ^ bucketDepth s (dirAt s (i % 2 ^ s.globalDepth))
              = j % 2 ^ s.globalDepth
                % 2 ^ bucketDepth s (dirAt s (i % 2 ^ s.globalDepth)) := by
            rw [mod_self_mod hdci, mod_self_mod hdci]
            exact h
          have h3 := (i4 _ (hmodlt i) _ (hmodlt j)).2 h2
          have h4 : dirAt s (j % 2 ^ s.globalDepth) = dirAt s b0 :=
            (hbidClass j).2 (hPib j hPj)
          exact hci (h3.trans h4)
    · rw [if_neg hPi, if_neg hPj]
      by_cases hci : dirAt s (i % 2 ^ s.globalDepth) = dirAt s b0
      · rw [hci, hdep_bid]
        have hib : i % 2 ^ (d0 + 1) = b0 % 2 ^ (d0 + 1) :=
          hsplitclass i ((hbidClass i).1 hci) hPi
        constructor
        · intro h
          have hjb : j % 2 ^ (d0 + 1) = b0 % 2 ^ (d0 + 1) :=
            hsplitclass j ((hbidClass j).1 h.symm) hPj
          rw [hib, hjb]
        · intro h
          have hjb : j % 2 ^ (d0 + 1) = b0 % 2 ^ (d0 + 1) := h.symm.trans hib
          have hj2 : dirAt s (j % 2 ^ s.globalDepth) = dirAt s b0 :=
            (hbidClass j).2 (@mod_transfer j b0 d0 (d0 + 1) (by omega) hjb)
          exact hj2.symm
      · rw [hdep_other _ hci (i2 _ (hmodlt i))]
        have hdci : bucketDepth s (dirAt s (i % 2 ^ s.globalDepth))
            ≤ s.globalDepth := i3 _ (hmodlt i)
        constructor
        · intro h
          have h2 := (i4 _ (hmodlt i) _ (hmodlt j)).1 h
          rw [mod_self_mod hdci, mod_self_mod hdci] at h2
          exact h2
        · intro h
          have h2 : i % 2 ^ s.globalDepth
                % 2 ^ bucketDepth s (dirAt s (i % 2 ^ s.globalDepth))
              = j % 2 ^ s.globalDepth
                % 2 ^ bucketDepth s (dirAt s (i % 2 ^ s.globalDepth)) := by
            rw [mod_self_mod hdci, mod_self_mod hdci]
            exact h
          exact (i4 _ (hmodlt i) _ (hmodlt j)).2 h2

theorem bucketRemove_depth (b : Bucket) (k : Nat) :
    (bucketRemove b k).1.depth = b.depth := by
  unfold bucketRemove
  split_ifs <;> rfl

theorem insertStep_inv (s : EHT) (key v : Nat) (hInv : Inv s) :
    Inv (insertStep s key v).1 := by
  have hpos : (0 : Nat) < 2 ^ s.globalDepth := Nat.pos_pow_of_pos _ (by omega)
  have hb0 : indexOf s key < 2 ^ s.globalDepth := Nat.mod_lt _ hpos
  rcases hbi : bucketInsert s.bucketSize (bucketAt s (dirAt s (indexOf s key)))
      key v with ⟨b', success⟩
  cases success with
  | true =>
    have hdep : b'.depth = bucketDepth s (dirAt s (indexOf s key)) := by
      have h := bucketInsert_depth s.bucketSize
        (bucketAt s (dirAt s (indexOf s key))) key v
      rw [hbi] at h
      exact h
    have hs : (insertStep s key v).1
        = { s with buckets := s.buckets.set (dirAt s (indexOf s key)) b' } := by
      simp only [insertStep, hbi, if_true, if_false]
    rw [hs]
    exact sameShape_inv (set_bucket_sameShape s _ b' hdep) hInv
  | false =>
    have hs1 : Inv (⟨(if s.globalDepth
            < bucketDepth s (dirAt s (indexOf s key)) + 1
          then s.dir ++ s.dir else s.dir).mapIdx
        (fun i b => if i % 2 ^ (bucketDepth s (dirAt s (indexOf s key)) + 1)
            = (indexOf s key ^^^ 2 ^ bucketDepth s (dirAt s (indexOf s key)))
              % 2 ^ (bucketDepth s (dirAt s (indexOf s key)) + 1)
          then s.buckets.length else b),
        (s.buckets.set (dirAt s (indexOf s key))
          { bucketAt s (dirAt s (indexOf s key)) with
              depth := bucketDepth s (dirAt s (indexOf s key)) + 1,
              items := [] })
          ++ [⟨[], bucketDepth s (dirAt s (indexOf s key)) + 1⟩],
        (if s.globalDepth < bucketDepth s (dirAt s (indexOf s key)) + 1
          then s.globalDepth + 1 else s.globalDepth),
        s.bucketSize, s.numBuckets⟩ : EHT) :=
      inv_split hb0 rfl ⟨hInv.1, hInv.2.1, hInv.2.2.1, hInv.2.2.2⟩ rfl rfl rfl
    have hs : (insertStep s key v).1
        = (bucketAt s (dirAt s (indexOf s key))).items.foldl reinsertItem
          (⟨(if s.globalDepth
              < bucketDepth s (dirAt s (indexOf s key)) + 1
            then s.dir ++ s.dir else s.dir).mapIdx
          (fun i b => if i % 2 ^ (bucketDepth s (dirAt s (indexOf s key)) + 1)
              = (indexOf s key ^^^ 2 ^ bucketDepth s (dirAt s (indexOf s key)))
                % 2 ^ (bucketDepth s (dirAt s (indexOf s key)) + 1)
            then s.buckets.length else b),
          (s.buckets.set (dirAt s (indexOf s key))
            { bucketAt s (dirAt s (indexOf s key)) with
                depth := bucketDepth s (dirAt s (indexOf s key)) + 1,
                items := [] })
            ++ [⟨[], bucketDepth s (dirAt s (indexOf s key)) + 1⟩],
          (if s.globalDepth < bucketDepth s (dirAt s (indexOf s key)) + 1
            then s.globalDepth + 1 else s.globalDepth),
          s.bucketSize, s.numBuckets⟩ : EHT) := by
      simp only [insertStep, hbi, pairIndex, Nat.add_sub_cancel, if_true,
        if_false]
      rfl
    rw [hs]
    exact sameShape_inv (foldl_reinsert_sameShape _ _) hs1

theorem ehtInsert_inv (s : EHT) (key v fuel : Nat) (hInv : Inv s) :
    Inv (ehtInsert s key v fuel) := by
  induction fuel generalizing s with
  | zero => exact hInv
  | succ fuel ih =>
    have h := insertStep_inv s key v hInv
    unfold ehtInsert
    rcases hstep : insertStep s key v with ⟨s', success⟩
    rw [hstep] at h
    cases success with
    | true => exact h
    | false => exact ih s' h

theorem ehtRemove_inv (s : EHT) (key : Nat) (hInv : Inv s) :
    Inv (ehtRemove s key).1 := by
  rcases hbr : bucketRemove (bucketAt s (dirAt s (indexOf s key))) key
    with ⟨b', present⟩
  have hdep : b'.depth = bucketDepth s (dirAt s (indexOf s key)) := by
    have h := bucketRemove_depth (bucketAt s (dirAt s (indexOf s key))) key
    rw [hbr] at h
    exact h
  have hs : (ehtRemove s key).1
      = { s with buckets := s.buckets.set (dirAt s (indexOf s key)) b' } := by
    simp only [ehtRemove, hbr]
  rw [hs]
  exact sameShape_inv (set_bucket_sameShape s _ b' hdep) hInv

theorem EHTReachable_inv {s : EHT} (h : EHTReachable s) : Inv s := by
  induction h with
  | init bucketSize => exact inv_initEHT bucketSize
  | insert key v fuel _ ih => exact ehtInsert_inv _ key v fuel ih
  | remove key _ ih => exact ehtRemove_inv _ key ih

theorem countP_range_single (n r : Nat) :
    (List.range n).countP (fun i => i == r) = if r < n then 1 else 0 := by
  induction n with
  | zero => simp
  | succ n ih =>
    rw [List.range_succ, List.countP_append, ih, List.countP_singleton]
    by_cases h2 : n = r
    · subst h2
      rw [if_neg (Nat.lt_irrefl n), if_pos (Nat.lt_succ_self n)]
      simp
    · have hne : (n == r) = false := beq_eq_false_iff_ne.mpr h2
      rw [hne]
      by_cases h : r < n
      · rw [if_pos h, if_pos (show r < n + 1 from by omega)]
        simp
      · rw [if_neg h, if_neg (show ¬ r < n + 1 from by omega)]
        simp

theorem countP_range_mod (d m r : Nat) (hr : r < 2 ^ d) :
    (List.range (2 ^ (d + m))).countP (fun i => i % 2 ^ d == r)
      = 2 ^ m := by
  induction m with
  | zero =>
    rw [Nat.add_zero]
    have hcg : (List.range (2 ^ d)).countP (fun i => i % 2 ^ d == r)
        = (List.range (2 ^ d)).countP (fun i => i == r) := by
      apply List.countP_congr
      intro i hi
      rw [List.mem_range] at hi
      show (i % 2 ^ d == r) = true ↔ (i == r) = true
      rw [Nat.mod_eq_of_lt hi]
    rw [hcg, countP_range_single, if_pos hr]
    exact rfl
  | succ m ih =>
    have hsplit : 2 ^ (d + (m + 1)) = 2 ^ (d + m) + 2 ^ (d + m) := by
      rw [show d + (m + 1) = (d + m) + 1 from by omega, pow_succ]
      omega
    rw [hsplit, List.range_add, List.countP_append, List.countP_map]
    have hmap : (List.range (2 ^ (d + m))).countP
        ((fun i => i % 2 ^ d == r) ∘ (fun i => 2 ^ (d + m) + i))
        = (List.range (2 ^ (d + m))).countP (fun i => i % 2 ^ d == r) := by
      apply List.countP_congr
      intro i hi
      show ((2 ^ (d + m) + i) % 2 ^ d == r) = true ↔ (i % 2 ^ d == r) = true
      have harith : (2 ^ (d + m) + i) % 2 ^ d = i % 2 ^ d := by
        rw [Nat.add_comm, pow_add, Nat.add_mul_mod_self_left]
      rw [harith]
    rw [hmap, ih, pow_succ]
    omega

/-- The number of directory slots pointing at bucket `bid`. -/
def slotCount (s : EHT) (bid : Nat) : Nat :=
  (List.range (2 ^ s.globalDepth)).countP (fun i => dirAt s i == bid)

theorem insertStep_numBuckets (s : EHT) (key v : Nat) :
    (insertStep s key v).1.numBuckets = s.numBuckets := by
  rcases hbi : bucketInsert s.bucketSize (bucketAt s (dirAt s (indexOf s key)))
      key v with ⟨b', success⟩
  cases success with
  | true => simp only [insertStep, hbi, if_true, if_false]
  | false =>
    simp only [insertStep, hbi, if_true, if_false]
    exact (foldl_reinsert_sameShape _ _).2.2.2.1

theorem ehtInsert_numBuckets (s : EHT) (key v fuel : Nat) :
    (ehtInsert s key v fuel).numBuckets = s.numBuckets := by
  induction fuel generalizing s with
  | zero => rfl
  | succ fuel ih =>
    have h := insertStep_numBuckets s key v
    unfold ehtInsert
    rcases hstep : insertStep s key v with ⟨s', success⟩
    rw [hstep] at h
    cases success with
    | true => exact h
    | false => exact (ih s').trans h

theorem ehtRemove_numBuckets (s : EHT) (key : Nat) :
    (ehtRemove s key).1.numBuckets = s.numBuckets := by
  rcases hbr : bucketRemove (bucketAt s (dirAt s (indexOf s key))) key
    with ⟨b', present⟩
  simp only [ehtRemove, hbr]

/-- **C4**: in every reachable state of the extendible hash table the
directory has `2 ^ global_depth` slots, every referenced bucket's local
depth is at most the global depth, and each referenced bucket is pointed
at by exactly `2 ^ (global_depth - local_depth)` directory slots. -/
theorem claim_C4_invariant (s : EHT) (h : EHTReachable s) :
    s.dir.length = 2 ^ s.globalDepth ∧
    ∀ b0 < 2 ^ s.globalDepth,
      bucketDepth s (dirAt s b0) ≤ s.globalDepth ∧
      slotCount s (dirAt s b0)
        = 2 ^ (s.globalDepth - bucketDepth s (dirAt s b0)) := by
  obtain ⟨i1, i2, i3, i4⟩ := EHTReachable_inv h
  refine ⟨i1, ?_⟩
  intro b0 hb0
  refine ⟨i3 b0 hb0, ?_⟩
  have hd0 : bucketDepth s (dirAt s b0) ≤ s.globalDepth := i3 b0 hb0
  have hcg : slotCount s (dirAt s b0)
      = (List.range (2 ^ s.globalDepth)).countP
        (fun i => i % 2 ^ bucketDepth s (dirAt s b0)
          == b0 % 2 ^ bucketDepth s (dirAt s b0)) := by
    unfold slotCount
    apply List.countP_congr
    intro i hi
    rw [List.mem_range] at hi
    show (dirAt s i == dirAt s b0) = true ↔ _
    rw [beq_iff_eq, beq_iff_eq]
    have h4 := i4 b0 hb0 i hi
    constructor
    · intro he
      exact (h4.1 he.symm).symm
    · intro he
      exact (h4.2 he.symm).symm
  have hmain := countP_range_mod (bucketDepth s (dirAt s b0))
    (s.globalDepth - bucketDepth s (dirAt s b0))
    (b0 % 2 ^ bucketDepth s (dirAt s b0))
    (Nat.mod_lt _ (Nat.pos_pow_of_pos _ (by omega)))
  rw [show bucketDepth s (dirAt s b0)
      + (s.globalDepth - bucketDepth s (dirAt s b0)) = s.globalDepth from by
    omega] at hmain
  rw [hcg, hmain]

/-- Witness for C4: the invariant instantiated at the freshly constructed
table with bucket size 4. -/
theorem claim_C4_invariant_witness :
    (initEHT 4).dir.length = 2 ^ (initEHT 4).globalDepth ∧
    ∀ b0 < 2 ^ (initEHT 4).globalDepth,
      bucketDepth (initEHT 4) (dirAt (initEHT 4) b0)
        ≤ (initEHT 4).globalDepth ∧
      slotCount (initEHT 4) (dirAt (initEHT 4) b0)
        = 2 ^ ((initEHT 4).globalDepth
          - bucketDepth (initEHT 4) (dirAt (initEHT 4) b0)) :=
  claim_C4_invariant (initEHT 4) (EHTReachable.init 4)

/-- **C9**: `GetNumBuckets` returns 1 in every reachable state — the
active `Insert` path plants new sibling buckets during splits but never
touches the `num_buckets_` counter initialised to 1 by the constructor.
The second and third conjuncts exhibit the mismatch concretely: two
inserts into a table of bucket size 1 leave two allocated buckets while
`GetNumBuckets` still reports 1. -/
theorem claim_C9_numBuckets :
    (∀ s : EHT, EHTReachable s → ehtGetNumBuckets s = 1) ∧
    1 < (ehtInsert (ehtInsert (initEHT 1) 0 10 3) 1 11 3).buckets.length ∧
    ehtGetNumBuckets (ehtInsert (ehtInsert (initEHT 1) 0 10 3) 1 11 3)
      = 1 := by
  refine ⟨?_, by decide, by decide⟩
  intro s h
  induction h with
  | init bucketSize => rfl
  | insert key v fuel _ ih =>
    show (ehtInsert _ _ _ _).numBuckets = 1
    rw [ehtInsert_numBuckets]
    exact ih
  | remove key _ ih =>
    show (ehtRemove _ _).1.numBuckets = 1
    rw [ehtRemove_numBuckets]
    exact ih

/-!  Association-list and frame-array lemmas for the buffer pool. -/

theorem lookupPT_map_overwrite (t : List (Int × Nat)) (p : Int) (f : Nat)
    (h : t.any (fun e => e.1 == p) = true) :
    lookupPT (t.map (fun e => if e.1 == p then (p, f) else e)) p = some f := by
  induction t with
  | nil => cases h
  | cons a t ih =>
    by_cases ha : a.1 = p
    · unfold lookupPT
      simp [List.find?, ha]
    · have h2 : t.any (fun e => e.1 == p) = true := by
        rcases List.any_eq_true.1 h with ⟨e, he, hep⟩
        rcases List.mem_cons.1 he with rfl | he2
        · exact absurd (by simpa using hep) ha
        · exact List.any_eq_true.2 ⟨e, he2, hep⟩
      unfold lookupPT at ih ⊢
      simp only [List.map_cons, beq_eq_false_iff_ne.mpr ha, Bool.false_eq_true,
        if_false]
      rw [List.find?_cons_of_neg _ (by simpa using ha)]
      exact ih h2

theorem lookupPT_insertPT_self (t : List (Int × Nat)) (p : Int) (f : Nat) :
    lookupPT (insertPT t p f) p = some f := by
  unfold insertPT
  by_cases h : t.any (fun e => e.1 == p)
  · rw [if_pos h]
    exact lookupPT_map_overwrite t p f h
  · rw [if_neg h]
    rw [Bool.not_eq_true] at h
    induction t with
    | nil =>
      unfold lookupPT
      simp [List.find?]
    | cons a t ih =>
      rw [List.any_cons, Bool.or_eq_false_iff] at h
      unfold lookupPT
      rw [List.cons_append, List.find?_cons_of_neg _ (by simp [h.1])]
      exact ih h.2

theorem lookupPT_insertPT_ne (t : List (Int × Nat)) {p q : Int} (f : Nat)
    (h : q ≠ p) : lookupPT (insertPT t p f) q = lookupPT t q := by
  unfold insertPT
  by_cases hc : t.any (fun e => e.1 == p)
  · rw [if_pos hc]
    clear hc
    induction t with
    | nil => rfl
    | cons a t ih =>
      by_cases ha : a.1 = p
      · unfold lookupPT
        rw [List.map_cons, if_pos (by simpa using ha),
          List.find?_cons_of_neg _ (by simp [Ne.symm h]),
          List.find?_cons_of_neg _ (by simp [ha, Ne.symm h])]
        exact ih
      · unfold lookupPT
        rw [List.map_cons, if_neg (by simpa using ha)]
        by_cases haq : a.1 = q
        · rw [List.find?_cons_of_pos _ (by simpa using haq),
            List.find?_cons_of_pos _ (by simpa using haq)]
        · rw [List.find?_cons_of_neg _ (by simpa using haq),
            List.find?_cons_of_neg _ (by simpa using haq)]
          exact ih
  · rw [if_neg hc]
    clear hc
    induction t with
    | nil =>
      unfold lookupPT
      simp [List.find?, beq_eq_false_iff_ne.mpr (Ne.symm h)]
    | cons a t ih =>
      by_cases haq : a.1 = q
      · unfold lookupPT
        rw [List.cons_append, List.find?_cons_of_pos _ (by simpa using haq),
          List.find?_cons_of_pos _ (by simpa using haq)]
      · unfold lookupPT
        rw [List.cons_append, List.find?_cons_of_neg _ (by simpa using haq),
          List.find?_cons_of_neg _ (by simpa using haq)]
        exact ih

theorem mem_erasePT {t : List (Int × Nat)} {p : Int} {e : Int × Nat}
    (h : e ∈ erasePT t p) : e ∈ t :=
  List.eraseP_subset _ h

theorem keys_erasePT_sublist (t : List (Int × Nat)) (p : Int) :
    ((erasePT t p).map Prod.fst).Sublist (t.map Prod.fst) :=
  List.Sublist.map _ (List.eraseP_sublist t)

theorem lookupPT_mem {t : List (Int × Nat)} {p : Int} {f : Nat}
    (h : lookupPT t p = some f) : (p, f) ∈ t := by
  unfold lookupPT at h
  rcases hf : t.find? (fun e => e.1 == p) with _ | e
  · rw [hf] at h
    cases h
  · rw [hf] at h
    have h1 := List.find?_some hf
    have h2 := List.mem_of_find?_eq_some hf
    rw [beq_iff_eq] at h1
    have h3 : e.2 = f := by simpa using h
    have h4 : (p, f) = e := by
      rcases e with ⟨e1, e2⟩
      simp only at h1 h3
      rw [h1, h3]
    rw [h4]
    exact h2

theorem containsPT_eq_true_of_lookup {t : List (Int × Nat)} {p : Int} {f : Nat}
    (h : lookupPT t p = some f) : containsPT t p = true := by
  unfold containsPT
  exact List.any_eq_true.2 ⟨(p, f), lookupPT_mem h, by simp⟩

theorem lookup_isSome_of_containsPT {t : List (Int × Nat)} {p : Int}
    (h : containsPT t p = true) : ∃ f, lookupPT t p = some f := by
  unfold containsPT at h
  obtain ⟨e, he, hep⟩ := List.any_eq_true.1 h
  have h2 : (t.find? (fun e => e.1 == p)).isSome = true :=
    List.find?_isSome.2 ⟨e, he, hep⟩
  rcases hf : t.find? (fun e => e.1 == p) with _ | e2
  · rw [hf] at h2
    cases h2
  · refine ⟨e2.2, ?_⟩
    unfold lookupPT
    rw [hf]
    rfl

theorem lookupPT_eq_none_of_not_contains {t : List (Int × Nat)} {p : Int}
    (h : ¬ containsPT t p = true) : lookupPT t p = none := by
  unfold containsPT at h
  unfold lookupPT
  rw [List.find?_eq_none.2 ?_]
  · rfl
  · intro e he
    exact fun hc => h (List.any_eq_true.2 ⟨e, he, hc⟩)

theorem lookupPT_eq_none_of_not_mem_keys {t : List (Int × Nat)} {p : Int}
    (h : p ∉ t.map Prod.fst) : lookupPT t p = none := by
  unfold lookupPT
  rw [List.find?_eq_none.2 ?_]
  · rfl
  · intro e he hc
    rw [beq_iff_eq] at hc
    exact h (List.mem_map.2 ⟨e, he, hc⟩)

theorem nodup_insertPT {t : List (Int × Nat)} (p : Int) (f : Nat)
    (h : (t.map Prod.fst).Nodup) : ((insertPT t p f).map Prod.fst).Nodup := by
  unfold insertPT
  by_cases hc : t.any (fun e => e.1 == p)
  · rw [if_pos hc]
    have hkeys : (t.map (fun e => if e.1 == p then (p, f) else e)).map Prod.fst
        = t.map Prod.fst := by
      rw [List.map_map]
      apply List.map_congr_left
      intro e _
      by_cases he : e.1 = p
      · simp [he]
      · simp only [Function.comp]
        rw [if_neg (by simpa using he)]
    rw [hkeys]
    exact h
  · rw [if_neg hc]
    rw [List.map_append]
    apply List.Nodup.append h (by simp)
    intro a ha hb
    simp only [List.map_cons, List.map_nil, List.mem_singleton] at hb
    subst hb
    rw [Bool.not_eq_true, List.any_eq_false] at hc
    obtain ⟨e, he, hep⟩ := List.mem_map.1 ha
    exact absurd (by simp [hep]) (hc e he)

theorem nodup_erasePT {t : List (Int × Nat)} (p : Int)
    (h : (t.map Prod.fst).Nodup) : ((erasePT t p).map Prod.fst).Nodup :=
  h.sublist (keys_erasePT_sublist t p)

theorem lookupPT_erasePT_self {t : List (Int × Nat)} {p : Int}
    (h : (t.map Prod.fst).Nodup) : lookupPT (erasePT t p) p = none := by
  induction t with
  | nil => rfl
  | cons a t ih =>
    rw [List.map_cons, List.nodup_cons] at h
    by_cases ha : a.1 = p
    · have he : erasePT (a :: t) p = t := by
        unfold erasePT
        rw [List.eraseP_cons_of_pos (by simpa using ha)]
      rw [he]
      apply lookupPT_eq_none_of_not_mem_keys
      rw [← ha]
      exact h.1
    · have he : erasePT (a :: t) p = a :: erasePT t p := by
        unfold erasePT
        rw [List.eraseP_cons_of_neg (by simpa using ha)]
      rw [he]
      unfold lookupPT
      rw [List.find?_cons_of_neg _ (by simpa using ha)]
      exact ih h.2

theorem lookupPT_erasePT_ne {t : List (Int × Nat)} {p q : Int} (h : q ≠ p) :
    lookupPT (erasePT t p) q = lookupPT t q := by
  induction t with
  | nil => rfl
  | cons a t ih =>
    by_cases ha : a.1 = p
    · have he : erasePT (a :: t) p = t := by
        unfold erasePT
        rw [List.eraseP_cons_of_pos (by simpa using ha)]
      rw [he]
      unfold lookupPT
      rw [List.find?_cons_of_neg _ (by simp [ha, Ne.symm h])]
    · have he : erasePT (a :: t) p = a :: erasePT t p := by
        unfold erasePT
        rw [List.eraseP_cons_of_neg (by simpa using ha)]
      rw [he]
      by_cases haq : a.1 = q
      · unfold lookupPT
        rw [List.find?_cons_of_pos _ (by simpa using haq),
          List.find?_cons_of_pos _ (by simpa using haq)]
      · unfold lookupPT
        rw [List.find?_cons_of_neg _ (by simpa using haq),
          List.find?_cons_of_neg _ (by simpa using haq)]
        exact ih

theorem mem_insertPT {t : List (Int × Nat)} {p : Int} {f : Nat} {e : Int × Nat}
    (h : e ∈ insertPT t p f) : e = (p, f) ∨ e ∈ t := by
  unfold insertPT at h
  by_cases hc : t.any (fun e => e.1 == p)
  · rw [if_pos hc] at h
    obtain ⟨e2, he2, hee⟩ := List.mem_map.1 h
    by_cases he : e2.1 = p
    · rw [if_pos (by simpa using he)] at hee
      exact Or.inl hee.symm
    · rw [if_neg (by simpa using he)] at hee
      exact Or.inr (hee ▸ he2)
  · rw [if_neg hc] at h
    rcases List.mem_append.1 h with h2 | h2
    · exact Or.inr h2
    · exact Or.inl (List.mem_singleton.1 h2)

theorem diskWrite_eq_insertPT (d : List (Int × Nat)) (p : Int) (v : Nat) :
    diskWrite d p v = insertPT d p v := rfl

theorem diskRead_eq_lookup (d : List (Int × Nat)) (p : Int) :
    diskRead d p = (lookupPT d p).getD 0 := rfl

theorem diskRead_diskWrite_self (d : List (Int × Nat)) (p : Int) (v : Nat) :
    diskRead (diskWrite d p v) p = v := by
  rw [diskRead_eq_lookup, diskWrite_eq_insertPT, lookupPT_insertPT_self]
  rfl

theorem getFrame_setFrame_eq {s : BP} {f : Nat} (fr : Frame)
    (h : f < s.pages.length) : getFrame (setFrame s f fr) f = fr :=
  getD_set_eq fr emptyFrame h

theorem getFrame_setFrame_ne {s : BP} {f g : Nat} (fr : Frame)
    (h : f ≠ g) : getFrame (setFrame s f fr) g = getFrame s g :=
  getD_set_ne fr emptyFrame h

theorem setFrame_pages_length (s : BP) (f : Nat) (fr : Frame) :
    (setFrame s f fr).pages.length = s.pages.length := by
  simp [setFrame]

theorem getFrame_of_ge {s : BP} {f : Nat} (h : s.pages.length ≤ f) :
    getFrame s f = emptyFrame :=
  List.getD_eq_default _ _ h

theorem evictableIn_tracked {r : LRUK} {f : Nat} (h : evictableIn r f) :
    tracked r f := by
  obtain ⟨n, hn, hnf, -⟩ := h
  rcases List.mem_append.1 hn with hn | hn
  · exact Or.inl (mem_ids.2 ⟨n, hn, hnf⟩)
  · exact Or.inr (mem_ids.2 ⟨n, hn, hnf⟩)

theorem recordAccess_WF {r : LRUK} (hWF : WF r) (f : Nat) :
    WF (recordAccess r f) := by
  by_cases ht : tracked r f
  · exact (recordAccess_tracked hWF ht).1
  · by_cases hroom : r.histSize + r.bufSize = r.replacerSize
    · rw [recordAccess_full ht hroom]
      exact hWF
    · exact (recordAccess_untracked_room hWF ht hroom).1

theorem setEvictable_WF {r : LRUK} (hWF : WF r) (f : Nat) (b : Bool) :
    WF (setEvictable r f b) := by
  by_cases ht : tracked r f
  · exact (setEvictable_tracked hWF ht).1
  · rw [setEvictable_not_tracked ht]
    exact hWF

theorem observables_of_nodesOf {r r' : LRUK} {g : Nat}
    (hh : nodesOf r'.history g = nodesOf r.history g)
    (hb : nodesOf r'.buffer g = nodesOf r.buffer g) :
    (tracked r' g ↔ tracked r g) ∧ (evictableIn r' g ↔ evictableIn r g) := by
  constructor
  · rw [tracked_iff_nodesOf, tracked_iff_nodesOf, hh, hb]
  · rw [evictableIn_iff_nodesOf, evictableIn_iff_nodesOf, hh, hb]

/-- The replacer state `UpdateFrameInfo(f, 1)` leaves behind:
`RecordAccess(f)` followed by `SetEvictable(f, false)`.  The target frame
ends non-evictable, every other frame keeps its tracking and
evictability, a frame tracked afterwards was tracked before or is `f`,
and well-formedness and the capacity are preserved. -/
theorem record_set_false_spec {r : LRUK} (hWF : WF r) (f : Nat) :
    WF (setEvictable (recordAccess r f) f false) ∧
    ¬ evictableIn (setEvictable (recordAccess r f) f false) f ∧
    (∀ g, g ≠ f →
      (tracked (setEvictable (recordAccess r f) f false) g ↔ tracked r g) ∧
      (evictableIn (setEvictable (recordAccess r f) f false) g ↔
        evictableIn r g)) ∧
    (∀ g, tracked (setEvictable (recordAccess r f) f false) g →
      tracked r g ∨ g = f) ∧
    (setEvictable (recordAccess r f) f false).replacerSize
      = r.replacerSize := by
  have hconst := recordAccess_const r f
  by_cases ht : tracked r f
  · obtain ⟨hWF1, ht1, -, hoth1, -, -⟩ := recordAccess_tracked hWF ht
    obtain ⟨hWF2, -, hev2, hoth2, -, -, -, -, hrs2, -⟩ :=
      setEvictable_tracked (b := false) hWF1 ht1
    refine ⟨hWF2, ?_, ?_, ?_, hrs2.trans hconst.2.1⟩
    · intro hc
      exact Bool.false_ne_true (hev2.1 hc)
    · intro g hg
      have o1 := observables_of_nodesOf (hoth2 g hg).1 (hoth2 g hg).2
      have o2 := observables_of_nodesOf (hoth1 g hg).1 (hoth1 g hg).2
      exact ⟨o1.1.trans o2.1, o1.2.trans o2.2⟩
    · intro g hgt
      by_cases hg : g = f
      · exact Or.inr hg
      · have o1 := observables_of_nodesOf (hoth2 g hg).1 (hoth2 g hg).2
        have o2 := observables_of_nodesOf (hoth1 g hg).1 (hoth1 g hg).2
        exact Or.inl (o2.1.1 (o1.1.1 hgt))
  · by_cases hfull : r.histSize + r.bufSize = r.replacerSize
    · rw [recordAccess_full ht hfull, setEvictable_not_tracked ht]
      refine ⟨hWF, fun hc => ht (evictableIn_tracked hc), ?_, ?_, rfl⟩
      · intro g _
        exact ⟨Iff.rfl, Iff.rfl⟩
      · intro g hgt
        exact Or.inl hgt
    · obtain ⟨hWF1, ht1, -, hoth1, -, -⟩ :=
        recordAccess_untracked_room hWF ht hfull
      obtain ⟨hWF2, -, hev2, hoth2, -, -, -, -, hrs2, -⟩ :=
        setEvictable_tracked (b := false) hWF1 ht1
      refine ⟨hWF2, ?_, ?_, ?_, hrs2.trans hconst.2.1⟩
      · intro hc
        exact Bool.false_ne_true (hev2.1 hc)
      · intro g hg
        have o1 := observables_of_nodesOf (hoth2 g hg).1 (hoth2 g hg).2
        have o2 := observables_of_nodesOf (hoth1 g hg).1 (hoth1 g hg).2
        exact ⟨o1.1.trans o2.1, o1.2.trans o2.2⟩
      · intro g hgt
        by_cases hg : g = f
        · exact Or.inr hg
        · have o1 := observables_of_nodesOf (hoth2 g hg).1 (hoth2 g hg).2
          have o2 := observables_of_nodesOf (hoth1 g hg).1 (hoth1 g hg).2
          exact Or.inl (o2.1.1 (o1.1.1 hgt))

/-- The structural invariant of reachable buffer-pool states: the
replacer is well-formed with capacity equal to the pool size and only
tracks in-range frames; free-list entries are in range; pin counts are
non-negative, a pinned frame is tracked and non-evictable, and a tracked
frame with pin count zero is evictable; a frame holding no page has
zeroed memory; the disk never holds the sentinel page id; page-table
keys are distinct, its values are in-range frames, and a non-sentinel
table entry points at the frame that holds the page. -/
structure Valid (s : BP) : Prop where
  wf : WF s.replacer
  rsize : s.replacer.replacerSize = s.pages.length
  trackedLt : ∀ f, tracked s.replacer f → f < s.pages.length
  freeLt : ∀ f ∈ s.freeList, f < s.pages.length
  pinNonneg : ∀ f, 0 ≤ (getFrame s f).pinCount
  pinnedNotEvictable : ∀ f, 0 < (getFrame s f).pinCount →
      ¬ evictableIn s.replacer f
  zeroPinEvictable : ∀ f, tracked s.replacer f →
      (getFrame s f).pinCount = 0 → evictableIn s.replacer f
  pinnedTracked : ∀ f, 0 < (getFrame s f).pinCount → tracked s.replacer f
  sentinelZeroData : ∀ f, (getFrame s f).pageId = -1 →
      (getFrame s f).data = 0
  diskKeys : ∀ e ∈ s.disk, e.1 ≠ -1
  tableKeysNodup : (s.pageTable.map Prod.fst).Nodup
  tableValuesLt : ∀ e ∈ s.pageTable, e.2 < s.pages.length
  tableAccurate : ∀ p f, p ≠ -1 → lookupPT s.pageTable p = some f →
      (getFrame s f).pageId = p

theorem valid_initBP (poolSize replacerK : Nat) (hk : 1 ≤ replacerK) :
    Valid (initBP poolSize replacerK) := by
  refine ⟨WF_initLRUK poolSize replacerK hk, by simp [initBP, initLRUK],
    ?_, ?_, ?_, ?_, ?_, ?_, ?_, ?_, ?_, ?_, ?_⟩
  · intro f hf
    rcases hf with hf | hf <;> cases hf
  · intro f hf
    simp only [initBP, List.mem_range] at hf
    simpa [initBP] using hf
  · intro f
    show (0 : Int) ≤ ((List.replicate poolSize emptyFrame).getD f emptyFrame).pinCount
    rcases Nat.lt_or_ge f poolSize with h | h
    · rw [List.getD_eq_getElem _ _ (by simpa using h), List.getElem_replicate]
      exact le_refl 0
    · rw [List.getD_eq_default _ _ (by simpa using h)]
      exact le_refl 0
  · intro f hf
    intro hc
    rcases hc with ⟨n, hn, -⟩
    cases hn
  · intro f hf
    rcases hf with hf | hf <;> cases hf
  · intro f hf
    exfalso
    have : (getFrame (initBP poolSize replacerK) f).pinCount = 0 := by
      show ((List.replicate poolSize emptyFrame).getD f emptyFrame).pinCount = 0
      rcases Nat.lt_or_ge f poolSize with h | h
      · rw [List.getD_eq_getElem _ _ (by simpa using h), List.getElem_replicate]
        rfl
      · rw [List.getD_eq_default _ _ (by simpa using h)]
        rfl
    omega
  · intro f _
    show ((List.replicate poolSize emptyFrame).getD f emptyFrame).data = 0
    rcases Nat.lt_or_ge f poolSize with h | h
    · rw [List.getD_eq_getElem _ _ (by simpa using h), List.getElem_replicate]
      rfl
    · rw [List.getD_eq_default _ _ (by simpa using h)]
      rfl
  · intro e he
    cases he
  · exact List.nodup_nil
  · intro e he
    cases he
  · intro p f _ hl
    cases hl

theorem mem_diskWrite {d : List (Int × Nat)} {p : Int} {v : Nat}
    {e : Int × Nat} (h : e ∈ diskWrite d p v) : e.1 = p ∨ e ∈ d := by
  rw [diskWrite_eq_insertPT] at h
  rcases mem_insertPT h with h2 | h2
  · exact Or.inl (by rw [h2])
  · exact Or.inr h2

theorem getFrame_set (s : BP) (f g : Nat) (fr : Frame) :
    getFrame { s with pages := s.pages.set f fr } g
      = if f = g ∧ f < s.pages.length then fr else getFrame s g := by
  by_cases hfg : f = g
  · subst hfg
    rcases Nat.lt_or_ge f s.pages.length with h | h
    · rw [if_pos ⟨rfl, h⟩]
      exact getD_set_eq fr emptyFrame h
    · rw [if_neg (fun hc => by omega)]
      show (s.pages.set f fr).getD f emptyFrame = s.pages.getD f emptyFrame
      rw [List.set_eq_of_length_le h]
  · rw [if_neg (fun hc => hfg hc.1)]
    exact getD_set_ne fr emptyFrame hfg

/-- Transfer of the invariant across a step that leaves the replacer,
free list and page table alone, keeps the pool size, writes only
non-sentinel disk entries and preserves every frame's page id, pin count
and data (only dirty flags may move). -/
theorem valid_of_eqs {s s' : BP} (hV : Valid s)
    (hrep : s'.replacer = s.replacer)
    (hfree : s'.freeList = s.freeList)
    (htab : s'.pageTable = s.pageTable)
    (hlen : s'.pages.length = s.pages.length)
    (hdisk : ∀ e ∈ s'.disk, e.1 ≠ -1)
    (hframes : ∀ g, (getFrame s' g).pageId = (getFrame s g).pageId ∧
       (getFrame s' g).pinCount = (getFrame s g).pinCount ∧
       (getFrame s' g).data = (getFrame s g).data) :
    Valid s' := by
  obtain ⟨w, rs, tl, fl, pn, pe, ze, pt, sz, dk, kn, vl, ta⟩ := hV
  refine ⟨?_, ?_, ?_, ?_, ?_, ?_, ?_, ?_, ?_, hdisk, ?_, ?_, ?_⟩
  · rw [hrep]
    exact w
  · rw [hrep, hlen]
    exact rs
  · intro f hf
    rw [hrep] at hf
    rw [hlen]
    exact tl f hf
  · intro f hf
    rw [hfree] at hf
    rw [hlen]
    exact fl f hf
  · intro f
    rw [(hframes f).2.1]
    exact pn f
  · intro f hf
    rw [(hframes f).2.1] at hf
    rw [hrep]
    exact pe f hf
  · intro f hf hp
    rw [hrep] at hf ⊢
    rw [(hframes f).2.1] at hp
    exact ze f hf hp
  · intro f hf
    rw [(hframes f).2.1] at hf
    rw [hrep]
    exact pt f hf
  · intro f hf
    rw [(hframes f).1] at hf
    rw [(hframes f).2.2]
    exact sz f hf
  · rw [htab]
    exact kn
  · intro e he
    rw [htab] at he
    rw [hlen]
    exact vl e he
  · intro p f hp hl
    rw [htab] at hl
    rw [(hframes f).1]
    exact ta p f hp hl

theorem valid_flushPage (s : BP) (p : Int) (hV : Valid s) :
    Valid (flushPage s p).2 := by
  unfold flushPage
  by_cases hp : p = -1
  · rw [if_pos hp]
    exact hV
  · rw [if_neg hp]
    rcases hl : lookupPT s.pageTable p with _ | f
    · exact hV
    · show Valid (setFrame { s with disk := diskWrite s.disk p (getFrame s f).data }
        f { getFrame s f with isDirty := false })
      refine valid_of_eqs hV rfl rfl rfl (by simp [setFrame]) ?_ ?_
      · intro e he
        rcases mem_diskWrite he with h2 | h2
        · rw [h2]
          exact hp
        · exact hV.diskKeys e h2
      · intro g
        have hgf : getFrame (setFrame { s with
              disk := diskWrite s.disk p (getFrame s f).data }
            f { getFrame s f with isDirty := false }) g
            = if f = g ∧ f < s.pages.length
              then { getFrame s f with isDirty := false } else getFrame s g :=
          getFrame_set _ f g _
        rw [hgf]
        by_cases hc : f = g ∧ f < s.pages.length
        · rw [if_pos hc, ← hc.1]
          exact ⟨rfl, rfl, rfl⟩
        · rw [if_neg hc]
          exact ⟨rfl, rfl, rfl⟩

theorem valid_flushFrame (s : BP) (f : Nat) (hV : Valid s) :
    Valid (flushFrame s f) := by
  unfold flushFrame
  by_cases hp : (getFrame s f).pageId ≠ -1
  · rw [if_pos hp]
    refine valid_of_eqs hV rfl rfl rfl (by simp [setFrame]) ?_ ?_
    · intro e he
      rcases mem_diskWrite he with h2 | h2
      · rw [h2]
        exact hp
      · exact hV.diskKeys e h2
    · intro g
      have hgf : getFrame (setFrame { s with
            disk := diskWrite s.disk (getFrame s f).pageId (getFrame s f).data }
          f { getFrame s f with isDirty := false }) g
          = if f = g ∧ f < s.pages.length
            then { getFrame s f with isDirty := false } else getFrame s g :=
        getFrame_set _ f g _
      rw [hgf]
      by_cases hc : f = g ∧ f < s.pages.length
      · rw [if_pos hc, ← hc.1]
        exact ⟨rfl, rfl, rfl⟩
      · rw [if_neg hc]
        exact ⟨rfl, rfl, rfl⟩
  · rw [if_neg hp]
    exact hV

theorem valid_flushAllPages (s : BP) (hV : Valid s) :
    Valid (flushAllPages s) := by
  unfold flushAllPages
  generalize List.range s.pages.length = l
  induction l generalizing s with
  | nil => exact hV
  | cons a l ih =>
    rw [List.foldl_cons]
    exact ih (flushFrame s a) (valid_flushFrame s a hV)

theorem getD_set_ite {α : Type} (l : List α) (i j : Nat) (a d : α) :
    (l.set i a).getD j d = if i = j ∧ i < l.length then a else l.getD j d := by
  by_cases hij : i = j
  · subst hij
    rcases Nat.lt_or_ge i l.length with h | h
    · rw [if_pos ⟨rfl, h⟩]
      exact getD_set_eq a d h
    · rw [if_neg (fun hc => by omega), List.set_eq_of_length_le h]
  · rw [if_neg (fun hc => hij hc.1)]
    exact getD_set_ne a d hij

theorem valid_unpinFrame (s : BP) (f : Nat) (hV : Valid s)
    (hpin : 0 < (getFrame s f).pinCount) :
    Valid (unpinFrame s f) := by
  have hfN : f < s.pages.length := by
    by_contra hc
    rw [getFrame_of_ge (by omega)] at hpin
    exact absurd hpin (by decide)
  have htr : tracked s.replacer f := hV.pinnedTracked f hpin
  have hnev : ¬ evictableIn s.replacer f := hV.pinnedNotEvictable f hpin
  unfold unpinFrame
  by_cases hz : (getFrame s f).pinCount - 1 = 0
  · rw [if_pos hz]
    show Valid { setFrame s f
        { getFrame s f with pinCount := (getFrame s f).pinCount - 1 } with
      replacer := setEvictable s.replacer f true }
    obtain ⟨W2, T2, E2, O2, -, -, -, -, RS2, -⟩ :=
      setEvictable_tracked (b := true) hV.wf htr
    have hga : ∀ g, getFrame { setFrame s f
          { getFrame s f with pinCount := (getFrame s f).pinCount - 1 } with
        replacer := setEvictable s.replacer f true } g
        = if f = g ∧ f < s.pages.length
          then { getFrame s f with pinCount := (getFrame s f).pinCount - 1 }
          else getFrame s g :=
      fun g => getD_set_ite s.pages f g _ emptyFrame
    have h1 : getFrame { setFrame s f
          { getFrame s f with pinCount := (getFrame s f).pinCount - 1 } with
        replacer := setEvictable s.replacer f true } f
        = { getFrame s f with pinCount := (getFrame s f).pinCount - 1 } := by
      rw [hga f, if_pos ⟨rfl, hfN⟩]
    have h2 : ∀ g, f ≠ g → getFrame { setFrame s f
          { getFrame s f with pinCount := (getFrame s f).pinCount - 1 } with
        replacer := setEvictable s.replacer f true } g = getFrame s g := by
      intro g hg
      rw [hga g, if_neg (fun hc => hg hc.1)]
    have hobs : ∀ g, g ≠ f →
        (tracked (setEvictable s.replacer f true) g ↔ tracked s.replacer g) ∧
        (evictableIn (setEvictable s.replacer f true) g ↔
          evictableIn s.replacer g) :=
      fun g hg => observables_of_nodesOf (O2 g hg).1 (O2 g hg).2
    refine ⟨W2, ?_, ?_, ?_, ?_, ?_, ?_, ?_, ?_, hV.diskKeys,
      hV.tableKeysNodup, ?_, ?_⟩
    · show (setEvictable s.replacer f true).replacerSize
        = (s.pages.set f _).length
      rw [RS2, List.length_set]
      exact hV.rsize
    · intro g hg
      show g < (s.pages.set f _).length
      rw [List.length_set]
      by_cases hgf : g = f
      · subst hgf
        exact hfN
      · exact hV.trackedLt g ((hobs g hgf).1.1 hg)
    · intro g hg
      show g < (s.pages.set f _).length
      rw [List.length_set]
      exact hV.freeLt g hg
    · intro g
      by_cases hgf : f = g
      · subst hgf
        rw [h1]
        show (0 : Int) ≤ (getFrame s f).pinCount - 1
        have := hV.pinNonneg f
        omega
      · rw [h2 g hgf]
        exact hV.pinNonneg g
    · intro g hg
      by_cases hgf : f = g
      · subst hgf
        rw [h1] at hg
        have hg2 : (0 : Int) < (getFrame s f).pinCount - 1 := hg
        exact absurd hg2 (by omega)
      · rw [h2 g hgf] at hg
        exact fun hc =>
          hV.pinnedNotEvictable g hg ((hobs g (fun h => hgf h.symm)).2.1 hc)
    · intro g hgt hgz
      by_cases hgf : f = g
      · subst hgf
        exact E2.2 rfl
      · rw [h2 g hgf] at hgz
        exact (hobs g (fun h => hgf h.symm)).2.2
          (hV.zeroPinEvictable g ((hobs g (fun h => hgf h.symm)).1.1 hgt) hgz)
    · intro g hg
      by_cases hgf : f = g
      · subst hgf
        exact T2
      · rw [h2 g hgf] at hg
        exact (hobs g (fun h => hgf h.symm)).1.2 (hV.pinnedTracked g hg)
    · intro g hg
      by_cases hgf : f = g
      · subst hgf
        rw [h1] at hg ⊢
        have hg2 : (getFrame s f).pageId = -1 := hg
        show (getFrame s f).data = 0
        exact hV.sentinelZeroData f hg2
      · rw [h2 g hgf] at hg ⊢
        exact hV.sentinelZeroData g hg
    · intro e he
      show e.2 < (s.pages.set f _).length
      rw [List.length_set]
      exact hV.tableValuesLt e he
    · intro p g hp hl
      by_cases hgf : f = g
      · subst hgf
        rw [h1]
        show (getFrame s f).pageId = p
        exact hV.tableAccurate p f hp hl
      · rw [h2 g hgf]
        exact hV.tableAccurate p g hp hl
  · rw [if_neg hz]
    show Valid (setFrame s f
      { getFrame s f with pinCount := (getFrame s f).pinCount - 1 })
    have hga : ∀ g, getFrame (setFrame s f
          { getFrame s f with pinCount := (getFrame s f).pinCount - 1 }) g
        = if f = g ∧ f < s.pages.length
          then { getFrame s f with pinCount := (getFrame s f).pinCount - 1 }
          else getFrame s g :=
      fun g => getD_set_ite s.pages f g _ emptyFrame
    have h1 : getFrame (setFrame s f
          { getFrame s f with pinCount := (getFrame s f).pinCount - 1 }) f
        = { getFrame s f with pinCount := (getFrame s f).pinCount - 1 } := by
      rw [hga f, if_pos ⟨rfl, hfN⟩]
    have h2 : ∀ g, f ≠ g → getFrame (setFrame s f
          { getFrame s f with pinCount := (getFrame s f).pinCount - 1 }) g
        = getFrame s g := by
      intro g hg
      rw [hga g, if_neg (fun hc => hg hc.1)]
    refine ⟨hV.wf, ?_, ?_, ?_, ?_, ?_, ?_, ?_, ?_, hV.diskKeys,
      hV.tableKeysNodup, ?_, ?_⟩
    · show s.replacer.replacerSize = (s.pages.set f _).length
      rw [List.length_set]
      exact hV.rsize
    · intro g hg
      show g < (s.pages.set f _).length
      rw [List.length_set]
      exact hV.trackedLt g hg
    · intro g hg
      show g < (s.pages.set f _).length
      rw [List.length_set]
      exact hV.freeLt g hg
    · intro g
      by_cases hgf : f = g
      · subst hgf
        rw [h1]
        show (0 : Int) ≤ (getFrame s f).pinCount - 1
        have := hV.pinNonneg f
        omega
      · rw [h2 g hgf]
        exact hV.pinNonneg g
    · intro g hg
      by_cases hgf : f = g
      · subst hgf
        exact hnev
      · rw [h2 g hgf] at hg
        exact hV.pinnedNotEvictable g hg
    · intro g hgt hgz
      by_cases hgf : f = g
      · subst hgf
        rw [h1] at hgz
        have hgz2 : (getFrame s f).pinCount - 1 = 0 := hgz
        exact absurd hgz2 hz
      · rw [h2 g hgf] at hgz
        exact hV.zeroPinEvictable g hgt hgz
    · intro g hg
      by_cases hgf : f = g
      · subst hgf
        exact htr
      · rw [h2 g hgf] at hg
        exact hV.pinnedTracked g hg
    · intro g hg
      by_cases hgf : f = g
      · subst hgf
        rw [h1] at hg ⊢
        have hg2 : (getFrame s f).pageId = -1 := hg
        show (getFrame s f).data = 0
        exact hV.sentinelZeroData f hg2
      · rw [h2 g hgf] at hg ⊢
        exact hV.sentinelZeroData g hg
    · intro e he
      show e.2 < (s.pages.set f _).length
      rw [List.length_set]
      exact hV.tableValuesLt e he
    · intro p g hp hl
      by_cases hgf : f = g
      · subst hgf
        rw [h1]
        show (getFrame s f).pageId = p
        exact hV.tableAccurate p f hp hl
      · rw [h2 g hgf]
        exact hV.tableAccurate p g hp hl

theorem valid_unpinPage (s : BP) (p : Int) (d : Bool) (hV : Valid s) :
    Valid (unpinPage s p d).2 := by
  unfold unpinPage
  rcases hl : lookupPT s.pageTable p with _ | f
  · exact hV
  · show Valid (if (getFrame s f).pinCount = 0 then ((false, s) : Bool × BP)
      else (true, if d then setFrame (unpinFrame s f) f
        { getFrame (unpinFrame s f) f with isDirty := true }
        else unpinFrame s f)).2
    by_cases hz : (getFrame s f).pinCount = 0
    · rw [if_pos hz]
      exact hV
    · rw [if_neg hz]
      show Valid (if d then setFrame (unpinFrame s f) f
        { getFrame (unpinFrame s f) f with isDirty := true }
        else unpinFrame s f)
      have hpin : 0 < (getFrame s f).pinCount :=
        lt_of_le_of_ne (hV.pinNonneg f) (Ne.symm hz)
      have hV1 : Valid (unpinFrame s f) := valid_unpinFrame s f hV hpin
      by_cases hd : d = true
      · rw [if_pos hd]
        refine valid_of_eqs hV1 rfl rfl rfl (by simp [setFrame]) ?_ ?_
        · exact hV1.diskKeys
        · intro g
          have hgf : getFrame (setFrame (unpinFrame s f) f
              { getFrame (unpinFrame s f) f with isDirty := true }) g
              = if f = g ∧ f < (unpinFrame s f).pages.length
                then { getFrame (unpinFrame s f) f with isDirty := true }
                else getFrame (unpinFrame s f) g :=
            getD_set_ite _ f g _ emptyFrame
          rw [hgf]
          by_cases hc : f = g ∧ f < (unpinFrame s f).pages.length
          · rw [if_pos hc, ← hc.1]
            exact ⟨rfl, rfl, rfl⟩
          · rw [if_neg hc]
            exact ⟨rfl, rfl, rfl⟩
      · rw [if_neg hd]
        exact hV1

theorem resetPage_reduced (s : BP) (f : Nat) :
    resetPage s f
      = (if (getFrame s f).pageId = -1 then ((true, s) : Bool × BP)
        else if containsPT s.pageTable (getFrame s f).pageId then
          (true, setFrame
            (if (getFrame s f).isDirty then
              (⟨s.pages, s.freeList,
                erasePT s.pageTable (getFrame s f).pageId, s.replacer,
                s.nextPageId,
                diskWrite s.disk (getFrame s f).pageId (getFrame s f).data,
                s.deallocated⟩ : BP)
             else (⟨s.pages, s.freeList,
               erasePT s.pageTable (getFrame s f).pageId, s.replacer,
               s.nextPageId, s.disk, s.deallocated⟩ : BP))
            f ⟨-1, 0, false, 0⟩)
        else (false, s)) := rfl

theorem resetPage_pages_length (s : BP) (f : Nat) :
    (resetPage s f).2.pages.length = s.pages.length := by
  rw [resetPage_reduced]
  by_cases h1 : (getFrame s f).pageId = -1
  · rw [if_pos h1]
  · rw [if_neg h1]
    by_cases h2 : containsPT s.pageTable (getFrame s f).pageId = true
    · rw [if_pos h2]
      by_cases h3 : (getFrame s f).isDirty = true
      · rw [if_pos h3]
        show (s.pages.set f _).length = s.pages.length
        rw [List.length_set]
      · rw [if_neg h3]
        show (s.pages.set f _).length = s.pages.length
        rw [List.length_set]
    · rw [if_neg h2]

theorem resetPage_frame_pin (s : BP) (f : Nat)
    (h : (getFrame s f).pinCount = 0) :
    (getFrame (resetPage s f).2 f).pinCount = 0 := by
  rw [resetPage_reduced]
  by_cases h1 : (getFrame s f).pageId = -1
  · rw [if_pos h1]
    exact h
  · rw [if_neg h1]
    have hfN : f < s.pages.length := by
      by_contra hc
      rw [getFrame_of_ge (by omega)] at h1
      exact h1 rfl
    by_cases h2 : containsPT s.pageTable (getFrame s f).pageId = true
    · rw [if_pos h2]
      by_cases h3 : (getFrame s f).isDirty = true
      · rw [if_pos h3]
        show ((s.pages.set f ⟨-1, 0, false, 0⟩).getD f emptyFrame).pinCount = 0
        rw [getD_set_eq _ _ hfN]
      · rw [if_neg h3]
        show ((s.pages.set f ⟨-1, 0, false, 0⟩).getD f emptyFrame).pinCount = 0
        rw [getD_set_eq _ _ hfN]
    · rw [if_neg h2]
      exact h

theorem valid_reset_core (s : BP) (f : Nat) (dk : List (Int × Nat))
    (hV : Valid s) (hpin : (getFrame s f).pinCount = 0)
    (h1 : (getFrame s f).pageId ≠ -1) (hfN : f < s.pages.length)
    (hud : ∀ e ∈ dk, e.1 ≠ -1) :
    Valid (setFrame
      (⟨s.pages, s.freeList, erasePT s.pageTable (getFrame s f).pageId,
        s.replacer, s.nextPageId, dk, s.deallocated⟩ : BP)
      f ⟨-1, 0, false, 0⟩) := by
  have hga : ∀ g, getFrame (setFrame
      (⟨s.pages, s.freeList, erasePT s.pageTable (getFrame s f).pageId,
        s.replacer, s.nextPageId, dk, s.deallocated⟩ : BP)
      f ⟨-1, 0, false, 0⟩) g
      = if f = g ∧ f < s.pages.length then ⟨-1, 0, false, 0⟩
        else getFrame s g :=
    fun g => getD_set_ite s.pages f g _ emptyFrame
  have h1f : getFrame (setFrame
      (⟨s.pages, s.freeList, erasePT s.pageTable (getFrame s f).pageId,
        s.replacer, s.nextPageId, dk, s.deallocated⟩ : BP)
      f ⟨-1, 0, false, 0⟩) f = ⟨-1, 0, false, 0⟩ := by
    rw [hga f, if_pos ⟨rfl, hfN⟩]
  have h2g : ∀ g, f ≠ g → getFrame (setFrame
      (⟨s.pages, s.freeList, erasePT s.pageTable (getFrame s f).pageId,
        s.replacer, s.nextPageId, dk, s.deallocated⟩ : BP)
      f ⟨-1, 0, false, 0⟩) g = getFrame s g := by
    intro g hg
    rw [hga g, if_neg (fun hc => hg hc.1)]
  refine ⟨hV.wf, ?_, ?_, ?_, ?_, ?_, ?_, ?_, ?_, hud,
    nodup_erasePT _ hV.tableKeysNodup, ?_, ?_⟩
  · show s.replacer.replacerSize = (s.pages.set f _).length
    rw [List.length_set]
    exact hV.rsize
  · intro g hg
    show g < (s.pages.set f _).length
    rw [List.length_set]
    exact hV.trackedLt g hg
  · intro g hg
    show g < (s.pages.set f _).length
    rw [List.length_set]
    exact hV.freeLt g hg
  · intro g
    by_cases hgf : f = g
    · subst hgf
      rw [h1f]
    · rw [h2g g hgf]
      exact hV.pinNonneg g
  · intro g hg
    by_cases hgf : f = g
    · subst hgf
      rw [h1f] at hg
      exact absurd hg (by decide)
    · rw [h2g g hgf] at hg
      exact hV.pinnedNotEvictable g hg
  · intro g hgt hgz
    by_cases hgf : f = g
    · subst hgf
      exact hV.zeroPinEvictable f hgt hpin
    · rw [h2g g hgf] at hgz
      exact hV.zeroPinEvictable g hgt hgz
  · intro g hg
    by_cases hgf : f = g
    · subst hgf
      rw [h1f] at hg
      exact absurd hg (by decide)
    · rw [h2g g hgf] at hg
      exact hV.pinnedTracked g hg
  · intro g hg
    by_cases hgf : f = g
    · subst hgf
      rw [h1f]
    · rw [h2g g hgf] at hg ⊢
      exact hV.sentinelZeroData g hg
  · intro e he
    show e.2 < (s.pages.set f _).length
    rw [List.length_set]
    exact hV.tableValuesLt e (mem_erasePT he)
  · intro p g hp hl
    have hl2 : lookupPT (erasePT s.pageTable (getFrame s f).pageId) p
        = some g := hl
    have hpq : p ≠ (getFrame s f).pageId := by
      intro hc
      rw [hc, lookupPT_erasePT_self hV.tableKeysNodup] at hl2
      cases hl2
    rw [lookupPT_erasePT_ne hpq] at hl2
    have hacc := hV.tableAccurate p g hp hl2
    have hgf : f ≠ g := by
      intro hc
      rw [← hc] at hacc
      exact hpq (hacc.symm)
    rw [h2g g hgf]
    exact hacc

theorem valid_resetPage (s : BP) (f : Nat) (hV : Valid s)
    (hpin : (getFrame s f).pinCount = 0) :
    Valid (resetPage s f).2 := by
  rw [resetPage_reduced]
  by_cases h1 : (getFrame s f).pageId = -1
  · rw [if_pos h1]
    exact hV
  · rw [if_neg h1]
    have hfN : f < s.pages.length := by
      by_contra hc
      rw [getFrame_of_ge (by omega)] at h1
      exact h1 rfl
    by_cases h2 : containsPT s.pageTable (getFrame s f).pageId = true
    · rw [if_pos h2]
      by_cases h3 : (getFrame s f).isDirty = true
      · rw [if_pos h3]
        refine valid_reset_core s f _ hV hpin h1 hfN ?_
        intro e he
        rcases mem_diskWrite he with h4 | h4
        · rw [h4]
          exact h1
        · exact hV.diskKeys e h4
      · rw [if_neg h3]
        exact valid_reset_core s f _ hV hpin h1 hfN hV.diskKeys
    · rw [if_neg h2]
      exact hV

theorem lrukRemove_bundle {r : LRUK} (hWF : WF r) (f : Nat)
    (hne : ¬ tracked r f ∨ evictableIn r f) :
    WF (lrukRemove r f) ∧ ¬ tracked (lrukRemove r f) f ∧
    (∀ g, g ≠ f → (tracked (lrukRemove r f) g ↔ tracked r g) ∧
      (evictableIn (lrukRemove r f) g ↔ evictableIn r g)) ∧
    (∀ g, tracked (lrukRemove r f) g → tracked r g) ∧
    (lrukRemove r f).replacerSize = r.replacerSize := by
  by_cases ht : tracked r f
  · have hev : evictableIn r f := by
      rcases hne with hne | hne
      · exact absurd ht hne
      · exact hne
    obtain ⟨W, T, O, -, -, -, RS, -⟩ := lrukRemove_spec hWF ht hev
    have hobs : ∀ g, g ≠ f →
        (tracked (lrukRemove r f) g ↔ tracked r g) ∧
        (evictableIn (lrukRemove r f) g ↔ evictableIn r g) :=
      fun g hg => observables_of_nodesOf (O g hg).1 (O g hg).2
    refine ⟨W, T, hobs, ?_, RS⟩
    intro g hg
    by_cases hgf : g = f
    · subst hgf
      exact absurd hg T
    · exact (hobs g hgf).1.1 hg
  · rw [lrukRemove_not_tracked ht]
    exact ⟨hWF, ht, fun g _ => ⟨Iff.rfl, Iff.rfl⟩, fun g hg => hg, rfl⟩

theorem valid_deletePage (s : BP) (p : Int) (hV : Valid s) :
    Valid (deletePage s p).2 := by
  unfold deletePage
  rcases hl : lookupPT s.pageTable p with _ | f
  · exact hV
  · show Valid (if (getFrame s f).pinCount > 0 then ((false, s) : Bool × BP)
      else if (resetPage s f).1 then
        (true, { (resetPage s f).2 with
          replacer := lrukRemove (resetPage s f).2.replacer f,
          freeList := (resetPage s f).2.freeList ++ [f],
          deallocated := (resetPage s f).2.deallocated ++ [p] })
      else (false, (resetPage s f).2)).2
    by_cases hp : (getFrame s f).pinCount > 0
    · rw [if_pos hp]
      exact hV
    · rw [if_neg hp]
      have hpin0 : (getFrame s f).pinCount = 0 :=
        le_antisymm (not_lt.1 hp) (hV.pinNonneg f)
      have hV1 : Valid (resetPage s f).2 := valid_resetPage s f hV hpin0
      have hpin1 : (getFrame (resetPage s f).2 f).pinCount = 0 :=
        resetPage_frame_pin s f hpin0
      by_cases hok : (resetPage s f).1 = true
      · rw [if_pos hok]
        have hne : ¬ tracked (resetPage s f).2.replacer f ∨
            evictableIn (resetPage s f).2.replacer f := by
          by_cases ht : tracked (resetPage s f).2.replacer f
          · exact Or.inr (hV1.zeroPinEvictable f ht hpin1)
          · exact Or.inl ht
        obtain ⟨W, T, O, TT, RS⟩ := lrukRemove_bundle hV1.wf f hne
        have hfN1 : f < (resetPage s f).2.pages.length := by
          rw [resetPage_pages_length]
          exact hV.tableValuesLt _ (lookupPT_mem hl)
        refine ⟨W, ?_, ?_, ?_, ?_, ?_, ?_, ?_, ?_, hV1.diskKeys,
          hV1.tableKeysNodup, hV1.tableValuesLt, ?_⟩
        · show (lrukRemove (resetPage s f).2.replacer f).replacerSize = _
          rw [RS]
          exact hV1.rsize
        · intro g hg
          exact hV1.trackedLt g (TT g hg)
        · intro g hg
          rcases List.mem_append.1 hg with hg | hg
          · exact hV1.freeLt g hg
          · rw [List.mem_singleton.1 hg]
            exact hfN1
        · intro g
          exact hV1.pinNonneg g
        · intro g hg
          by_cases hgf : g = f
          · exfalso
            have hg2 : (0 : Int) < (getFrame (resetPage s f).2 g).pinCount := hg
            rw [hgf, hpin1] at hg2
            exact absurd hg2 (by decide)
          · exact fun hc =>
              hV1.pinnedNotEvictable g hg ((O g hgf).2.1 hc)
        · intro g hgt hgz
          by_cases hgf : g = f
          · subst hgf
            exact absurd hgt T
          · exact ((O g hgf).2.2)
              (hV1.zeroPinEvictable g ((O g hgf).1.1 hgt) hgz)
        · intro g hg
          by_cases hgf : g = f
          · exfalso
            have hg2 : (0 : Int) < (getFrame (resetPage s f).2 g).pinCount := hg
            rw [hgf, hpin1] at hg2
            exact absurd hg2 (by decide)
          · exact (O g hgf).1.2 (hV1.pinnedTracked g hg)
        · intro g hg
          exact hV1.sentinelZeroData g hg
        · intro q g hq hlq
          exact hV1.tableAccurate q g hq hlq
      · rw [if_neg hok]
        exact hV1

theorem mem_of_nodup_length {l : List Nat} {N : Nat} (hn : l.Nodup)
    (hlt : ∀ x ∈ l, x < N) (hlen : l.length = N) :
    ∀ y, y < N → y ∈ l := by
  intro y hy
  have hsub : l.toFinset ⊆ Finset.range N := by
    intro x hx
    rw [Finset.mem_range]
    exact hlt x (List.mem_toFinset.1 hx)
  have hcard : l.toFinset.card = N := by
    rw [List.toFinset_card_of_nodup hn, hlen]
  have heq : l.toFinset = Finset.range N :=
    Finset.eq_of_subset_of_card_le hsub (by rw [hcard, Finset.card_range])
  rw [← List.mem_toFinset, heq, Finset.mem_range]
  exact hy

theorem diskRead_sentinel {d : List (Int × Nat)}
    (h : ∀ e ∈ d, e.1 ≠ -1) : diskRead d (-1) = 0 := by
  unfold diskRead
  rw [List.find?_eq_none.2 ?_]
  · rfl
  · intro e he hc
    rw [beq_iff_eq] at hc
    exact h e he hc

theorem valid_allocate (u : BP) (x : Int) (hV : Valid u) :
    Valid { u with nextPageId := x } := by
  obtain ⟨w, rs, tl, fl, pn, pe, ze, pt, sz, dk, kn, vl, ta⟩ := hV
  exact ⟨w, rs, tl, fl, pn, pe, ze, pt, sz, dk, kn, vl, ta⟩

theorem valid_getVictimPage (s : BP) (hV : Valid s) :
    Valid (getVictimPage s).2 ∧
    ∀ f, (getVictimPage s).1 = some f → f < s.pages.length ∧
      (s.freeList.head? = some f ∨
        ((getFrame s f).pinCount = 0 ∧
          (getFrame (getVictimPage s).2 f) = getFrame s f)) := by
  rcases hfl : s.freeList with _ | ⟨f0, rest⟩
  · have hq : getVictimPage s
        = ((evict s.replacer).1, { s with replacer := (evict s.replacer).2 }) := by
      unfold getVictimPage
      rw [hfl]
    rw [hq]
    rcases he : (evict s.replacer).1 with _ | f1
    · constructor
      · show Valid { s with replacer := (evict s.replacer).2 }
        rw [evict_none_eq he]
        obtain ⟨w, rs, tl, fl, pn, pe, ze, pt, sz, dk, kn, vl, ta⟩ := hV
        exact ⟨w, rs, tl, fl, pn, pe, ze, pt, sz, dk, kn, vl, ta⟩
      · intro f hf
        cases hf
    · obtain ⟨W, Tb, Eb, NT, O, -, -, -, RS, -⟩ := evict_spec_some hV.wf he
      have hobs : ∀ g, g ≠ f1 →
          (tracked (evict s.replacer).2 g ↔ tracked s.replacer g) ∧
          (evictableIn (evict s.replacer).2 g ↔ evictableIn s.replacer g) :=
        fun g hg => observables_of_nodesOf (O g hg).1 (O g hg).2
      have hpin1 : (getFrame s f1).pinCount = 0 := by
        have h2 := hV.pinnedNotEvictable f1
        have h3 := hV.pinNonneg f1
        by_contra hc
        exact h2 (lt_of_le_of_ne h3 (Ne.symm hc)) Eb
      constructor
      · refine ⟨W, ?_, ?_, ?_, hV.pinNonneg, ?_, ?_, ?_,
          hV.sentinelZeroData, hV.diskKeys, hV.tableKeysNodup,
          hV.tableValuesLt, hV.tableAccurate⟩
        · show (evict s.replacer).2.replacerSize = s.pages.length
          rw [RS]
          exact hV.rsize
        · intro g hg
          by_cases hgf : g = f1
          · exact absurd (hgf ▸ hg) NT
          · exact hV.trackedLt g ((hobs g hgf).1.1 hg)
        · intro g hg
          exact hV.freeLt g hg
        · intro g hg
          by_cases hgf : g = f1
          · have hg2 : (0 : Int) < (getFrame s f1).pinCount := hgf ▸ hg
            rw [hpin1] at hg2
            exact absurd hg2 (by decide)
          · exact fun hc =>
              hV.pinnedNotEvictable g hg ((hobs g hgf).2.1 hc)
        · intro g hgt hgz
          by_cases hgf : g = f1
          · exact absurd (hgf ▸ hgt) NT
          · exact ((hobs g hgf).2.2)
              (hV.zeroPinEvictable g ((hobs g hgf).1.1 hgt) hgz)
        · intro g hg
          by_cases hgf : g = f1
          · have hg2 : (0 : Int) < (getFrame s f1).pinCount := hgf ▸ hg
            rw [hpin1] at hg2
            exact absurd hg2 (by decide)
          · exact (hobs g hgf).1.2 (hV.pinnedTracked g hg)
      · intro f hf
        obtain rfl : f1 = f := Option.some_inj.1 hf
        exact ⟨hV.trackedLt f1 Tb, Or.inr ⟨hpin1, rfl⟩⟩
  · have hq : getVictimPage s = (some f0, { s with freeList := rest }) := by
      unfold getVictimPage
      rw [hfl]
    rw [hq]
    constructor
    · show Valid { s with freeList := rest }
      refine ⟨hV.wf, hV.rsize, hV.trackedLt, ?_, hV.pinNonneg,
        hV.pinnedNotEvictable, hV.zeroPinEvictable, hV.pinnedTracked,
        hV.sentinelZeroData, hV.diskKeys, hV.tableKeysNodup,
        hV.tableValuesLt, hV.tableAccurate⟩
      intro g hg
      apply hV.freeLt g
      rw [hfl]
      exact List.mem_cons_of_mem _ hg
    · intro f hf
      obtain rfl : f0 = f := Option.some_inj.1 hf
      constructor
      · apply hV.freeLt f0
        rw [hfl]
        exact List.mem_cons_self _ _
      · left
        rfl

/-- Invariant preservation across the install tail shared by `NewPgImp`
and `FetchPgImp`'s miss path: after `InitPage` (and, for fetch, the disk
read into the frame) and `UpdateFrameInfo(frame, 1)`, the state is the
record below; `pg` abstracts the exact page-array expression. -/
theorem valid_install_core (u : BP) (f : Nat) (p : Int) (db : Bool)
    (D : Nat) (pg : List Frame) (hV : Valid u) (hfN : f < u.pages.length)
    (hready : initPageReady u f) (hdb : db = false) (hD : p = -1 → D = 0)
    (hpg : pg = u.pages.set f ⟨p, 1, db, D⟩) :
    Valid { u with
      pages := pg,
      pageTable := insertPT u.pageTable p f,
      replacer := setEvictable (recordAccess u.replacer f) f false } := by
  obtain ⟨W2, NE2, OBS2, TT2, RS2⟩ := record_set_false_spec hV.wf f
  have htr2 : tracked (setEvictable (recordAccess u.replacer f) f false) f := by
    by_cases ht : tracked u.replacer f
    · exact (setEvictable_tracked (b := false)
        (recordAccess_tracked hV.wf ht).1
        (recordAccess_tracked hV.wf ht).2.1).2.1
    · by_cases hfull : u.replacer.histSize + u.replacer.bufSize
          = u.replacer.replacerSize
      · exfalso
        obtain ⟨w1, w2, -, w4, -, -, -, -⟩ := hV.wf
        have hlen : (ids u.replacer.history ++ ids u.replacer.buffer).length
            = u.pages.length := by
          rw [List.length_append]
          unfold ids
          rw [List.length_map, List.length_map, ← w1, ← w2, hfull, hV.rsize]
        have hmem := mem_of_nodup_length w4 ?_ hlen f hfN
        · rcases List.mem_append.1 hmem with hm | hm
          · exact ht (Or.inl hm)
          · exact ht (Or.inr hm)
        · intro x hx
          apply hV.trackedLt x
          rcases List.mem_append.1 hx with hm | hm
          · exact Or.inl hm
          · exact Or.inr hm
      · exact (setEvictable_tracked (b := false)
          (recordAccess_untracked_room hV.wf ht hfull).1
          (recordAccess_untracked_room hV.wf ht hfull).2.1).2.1
  have hga : ∀ g, getFrame { u with
        pages := pg,
        pageTable := insertPT u.pageTable p f,
        replacer := setEvictable (recordAccess u.replacer f) f false } g
      = if f = g ∧ f < u.pages.length then ⟨p, 1, db, D⟩
        else getFrame u g := by
    intro g
    show pg.getD g emptyFrame = _
    rw [hpg]
    exact getD_set_ite u.pages f g _ emptyFrame
  have h1f : getFrame { u with
        pages := pg,
        pageTable := insertPT u.pageTable p f,
        replacer := setEvictable (recordAccess u.replacer f) f false } f
      = ⟨p, 1, db, D⟩ := by
    rw [hga f, if_pos ⟨rfl, hfN⟩]
  have h2g : ∀ g, f ≠ g → getFrame { u with
        pages := pg,
        pageTable := insertPT u.pageTable p f,
        replacer := setEvictable (recordAccess u.replacer f) f false } g
      = getFrame u g := by
    intro g hg
    rw [hga g, if_neg (fun hc => hg hc.1)]
  have hlen : pg.length = u.pages.length := by
    rw [hpg, List.length_set]
  refine ⟨W2, ?_, ?_, ?_, ?_, ?_, ?_, ?_, ?_, hV.diskKeys,
    nodup_insertPT p f hV.tableKeysNodup, ?_, ?_⟩
  · show (setEvictable (recordAccess u.replacer f) f false).replacerSize
      = pg.length
    rw [RS2, hlen]
    exact hV.rsize
  · intro g hg
    show g < pg.length
    rw [hlen]
    rcases TT2 g hg with h | h
    · exact hV.trackedLt g h
    · rw [h]
      exact hfN
  · intro g hg
    show g < pg.length
    rw [hlen]
    exact hV.freeLt g hg
  · intro g
    by_cases hgf : f = g
    · subst hgf
      rw [h1f]
      exact (by decide : (0 : Int) ≤ 1)
    · rw [h2g g hgf]
      exact hV.pinNonneg g
  · intro g hg
    by_cases hgf : f = g
    · subst hgf
      exact NE2
    · rw [h2g g hgf] at hg
      exact fun hc =>
        hV.pinnedNotEvictable g hg ((OBS2 g (fun h => hgf h.symm)).2.1 hc)
  · intro g hgt hgz
    by_cases hgf : f = g
    · subst hgf
      exfalso
      rw [h1f] at hgz
      have hz2 : (1 : Int) = 0 := hgz
      exact absurd hz2 (by decide)
    · rw [h2g g hgf] at hgz
      exact (OBS2 g (fun h => hgf h.symm)).2.2
        (hV.zeroPinEvictable g ((OBS2 g (fun h => hgf h.symm)).1.1 hgt) hgz)
  · intro g hg
    by_cases hgf : f = g
    · subst hgf
      exact htr2
    · rw [h2g g hgf] at hg
      exact (OBS2 g (fun h => hgf h.symm)).1.2 (hV.pinnedTracked g hg)
  · intro g hg
    by_cases hgf : f = g
    · subst hgf
      rw [h1f] at hg ⊢
      have hg2 : p = -1 := hg
      show D = 0
      exact hD hg2
    · rw [h2g g hgf] at hg ⊢
      exact hV.sentinelZeroData g hg
  · intro e he
    show e.2 < pg.length
    rw [hlen]
    have he2 : e ∈ insertPT u.pageTable p f := he
    rcases mem_insertPT he2 with h | h
    · rw [h]
      exact hfN
    · exact hV.tableValuesLt e h
  · intro q g hq hl
    have hl2 : lookupPT (insertPT u.pageTable p f) q = some g := hl
    by_cases hqp : q = p
    · subst hqp
      rw [lookupPT_insertPT_self] at hl2
      obtain rfl : f = g := Option.some_inj.1 hl2
      rw [h1f]
    · rw [lookupPT_insertPT_ne _ _ hqp] at hl2
      have hacc := hV.tableAccurate q g hq hl2
      have hgf : f ≠ g := by
        intro hc
        rw [← hc] at hacc
        rw [hready.1] at hacc
        exact hq hacc.symm
      rw [h2g g hgf]
      exact hacc

/-- After `RecordAccess(f); SetEvictable(f, false)` the frame is tracked
whenever it is in range: either it was tracked, or there was room, or the
replacer was full — and a full well-formed replacer whose tracked frames
all lie below the pool size tracks every in-range frame. -/
theorem tracked_record_set_false (r : LRUK) (N f : Nat) (hWF : WF r)
    (hrs : r.replacerSize = N) (htl : ∀ g, tracked r g → g < N)
    (hfN : f < N) :
    tracked (setEvictable (recordAccess r f) f false) f := by
  by_cases ht : tracked r f
  · exact (setEvictable_tracked (b := false)
      (recordAccess_tracked hWF ht).1
      (recordAccess_tracked hWF ht).2.1).2.1
  · by_cases hfull : r.histSize + r.bufSize = r.replacerSize
    · exfalso
      obtain ⟨w1, w2, -, w4, -, -, -, -⟩ := hWF
      have hlen : (ids r.history ++ ids r.buffer).length = N := by
        rw [List.length_append]
        unfold ids
        rw [List.length_map, List.length_map, ← w1, ← w2, hfull, hrs]
      have hmem := mem_of_nodup_length w4 ?_ hlen f hfN
      · rcases List.mem_append.1 hmem with hm | hm
        · exact ht (Or.inl hm)
        · exact ht (Or.inr hm)
      · intro x hx
        apply htl x
        rcases List.mem_append.1 hx with hm | hm
        · exact Or.inl hm
        · exact Or.inr hm
    · exact (setEvictable_tracked (b := false)
        (recordAccess_untracked_room hWF ht hfull).1
        (recordAccess_untracked_room hWF ht hfull).2.1).2.1

/-- Invariant preservation across `FetchPgImp`'s hit path: the pin count
is bumped and `UpdateFrameInfo(frame, pin+1)` runs. -/
theorem valid_fetchHit (s : BP) (f : Nat) (hV : Valid s)
    (hfN : f < s.pages.length) :
    Valid (updateFrameInfo (setFrame s f { getFrame s f with
        pinCount := (getFrame s f).pinCount + 1 }) f
      ((getFrame s f).pinCount + 1)) := by
  have hup : updateFrameInfo (setFrame s f { getFrame s f with
        pinCount := (getFrame s f).pinCount + 1 }) f
        ((getFrame s f).pinCount + 1)
      = { setFrame s f { getFrame s f with
            pinCount := (getFrame s f).pinCount + 1 } with
          replacer := if (getFrame s f).pinCount + 1 = 1
            then setEvictable (recordAccess s.replacer f) f false
            else recordAccess s.replacer f } := by
    unfold updateFrameInfo
    rfl
  rw [hup]
  have hnn := hV.pinNonneg f
  by_cases hp1 : (getFrame s f).pinCount + 1 = 1
  · rw [if_pos hp1]
    obtain ⟨W2, NE2, OBS2, TT2, RS2⟩ := record_set_false_spec hV.wf f
    have htr2 := tracked_record_set_false s.replacer s.pages.length f
      hV.wf hV.rsize hV.trackedLt hfN
    have hga : ∀ g, getFrame { setFrame s f { getFrame s f with
            pinCount := (getFrame s f).pinCount + 1 } with
          replacer := setEvictable (recordAccess s.replacer f) f false } g
        = if f = g ∧ f < s.pages.length
          then { getFrame s f with pinCount := (getFrame s f).pinCount + 1 }
          else getFrame s g :=
      fun g => getD_set_ite s.pages f g _ emptyFrame
    have h1f : getFrame { setFrame s f { getFrame s f with
            pinCount := (getFrame s f).pinCount + 1 } with
          replacer := setEvictable (recordAccess s.replacer f) f false } f
        = { getFrame s f with pinCount := (getFrame s f).pinCount + 1 } := by
      rw [hga f, if_pos ⟨rfl, hfN⟩]
    have h2g : ∀ g, f ≠ g → getFrame { setFrame s f { getFrame s f with
            pinCount := (getFrame s f).pinCount + 1 } with
          replacer := setEvictable (recordAccess s.replacer f) f false } g
        = getFrame s g := by
      intro g hg
      rw [hga g, if_neg (fun hc => hg hc.1)]
    refine ⟨W2, ?_, ?_, ?_, ?_, ?_, ?_, ?_, ?_, hV.diskKeys,
      hV.tableKeysNodup, ?_, ?_⟩
    · show (setEvictable (recordAccess s.replacer f) f false).replacerSize
        = (s.pages.set f _).length
      rw [RS2, List.length_set]
      exact hV.rsize
    · intro g hg
      show g < (s.pages.set f _).length
      rw [List.length_set]
      rcases TT2 g hg with h | h
      · exact hV.trackedLt g h
      · rw [h]
        exact hfN
    · intro g hg
      show g < (s.pages.set f _).length
      rw [List.length_set]
      exact hV.freeLt g hg
    · intro g
      by_cases hgf : f = g
      · subst hgf
        rw [h1f]
        show (0 : Int) ≤ (getFrame s f).pinCount + 1
        omega
      · rw [h2g g hgf]
        exact hV.pinNonneg g
    · intro g hg
      by_cases hgf : f = g
      · subst hgf
        exact NE2
      · rw [h2g g hgf] at hg
        exact fun hc =>
          hV.pinnedNotEvictable g hg ((OBS2 g (fun h => hgf h.symm)).2.1 hc)
    · intro g hgt hgz
      by_cases hgf : f = g
      · subst hgf
        exfalso
        rw [h1f] at hgz
        have hz2 : (getFrame s f).pinCount + 1 = 0 := hgz
        omega
      · rw [h2g g hgf] at hgz
        exact (OBS2 g (fun h => hgf h.symm)).2.2
          (hV.zeroPinEvictable g ((OBS2 g (fun h => hgf h.symm)).1.1 hgt) hgz)
    · intro g hg
      by_cases hgf : f = g
      · subst hgf
        exact htr2
      · rw [h2g g hgf] at hg
        exact (OBS2 g (fun h => hgf h.symm)).1.2 (hV.pinnedTracked g hg)
    · intro g hg
      by_cases hgf : f = g
      · subst hgf
        rw [h1f] at hg ⊢
        have hg2 : (getFrame s f).pageId = -1 := hg
        show (getFrame s f).data = 0
        exact hV.sentinelZeroData f hg2
      · rw [h2g g hgf] at hg ⊢
        exact hV.sentinelZeroData g hg
    · intro e he
      show e.2 < (s.pages.set f _).length
      rw [List.length_set]
      exact hV.tableValuesLt e he
    · intro q g hq hl
      by_cases hgf : f = g
      · subst hgf
        rw [h1f]
        show (getFrame s f).pageId = q
        exact hV.tableAccurate q f hq hl
      · rw [h2g g hgf]
        exact hV.tableAccurate q g hq hl
  · rw [if_neg hp1]
    have hpinpos : 0 < (getFrame s f).pinCount := by omega
    have htr : tracked s.replacer f := hV.pinnedTracked f hpinpos
    have hnev : ¬ evictableIn s.replacer f :=
      hV.pinnedNotEvictable f hpinpos
    obtain ⟨W1, T1, E1, O1, -, -⟩ := recordAccess_tracked hV.wf htr
    have hobs : ∀ g, g ≠ f →
        (tracked (recordAccess s.replacer f) g ↔ tracked s.replacer g) ∧
        (evictableIn (recordAccess s.replacer f) g ↔
          evictableIn s.replacer g) :=
      fun g hg => observables_of_nodesOf (O1 g hg).1 (O1 g hg).2
    have hga : ∀ g, getFrame { setFrame s f { getFrame s f with
            pinCount := (getFrame s f).pinCount + 1 } with
          replacer := recordAccess s.replacer f } g
        = if f = g ∧ f < s.pages.length
          then { getFrame s f with pinCount := (getFrame s f).pinCount + 1 }
          else getFrame s g :=
      fun g => getD_set_ite s.pages f g _ emptyFrame
    have h1f : getFrame { setFrame s f { getFrame s f with
            pinCount := (getFrame s f).pinCount + 1 } with
          replacer := recordAccess s.replacer f } f
        = { getFrame s f with pinCount := (getFrame s f).pinCount + 1 } := by
      rw [hga f, if_pos ⟨rfl, hfN⟩]
    have h2g : ∀ g, f ≠ g → getFrame { setFrame s f { getFrame s f with
            pinCount := (getFrame s f).pinCount + 1 } with
          replacer := recordAccess s.replacer f } g = getFrame s g := by
      intro g hg
      rw [hga g, if_neg (fun hc => hg hc.1)]
    refine ⟨W1, ?_, ?_, ?_, ?_, ?_, ?_, ?_, ?_, hV.diskKeys,
      hV.tableKeysNodup, ?_, ?_⟩
    · show (recordAccess s.replacer f).replacerSize
        = (s.pages.set f _).length
      rw [(recordAccess_const s.replacer f).2.1, List.length_set]
      exact hV.rsize
    · intro g hg
      show g < (s.pages.set f _).length
      rw [List.length_set]
      by_cases hgf : g = f
      · subst hgf
        exact hfN
      · exact hV.trackedLt g ((hobs g hgf).1.1 hg)
    · intro g hg
      show g < (s.pages.set f _).length
      rw [List.length_set]
      exact hV.freeLt g hg
    · intro g
      by_cases hgf : f = g
      · subst hgf
        rw [h1f]
        show (0 : Int) ≤ (getFrame s f).pinCount + 1
        omega
      · rw [h2g g hgf]
        exact hV.pinNonneg g
    · intro g hg
      by_cases hgf : f = g
      · subst hgf
        exact fun hc => hnev (E1.1 hc)
      · rw [h2g g hgf] at hg
        exact fun hc =>
          hV.pinnedNotEvictable g hg ((hobs g (fun h => hgf h.symm)).2.1 hc)
    · intro g hgt hgz
      by_cases hgf : f = g
      · subst hgf
        exfalso
        rw [h1f] at hgz
        have hz2 : (getFrame s f).pinCount + 1 = 0 := hgz
        omega
      · rw [h2g g hgf] at hgz
        exact (hobs g (fun h => hgf h.symm)).2.2
          (hV.zeroPinEvictable g
            ((hobs g (fun h => hgf h.symm)).1.1 hgt) hgz)
    · intro g hg
      by_cases hgf : f = g
      · subst hgf
        exact T1
      · rw [h2g g hgf] at hg
        exact (hobs g (fun h => hgf h.symm)).1.2 (hV.pinnedTracked g hg)
    · intro g hg
      by_cases hgf : f = g
      · subst hgf
        rw [h1f] at hg ⊢
        have hg2 : (getFrame s f).pageId = -1 := hg
        show (getFrame s f).data = 0
        exact hV.sentinelZeroData f hg2
      · rw [h2g g hgf] at hg ⊢
        exact hV.sentinelZeroData g hg
    · intro e he
      show e.2 < (s.pages.set f _).length
      rw [List.length_set]
      exact hV.tableValuesLt e he
    · intro q g hq hl
      by_cases hgf : f = g
      · subst hgf
        rw [h1f]
        show (getFrame s f).pageId = q
        exact hV.tableAccurate q f hq hl
      · rw [h2g g hgf]
        exact hV.tableAccurate q g hq hl

theorem getVictimPage_components (s : BP) :
    (getVictimPage s).2.pages = s.pages ∧
    (getVictimPage s).2.pageTable = s.pageTable ∧
    (getVictimPage s).2.disk = s.disk ∧
    (getVictimPage s).2.nextPageId = s.nextPageId := by
  rcases hfl : s.freeList with _ | ⟨f0, rest⟩
  · have hq : getVictimPage s
        = ((evict s.replacer).1, { s with replacer := (evict s.replacer).2 }) := by
      unfold getVictimPage
      rw [hfl]
    rw [hq]
    exact ⟨rfl, rfl, rfl, rfl⟩
  · have hq : getVictimPage s = (some f0, { s with freeList := rest }) := by
      unfold getVictimPage
      rw [hfl]
    rw [hq]
    exact ⟨rfl, rfl, rfl, rfl⟩

theorem valid_newPage (s : BP) (hV : Valid s) (hA : newPageAssert s) :
    Valid (newPage s).2 := by
  obtain ⟨hV1, hvict⟩ := valid_getVictimPage s hV
  have hcomp := getVictimPage_components s
  have hA2 := hA.2
  rcases hgv : getVictimPage s with ⟨v, s1⟩
  have h21 : (getVictimPage s).2 = s1 := by rw [hgv]
  have h11 : (getVictimPage s).1 = v := by rw [hgv]
  rw [h21] at hV1 hcomp
  rw [h11, h21] at hvict
  rw [h11, h21] at hA2
  have hV1' : Valid s1 := hV1
  rcases v with _ | f
  · have h0 : newPage s = ((none : Option (Int × Nat)), s1) := by
      unfold newPage
      simp only [hgv]
    rw [h0]
    exact hV1'
  · have h0 : newPage s = (some (s1.nextPageId, f),
        updateFrameInfo
          (initPage (resetPage { s1 with
            nextPageId := s1.nextPageId + 1 } f).2 f s1.nextPageId) f
          (getFrame (initPage (resetPage { s1 with
            nextPageId := s1.nextPageId + 1 } f).2 f s1.nextPageId)
            f).pinCount) := by
      unfold newPage
      simp only [hgv]
      rfl
    rw [h0]
    show Valid (updateFrameInfo
      (initPage (resetPage { s1 with
        nextPageId := s1.nextPageId + 1 } f).2 f s1.nextPageId) f
      (getFrame (initPage (resetPage { s1 with
        nextPageId := s1.nextPageId + 1 } f).2 f s1.nextPageId)
        f).pinCount)
    obtain ⟨hfN, hcase⟩ := hvict f rfl
    have hready3 : initPageReady (resetPage { s1 with
        nextPageId := s1.nextPageId + 1 } f).2 f := hA2 f rfl
    have hfr1 : getFrame s1 f = getFrame s f := by
      show s1.pages.getD f emptyFrame = s.pages.getD f emptyFrame
      rw [hcomp.1]
    have hV2 : Valid { s1 with nextPageId := s1.nextPageId + 1 } :=
      valid_allocate s1 _ hV1'
    have hV3 : Valid (resetPage { s1 with
        nextPageId := s1.nextPageId + 1 } f).2 := by
      by_cases hid : (getFrame { s1 with
          nextPageId := s1.nextPageId + 1 } f).pageId = -1
      · have hq3 : (resetPage { s1 with
            nextPageId := s1.nextPageId + 1 } f).2
            = { s1 with nextPageId := s1.nextPageId + 1 } := by
          rw [resetPage_reduced, if_pos hid]
        rw [hq3]
        exact hV2
      · have hpin2 : (getFrame { s1 with
            nextPageId := s1.nextPageId + 1 } f).pinCount = 0 := by
          rcases hcase with hhead | ⟨hpin, -⟩
          · exfalso
            apply hid
            show (getFrame s1 f).pageId = -1
            rw [hfr1]
            exact hA.1 f hhead
          · show (getFrame s1 f).pinCount = 0
            rw [hfr1]
            exact hpin
        exact valid_resetPage _ f hV2 hpin2
    have hfN3 : f < (resetPage { s1 with
        nextPageId := s1.nextPageId + 1 } f).2.pages.length := by
      rw [resetPage_pages_length]
      show f < s1.pages.length
      rw [hcomp.1]
      exact hfN
    have hpin4 : (getFrame (initPage (resetPage { s1 with
        nextPageId := s1.nextPageId + 1 } f).2 f s1.nextPageId)
        f).pinCount = 1 := by
      show (((resetPage { s1 with
          nextPageId := s1.nextPageId + 1 } f).2.pages.set f
        { getFrame (resetPage { s1 with
            nextPageId := s1.nextPageId + 1 } f).2 f with
          pageId := s1.nextPageId,
          pinCount := 1 }).getD f emptyFrame).pinCount = 1
      rw [getD_set_eq _ _ hfN3]
    have hup : updateFrameInfo
        (initPage (resetPage { s1 with
          nextPageId := s1.nextPageId + 1 } f).2 f s1.nextPageId) f
        (getFrame (initPage (resetPage { s1 with
          nextPageId := s1.nextPageId + 1 } f).2 f s1.nextPageId)
          f).pinCount
        = { initPage (resetPage { s1 with
              nextPageId := s1.nextPageId + 1 } f).2 f s1.nextPageId with
            replacer := if (getFrame (initPage (resetPage { s1 with
                nextPageId := s1.nextPageId + 1 } f).2 f s1.nextPageId)
                f).pinCount = 1
              then setEvictable (recordAccess (resetPage { s1 with
                nextPageId := s1.nextPageId + 1 } f).2.replacer f) f false
              else recordAccess (resetPage { s1 with
                nextPageId := s1.nextPageId + 1 } f).2.replacer f } := by
      unfold updateFrameInfo
      rfl
    rw [hup, if_pos hpin4]
    exact valid_install_core (resetPage { s1 with
        nextPageId := s1.nextPageId + 1 } f).2 f s1.nextPageId
      (getFrame (resetPage { s1 with
        nextPageId := s1.nextPageId + 1 } f).2 f).isDirty
      (getFrame (resetPage { s1 with
        nextPageId := s1.nextPageId + 1 } f).2 f).data
      _ hV3 hfN3 hready3 hready3.2.2
      (fun _ => hV3.sentinelZeroData f hready3.1) rfl

theorem valid_fetchPage (s : BP) (p : Int) (hV : Valid s)
    (hA : fetchAssert s p) : Valid (fetchPage s p).2 := by
  rcases hl : lookupPT s.pageTable p with _ | f
  · have hAm := hA hl
    obtain ⟨hV1, hvict⟩ := valid_getVictimPage s hV
    have hcomp := getVictimPage_components s
    have hA2 := hAm.2
    rcases hgv : getVictimPage s with ⟨v, s1⟩
    have h21 : (getVictimPage s).2 = s1 := by rw [hgv]
    have h11 : (getVictimPage s).1 = v := by rw [hgv]
    rw [h21] at hV1 hcomp
    rw [h11, h21] at hvict
    rw [h11, h21] at hA2
    have hV1' : Valid s1 := hV1
    rcases v with _ | f
    · have h0 : fetchPage s p = ((none : Option Nat), s1) := by
        unfold fetchPage
        simp only [hl, hgv]
      rw [h0]
      exact hV1'
    · have h0 : fetchPage s p = (some f,
          updateFrameInfo (setFrame (initPage (resetPage s1 f).2 f p) f
            { getFrame (initPage (resetPage s1 f).2 f p) f with
              data := diskRead (initPage (resetPage s1 f).2 f p).disk p })
            f
            (getFrame (setFrame (initPage (resetPage s1 f).2 f p) f
              { getFrame (initPage (resetPage s1 f).2 f p) f with
                data := diskRead (initPage (resetPage s1 f).2 f p).disk p })
              f).pinCount) := by
        unfold fetchPage
        simp only [hl, hgv]
      rw [h0]
      show Valid (updateFrameInfo (setFrame (initPage (resetPage s1 f).2 f p) f
        { getFrame (initPage (resetPage s1 f).2 f p) f with
          data := diskRead (initPage (resetPage s1 f).2 f p).disk p })
        f
        (getFrame (setFrame (initPage (resetPage s1 f).2 f p) f
          { getFrame (initPage (resetPage s1 f).2 f p) f with
            data := diskRead (initPage (resetPage s1 f).2 f p).disk p })
          f).pinCount)
      obtain ⟨hfN, hcase⟩ := hvict f rfl
      have hready2 : initPageReady (resetPage s1 f).2 f := hA2 f rfl
      have hfr1 : getFrame s1 f = getFrame s f := by
        show s1.pages.getD f emptyFrame = s.pages.getD f emptyFrame
        rw [hcomp.1]
      have hV2' : Valid (resetPage s1 f).2 := by
        by_cases hid : (getFrame s1 f).pageId = -1
        · have hq3 : (resetPage s1 f).2 = s1 := by
            rw [resetPage_reduced, if_pos hid]
          rw [hq3]
          exact hV1'
        · have hpin2 : (getFrame s1 f).pinCount = 0 := by
            rcases hcase with hhead | ⟨hpin, -⟩
            · exfalso
              apply hid
              rw [hfr1]
              exact hAm.1 f hhead
            · rw [hfr1]
              exact hpin
          exact valid_resetPage s1 f hV1' hpin2
      have hfN2 : f < (resetPage s1 f).2.pages.length := by
        rw [resetPage_pages_length]
        show f < s1.pages.length
        rw [hcomp.1]
        exact hfN
      have hfr4 : getFrame (initPage (resetPage s1 f).2 f p) f
          = { getFrame (resetPage s1 f).2 f with
              pageId := p, pinCount := 1 } := by
        show (((resetPage s1 f).2.pages.set f _).getD f emptyFrame) = _
        rw [getD_set_eq _ _ hfN2]
      have hlen3 : f < (initPage (resetPage s1 f).2 f p).pages.length := by
        show f < ((resetPage s1 f).2.pages.set f _).length
        rw [List.length_set]
        exact hfN2
      have hfr5 : getFrame (setFrame (initPage (resetPage s1 f).2 f p) f
          { getFrame (initPage (resetPage s1 f).2 f p) f with
            data := diskRead (initPage (resetPage s1 f).2 f p).disk p }) f
          = { getFrame (initPage (resetPage s1 f).2 f p) f with
              data := diskRead (initPage (resetPage s1 f).2 f p).disk p } :=
        getD_set_eq _ _ hlen3
      have hpin4 : (getFrame (setFrame (initPage (resetPage s1 f).2 f p) f
          { getFrame (initPage (resetPage s1 f).2 f p) f with
            data := diskRead (initPage (resetPage s1 f).2 f p).disk p })
          f).pinCount = 1 := by
        rw [hfr5]
        show (getFrame (initPage (resetPage s1 f).2 f p) f).pinCount = 1
        rw [hfr4]
      have hup : updateFrameInfo (setFrame (initPage (resetPage s1 f).2 f p) f
          { getFrame (initPage (resetPage s1 f).2 f p) f with
            data := diskRead (initPage (resetPage s1 f).2 f p).disk p })
          f
          (getFrame (setFrame (initPage (resetPage s1 f).2 f p) f
            { getFrame (initPage (resetPage s1 f).2 f p) f with
              data := diskRead (initPage (resetPage s1 f).2 f p).disk p })
            f).pinCount
          = { setFrame (initPage (resetPage s1 f).2 f p) f
              { getFrame (initPage (resetPage s1 f).2 f p) f with
                data := diskRead (initPage (resetPage s1 f).2 f p).disk p } with
              replacer := if (getFrame (setFrame
                  (initPage (resetPage s1 f).2 f p) f
                  { getFrame (initPage (resetPage s1 f).2 f p) f with
                    data := diskRead (initPage (resetPage s1 f).2 f p).disk p })
                  f).pinCount = 1
                then setEvictable
                  (recordAccess (resetPage s1 f).2.replacer f) f false
                else recordAccess (resetPage s1 f).2.replacer f } := by
        unfold updateFrameInfo
        rfl
      rw [hup, if_pos hpin4]
      have hpg : (setFrame (initPage (resetPage s1 f).2 f p) f
          { getFrame (initPage (resetPage s1 f).2 f p) f with
            data := diskRead (initPage (resetPage s1 f).2 f p).disk p }).pages
          = (resetPage s1 f).2.pages.set f
            ⟨p, 1, (getFrame (resetPage s1 f).2 f).isDirty,
              diskRead (resetPage s1 f).2.disk p⟩ := by
        show ((resetPage s1 f).2.pages.set f _).set f _ = _
        rw [List.set_set, hfr4]
        rfl
      have hD : p = -1 → diskRead (resetPage s1 f).2.disk p = 0 := by
        intro hp
        rw [hp]
        exact diskRead_sentinel hV2'.diskKeys
      exact valid_install_core (resetPage s1 f).2 f p
        (getFrame (resetPage s1 f).2 f).isDirty
        (diskRead (resetPage s1 f).2.disk p) _ hV2' hfN2 hready2
        hready2.2.2 hD hpg
  · have hfN := hV.tableValuesLt _ (lookupPT_mem hl)
    have h0 : fetchPage s p = (some f,
        updateFrameInfo (setFrame s f { getFrame s f with
          pinCount := (getFrame s f).pinCount + 1 }) f
          ((getFrame s f).pinCount + 1)) := by
      unfold fetchPage
      simp only [hl]
    rw [h0]
    exact valid_fetchHit s f hV hfN

/-- Every reachable buffer-pool state satisfies the structural
invariant. -/
theorem Reachable_valid {s : BP} (h : Reachable s) : Valid s := by
  induction h with
  | init n k hk => exact valid_initBP n k hk
  | newPage _ hA ih => exact valid_newPage _ ih hA
  | fetchPage p _ hA ih => exact valid_fetchPage _ p ih hA
  | unpinPage p d _ ih => exact valid_unpinPage _ p d ih
  | flushPage p _ ih => exact valid_flushPage _ p ih
  | flushAllPages _ ih => exact valid_flushAllPages _ ih
  | deletePage p _ ih => exact valid_deletePage _ p ih

/-- **C1**: in every reachable buffer-pool state, every frame's pin count
is non-negative, every frame with a positive pin count is non-evictable
in the LRU-K replacer, and any frame `Evict` would return has pin count
zero — a pinned frame can never be evicted. -/
theorem claim_C1_pin_invariant (s : BP) (h : Reachable s) :
    ∀ f : Nat, 0 ≤ (getFrame s f).pinCount ∧
      (0 < (getFrame s f).pinCount → ¬ evictableIn s.replacer f) ∧
      ((evict s.replacer).1 = some f → (getFrame s f).pinCount = 0) := by
  have hV := Reachable_valid h
  intro f
  refine ⟨hV.pinNonneg f, hV.pinnedNotEvictable f, ?_⟩
  intro he
  obtain ⟨-, -, hev, -, -, -, -, -, -, -⟩ := evict_spec_some hV.wf he
  by_contra hc
  exact hV.pinnedNotEvictable f
    (lt_of_le_of_ne (hV.pinNonneg f) (Ne.symm hc)) hev

/-- Witness for C1 at a freshly constructed pool of two frames. -/
theorem claim_C1_pin_invariant_witness :
    0 ≤ (getFrame (initBP 2 1) 0).pinCount ∧
    (0 < (getFrame (initBP 2 1) 0).pinCount →
      ¬ evictableIn (initBP 2 1).replacer 0) ∧
    ((evict (initBP 2 1).replacer).1 = some 0 →
      (getFrame (initBP 2 1) 0).pinCount = 0) :=
  claim_C1_pin_invariant (initBP 2 1) (Reachable.init 2 1 (by decide)) 0

/-- **C6**: `FlushPage(p)` fails on the sentinel and on a non-resident
page; otherwise it writes the frame to disk even when the frame is
clean, clears the dirty flag and returns true, after which the disk copy
equals the (unchanged) frame contents. -/
theorem claim_C6_flushPage (s : BP) (p : Int) (h : Reachable s) :
    (p = -1 → flushPage s p = (false, s)) ∧
    (lookupPT s.pageTable p = none → flushPage s p = (false, s)) ∧
    (∀ f, p ≠ -1 → lookupPT s.pageTable p = some f →
      (flushPage s p).1 = true ∧
      (getFrame (flushPage s p).2 f).isDirty = false ∧
      diskRead (flushPage s p).2.disk p = (getFrame s f).data ∧
      (getFrame (flushPage s p).2 f).data = (getFrame s f).data) := by
  have hV := Reachable_valid h
  refine ⟨?_, ?_, ?_⟩
  · intro hp
    unfold flushPage
    rw [if_pos hp]
  · intro hl
    unfold flushPage
    by_cases hp : p = -1
    · rw [if_pos hp]
    · rw [if_neg hp]
      simp only [hl]
  · intro f hp hl
    have hfN : f < s.pages.length := hV.tableValuesLt _ (lookupPT_mem hl)
    have h0 : flushPage s p = (true,
        setFrame { s with disk := diskWrite s.disk p (getFrame s f).data }
          f { getFrame s f with isDirty := false }) := by
      unfold flushPage
      rw [if_neg hp]
      simp only [hl]
    rw [h0]
    have hfr : getFrame (setFrame { s with
          disk := diskWrite s.disk p (getFrame s f).data }
        f { getFrame s f with isDirty := false }) f
        = { getFrame s f with isDirty := false } := by
      show ((s.pages.set f _).getD f emptyFrame) = _
      rw [getD_set_eq _ _ hfN]
    refine ⟨rfl, ?_, ?_, ?_⟩
    · rw [hfr]
    · show diskRead (diskWrite s.disk p (getFrame s f).data) p
        = (getFrame s f).data
      exact diskRead_diskWrite_self s.disk p (getFrame s f).data
    · rw [hfr]

/-- Witness for C6: flushing page 0 of a fresh pool (not resident, so the
success clause is vacuous and the failure clauses fire). -/
theorem claim_C6_flushPage_witness :
    ((-1 : Int) = -1 → flushPage (initBP 2 1) (-1) = (false, initBP 2 1)) ∧
    (lookupPT (initBP 2 1).pageTable (-1) = none →
      flushPage (initBP 2 1) (-1) = (false, initBP 2 1)) ∧
    (∀ f, (-1 : Int) ≠ -1 →
      lookupPT (initBP 2 1).pageTable (-1) = some f →
      (flushPage (initBP 2 1) (-1)).1 = true ∧
      (getFrame (flushPage (initBP 2 1) (-1)).2 f).isDirty = false ∧
      diskRead (flushPage (initBP 2 1) (-1)).2.disk (-1)
        = (getFrame (initBP 2 1) f).data ∧
      (getFrame (flushPage (initBP 2 1) (-1)).2 f).data
        = (getFrame (initBP 2 1) f).data) :=
  claim_C6_flushPage (initBP 2 1) (-1) (Reachable.init 2 1 (by decide))

/-- **C5**: `UnpinPage(p, d)` returns false (without touching the state)
when `p` is not resident or the mapped frame's pin count is already 0;
otherwise it returns true, decrements the pin count, ors `d` into the
dirty flag (never clearing it), and the frame is evictable in the
replacer exactly when the pin count reached 0. -/
theorem claim_C5_unpinPage (s : BP) (p : Int) (d : Bool) (h : Reachable s) :
    (lookupPT s.pageTable p = none → unpinPage s p d = (false, s)) ∧
    (∀ f, lookupPT s.pageTable p = some f → (getFrame s f).pinCount = 0 →
      unpinPage s p d = (false, s)) ∧
    (∀ f, lookupPT s.pageTable p = some f → (getFrame s f).pinCount ≠ 0 →
      (unpinPage s p d).1 = true ∧
      (getFrame (unpinPage s p d).2 f).pinCount
        = (getFrame s f).pinCount - 1 ∧
      (getFrame (unpinPage s p d).2 f).isDirty
        = ((getFrame s f).isDirty || d) ∧
      (evictableIn (unpinPage s p d).2.replacer f ↔
        (getFrame s f).pinCount - 1 = 0)) := by
  have hV := Reachable_valid h
  refine ⟨?_, ?_, ?_⟩
  · intro hl
    unfold unpinPage
    simp only [hl]
  · intro f hl hz
    unfold unpinPage
    simp only [hl]
    rw [if_pos hz]
  · intro f hl hnz
    have hfN : f < s.pages.length := hV.tableValuesLt _ (lookupPT_mem hl)
    have hpin : 0 < (getFrame s f).pinCount :=
      lt_of_le_of_ne (hV.pinNonneg f) (Ne.symm hnz)
    have htr : tracked s.replacer f := hV.pinnedTracked f hpin
    have hnev : ¬ evictableIn s.replacer f := hV.pinnedNotEvictable f hpin
    have h0 : unpinPage s p d = (true,
        if d then setFrame (unpinFrame s f) f
          { getFrame (unpinFrame s f) f with isDirty := true }
        else unpinFrame s f) := by
      unfold unpinPage
      simp only [hl]
      rw [if_neg hnz]
    rw [h0]
    have hufr : getFrame (unpinFrame s f) f
        = { getFrame s f with
            pinCount := (getFrame s f).pinCount - 1 } := by
      unfold unpinFrame
      by_cases hz0 : (getFrame s f).pinCount - 1 = 0
      · rw [if_pos hz0]
        show ((s.pages.set f _).getD f emptyFrame) = _
        rw [getD_set_eq _ _ hfN]
      · rw [if_neg hz0]
        show ((s.pages.set f _).getD f emptyFrame) = _
        rw [getD_set_eq _ _ hfN]
    have hulen : (unpinFrame s f).pages.length = s.pages.length := by
      unfold unpinFrame
      by_cases hz0 : (getFrame s f).pinCount - 1 = 0
      · rw [if_pos hz0]
        show (s.pages.set f _).length = s.pages.length
        rw [List.length_set]
      · rw [if_neg hz0]
        show (s.pages.set f _).length = s.pages.length
        rw [List.length_set]
    have hurep : (unpinFrame s f).replacer
        = (if (getFrame s f).pinCount - 1 = 0
          then setEvictable s.replacer f true else s.replacer) := by
      unfold unpinFrame
      by_cases hz0 : (getFrame s f).pinCount - 1 = 0
      · rw [if_pos hz0, if_pos hz0]
        rfl
      · rw [if_neg hz0, if_neg hz0]
        rfl
    have hfr2 : getFrame (if d then setFrame (unpinFrame s f) f
          { getFrame (unpinFrame s f) f with isDirty := true }
        else unpinFrame s f) f
        = if d then { getFrame (unpinFrame s f) f with isDirty := true }
          else getFrame (unpinFrame s f) f := by
      by_cases hd : d = true
      · rw [if_pos hd, if_pos hd]
        show (((unpinFrame s f).pages.set f _).getD f emptyFrame) = _
        rw [getD_set_eq]
        rw [hulen]
        exact hfN
      · rw [if_neg hd, if_neg hd]
    have hrep2 : (if d then setFrame (unpinFrame s f) f
          { getFrame (unpinFrame s f) f with isDirty := true }
        else unpinFrame s f).replacer = (unpinFrame s f).replacer := by
      by_cases hd : d = true
      · rw [if_pos hd]
        rfl
      · rw [if_neg hd]
    have hframe : getFrame (if d then setFrame (unpinFrame s f) f
          { getFrame (unpinFrame s f) f with isDirty := true }
        else unpinFrame s f) f
        = { getFrame s f with
            pinCount := (getFrame s f).pinCount - 1,
            isDirty := ((getFrame s f).isDirty || d) } := by
      rw [hfr2]
      by_cases hd : d = true
      · rw [if_pos hd, hufr, hd, Bool.or_true]
      · rw [if_neg hd, hufr]
        rw [Bool.not_eq_true] at hd
        rw [hd, Bool.or_false]
    refine ⟨rfl, ?_, ?_, ?_⟩
    · show (getFrame (if d then _ else _) f).pinCount = _
      rw [hframe]
    · show (getFrame (if d then _ else _) f).isDirty = _
      rw [hframe]
    · show evictableIn ((if d then _ else _ : BP)).replacer f ↔ _
      rw [hrep2, hurep]
      by_cases hz0 : (getFrame s f).pinCount - 1 = 0
      · rw [if_pos hz0]
        obtain ⟨-, -, E2, -⟩ := setEvictable_tracked (b := true) hV.wf htr
        exact ⟨fun _ => hz0, fun _ => E2.2 rfl⟩
      · rw [if_neg hz0]
        exact ⟨fun hc => absurd hc hnev, fun hc => absurd hc hz0⟩

/-- Witness for C5 at a fresh pool (page 5 is not resident, so the
failure clause fires and the success clauses are vacuous). -/
theorem claim_C5_unpinPage_witness :
    (lookupPT (initBP 2 1).pageTable 5 = none →
      unpinPage (initBP 2 1) 5 true = (false, initBP 2 1)) ∧
    (∀ f, lookupPT (initBP 2 1).pageTable 5 = some f →
      (getFrame (initBP 2 1) f).pinCount = 0 →
      unpinPage (initBP 2 1) 5 true = (false, initBP 2 1)) ∧
    (∀ f, lookupPT (initBP 2 1).pageTable 5 = some f →
      (getFrame (initBP 2 1) f).pinCount ≠ 0 →
      (unpinPage (initBP 2 1) 5 true).1 = true ∧
      (getFrame (unpinPage (initBP 2 1) 5 true).2 f).pinCount
        = (getFrame (initBP 2 1) f).pinCount - 1 ∧
      (getFrame (unpinPage (initBP 2 1) 5 true).2 f).isDirty
        = ((getFrame (initBP 2 1) f).isDirty || true) ∧
      (evictableIn (unpinPage (initBP 2 1) 5 true).2.replacer f ↔
        (getFrame (initBP 2 1) f).pinCount - 1 = 0)) :=
  claim_C5_unpinPage (initBP 2 1) 5 true (Reachable.init 2 1 (by decide))

theorem resetPage_nextPageId (s : BP) (f : Nat) :
    (resetPage s f).2.nextPageId = s.nextPageId := by
  rw [resetPage_reduced]
  by_cases h1 : (getFrame s f).pageId = -1
  · rw [if_pos h1]
  · rw [if_neg h1]
    by_cases h2 : containsPT s.pageTable (getFrame s f).pageId = true
    · rw [if_pos h2]
      by_cases h3 : (getFrame s f).isDirty = true
      · rw [if_pos h3]
        rfl
      · rw [if_neg h3]
        rfl
    · rw [if_neg h2]

/-- **C3**: a successful `NewPage` hands out `next_page_id_` as the fresh
page id and increments it (so successive successes get 0, 1, 2, …), the
victim frame ends with pin count 1, a clear dirty flag and zeroed
memory, the page table maps the fresh id to the frame, and a dirty
victim page was flushed to disk and its table entry removed.  The
hypothesis `newPageAssert s` states the assertions the call executes
(an assertion failure aborts instead of returning). -/
theorem claim_C3_newPage (s : BP) (h : Reachable s) (hA : newPageAssert s)
    (pid : Int) (f : Nat) (hs : (newPage s).1 = some (pid, f)) :
    pid = s.nextPageId ∧
    (newPage s).2.nextPageId = s.nextPageId + 1 ∧
    getFrame (newPage s).2 f = ⟨pid, 1, false, 0⟩ ∧
    lookupPT (newPage s).2.pageTable pid = some f ∧
    ((getFrame s f).pageId ≠ -1 → (getFrame s f).isDirty = true →
      diskRead (newPage s).2.disk (getFrame s f).pageId
        = (getFrame s f).data ∧
      ((getFrame s f).pageId ≠ pid →
        lookupPT (newPage s).2.pageTable (getFrame s f).pageId = none)) ∧
    (∀ n k : Nat, (initBP n k).nextPageId = 0) := by
  have hV := Reachable_valid h
  obtain ⟨hV1, hvict⟩ := valid_getVictimPage s hV
  have hcomp := getVictimPage_components s
  have hA2 := hA.2
  rcases hgv : getVictimPage s with ⟨v, s1⟩
  have h21 : (getVictimPage s).2 = s1 := by rw [hgv]
  have h11 : (getVictimPage s).1 = v := by rw [hgv]
  rw [h21] at hV1 hcomp
  rw [h11, h21] at hvict
  rw [h11, h21] at hA2
  have hV1' : Valid s1 := hV1
  rcases v with _ | f0
  · have h0 : newPage s = ((none : Option (Int × Nat)), s1) := by
      unfold newPage
      simp only [hgv]
    rw [h0] at hs
    cases hs
  · have h0 : newPage s = (some (s1.nextPageId, f0),
        updateFrameInfo
          (initPage (resetPage { s1 with
            nextPageId := s1.nextPageId + 1 } f0).2 f0 s1.nextPageId) f0
          (getFrame (initPage (resetPage { s1 with
            nextPageId := s1.nextPageId + 1 } f0).2 f0 s1.nextPageId)
            f0).pinCount) := by
      unfold newPage
      simp only [hgv]
      rfl
    rw [h0] at hs
    have hs2 : (s1.nextPageId, f0) = (pid, f) := Option.some_inj.1 hs
    have hpid : s1.nextPageId = pid := congrArg Prod.fst hs2
    have hff : f = f0 := (congrArg Prod.snd hs2).symm
    subst hff
    obtain ⟨hfN, hcase⟩ := hvict f rfl
    have hready3 : initPageReady (resetPage { s1 with
        nextPageId := s1.nextPageId + 1 } f).2 f := hA2 f rfl
    have hfr1 : getFrame s1 f = getFrame s f := by
      show s1.pages.getD f emptyFrame = s.pages.getD f emptyFrame
      rw [hcomp.1]
    have hV2 : Valid { s1 with nextPageId := s1.nextPageId + 1 } :=
      valid_allocate s1 _ hV1'
    have hV3 : Valid (resetPage { s1 with
        nextPageId := s1.nextPageId + 1 } f).2 := by
      by_cases hid : (getFrame { s1 with
          nextPageId := s1.nextPageId + 1 } f).pageId = -1
      · have hq3 : (resetPage { s1 with
            nextPageId := s1.nextPageId + 1 } f).2
            = { s1 with nextPageId := s1.nextPageId + 1 } := by
          rw [resetPage_reduced, if_pos hid]
        rw [hq3]
        exact hV2
      · have hpin2 : (getFrame { s1 with
            nextPageId := s1.nextPageId + 1 } f).pinCount = 0 := by
          rcases hcase with hhead | ⟨hpin, -⟩
          · exfalso
            apply hid
            show (getFrame s1 f).pageId = -1
            rw [hfr1]
            exact hA.1 f hhead
          · show (getFrame s1 f).pinCount = 0
            rw [hfr1]
            exact hpin
        exact valid_resetPage _ f hV2 hpin2
    have hfN3 : f < (resetPage { s1 with
        nextPageId := s1.nextPageId + 1 } f).2.pages.length := by
      rw [resetPage_pages_length]
      show f < s1.pages.length
      rw [hcomp.1]
      exact hfN
    have hfr4 : getFrame (initPage (resetPage { s1 with
        nextPageId := s1.nextPageId + 1 } f).2 f s1.nextPageId) f
        = { getFrame (resetPage { s1 with
              nextPageId := s1.nextPageId + 1 } f).2 f with
            pageId := s1.nextPageId, pinCount := 1 } := by
      show (((resetPage { s1 with
          nextPageId := s1.nextPageId + 1 } f).2.pages.set f _).getD f
        emptyFrame) = _
      rw [getD_set_eq _ _ hfN3]
    have hdata3 : (getFrame (resetPage { s1 with
        nextPageId := s1.nextPageId + 1 } f).2 f).data = 0 :=
      hV3.sentinelZeroData f hready3.1
    refine ⟨hpid.symm.trans hcomp.2.2.2, ?_, ?_, ?_, ?_, fun n k => rfl⟩
    · rw [h0]
      show (resetPage { s1 with
          nextPageId := s1.nextPageId + 1 } f).2.nextPageId
        = s.nextPageId + 1
      rw [resetPage_nextPageId]
      show s1.nextPageId + 1 = s.nextPageId + 1
      rw [hcomp.2.2.2]
    · rw [h0]
      show getFrame (initPage (resetPage { s1 with
          nextPageId := s1.nextPageId + 1 } f).2 f s1.nextPageId) f
        = (⟨pid, 1, false, 0⟩ : Frame)
      rw [hfr4]
      show (⟨s1.nextPageId, 1,
        (getFrame (resetPage { s1 with
          nextPageId := s1.nextPageId + 1 } f).2 f).isDirty,
        (getFrame (resetPage { s1 with
          nextPageId := s1.nextPageId + 1 } f).2 f).data⟩ : Frame) = _
      rw [hready3.2.2, hdata3, hpid]
    · rw [h0]
      show lookupPT (insertPT (resetPage { s1 with
          nextPageId := s1.nextPageId + 1 } f).2.pageTable s1.nextPageId f)
          pid = some f
      rw [← hpid]
      exact lookupPT_insertPT_self _ _ _
    · intro hid hdy
      rw [h0]
      have hid2 : ¬ (getFrame { s1 with
          nextPageId := s1.nextPageId + 1 } f).pageId = -1 := by
        show ¬ (getFrame s1 f).pageId = -1
        rw [hfr1]
        exact hid
      have hct : containsPT { s1 with
          nextPageId := s1.nextPageId + 1 }.pageTable
          (getFrame { s1 with
            nextPageId := s1.nextPageId + 1 } f).pageId = true := by
        by_contra hc
        have hq3 : (resetPage { s1 with
            nextPageId := s1.nextPageId + 1 } f).2
            = { s1 with nextPageId := s1.nextPageId + 1 } := by
          rw [resetPage_reduced, if_neg hid2, if_neg hc]
        rw [hq3] at hready3
        exact hid2 hready3.1
      have hdy2 : (getFrame { s1 with
          nextPageId := s1.nextPageId + 1 } f).isDirty = true := by
        show (getFrame s1 f).isDirty = true
        rw [hfr1]
        exact hdy
      have hq3 : (resetPage { s1 with
          nextPageId := s1.nextPageId + 1 } f).2
          = setFrame
            (⟨s1.pages, s1.freeList,
              erasePT s1.pageTable (getFrame s1 f).pageId, s1.replacer,
              s1.nextPageId + 1,
              diskWrite s1.disk (getFrame s1 f).pageId
                (getFrame s1 f).data,
              s1.deallocated⟩ : BP) f ⟨-1, 0, false, 0⟩ := by
        rw [resetPage_reduced, if_neg hid2, if_pos hct, if_pos hdy2]
        rfl
      constructor
      · show diskRead (resetPage { s1 with
            nextPageId := s1.nextPageId + 1 } f).2.disk
          (getFrame s f).pageId = (getFrame s f).data
        rw [hq3]
        show diskRead (diskWrite s1.disk (getFrame s1 f).pageId
          (getFrame s1 f).data) (getFrame s f).pageId = (getFrame s f).data
        rw [hfr1]
        exact diskRead_diskWrite_self _ _ _
      · intro hne
        show lookupPT (insertPT (resetPage { s1 with
            nextPageId := s1.nextPageId + 1 } f).2.pageTable s1.nextPageId
            f) (getFrame s f).pageId = none
        rw [lookupPT_insertPT_ne _ f (by rw [← hpid] at hne; exact hne)]
        rw [hq3]
        show lookupPT (erasePT s1.pageTable (getFrame s1 f).pageId)
          (getFrame s f).pageId = none
        rw [hfr1]
        apply lookupPT_erasePT_self
        have hkeys : s1.pageTable = s.pageTable := hcomp.2.1
        rw [hkeys]
        exact hV.tableKeysNodup

/-- Witness for C3: the first `NewPage` on a fresh two-frame pool
succeeds with page id 0 in frame 0. -/
theorem claim_C3_newPage_witness :
    (0 : Int) = (initBP 2 1).nextPageId ∧
    (newPage (initBP 2 1)).2.nextPageId = (initBP 2 1).nextPageId + 1 ∧
    getFrame (newPage (initBP 2 1)).2 0 = ⟨0, 1, false, 0⟩ ∧
    lookupPT (newPage (initBP 2 1)).2.pageTable 0 = some 0 ∧
    ((getFrame (initBP 2 1) 0).pageId ≠ -1 →
      (getFrame (initBP 2 1) 0).isDirty = true →
      diskRead (newPage (initBP 2 1)).2.disk
        (getFrame (initBP 2 1) 0).pageId = (getFrame (initBP 2 1) 0).data ∧
      ((getFrame (initBP 2 1) 0).pageId ≠ 0 →
        lookupPT (newPage (initBP 2 1)).2.pageTable
          (getFrame (initBP 2 1) 0).pageId = none)) ∧
    (∀ n k : Nat, (initBP n k).nextPageId = 0) :=
  claim_C3_newPage (initBP 2 1) (Reachable.init 2 1 (by decide))
    (by decide) 0 0 (by decide)

theorem resetPage_replacer (s : BP) (f : Nat) :
    (resetPage s f).2.replacer = s.replacer := by
  rw [resetPage_reduced]
  by_cases h1 : (getFrame s f).pageId = -1
  · rw [if_pos h1]
  · rw [if_neg h1]
    by_cases h2 : containsPT s.pageTable (getFrame s f).pageId = true
    · rw [if_pos h2]
      by_cases h3 : (getFrame s f).isDirty = true
      · rw [if_pos h3]
        rfl
      · rw [if_neg h3]
        rfl
    · rw [if_neg h2]

theorem resetPage_freeList (s : BP) (f : Nat) :
    (resetPage s f).2.freeList = s.freeList := by
  rw [resetPage_reduced]
  by_cases h1 : (getFrame s f).pageId = -1
  · rw [if_pos h1]
  · rw [if_neg h1]
    by_cases h2 : containsPT s.pageTable (getFrame s f).pageId = true
    · rw [if_pos h2]
      by_cases h3 : (getFrame s f).isDirty = true
      · rw [if_pos h3]
        rfl
      · rw [if_neg h3]
        rfl
    · rw [if_neg h2]

theorem resetPage_main_ok (s : BP) (f : Nat)
    (hid : ¬ (getFrame s f).pageId = -1)
    (hct : containsPT s.pageTable (getFrame s f).pageId = true) :
    (resetPage s f).1 = true := by
  rw [resetPage_reduced, if_neg hid, if_pos hct]

theorem resetPage_main_pageTable (s : BP) (f : Nat)
    (hid : ¬ (getFrame s f).pageId = -1)
    (hct : containsPT s.pageTable (getFrame s f).pageId = true) :
    (resetPage s f).2.pageTable
      = erasePT s.pageTable (getFrame s f).pageId := by
  rw [resetPage_reduced, if_neg hid, if_pos hct]
  by_cases h3 : (getFrame s f).isDirty = true
  · rw [if_pos h3]
    rfl
  · rw [if_neg h3]
    rfl

theorem resetPage_main_pages (s : BP) (f : Nat)
    (hid : ¬ (getFrame s f).pageId = -1)
    (hct : containsPT s.pageTable (getFrame s f).pageId = true) :
    (resetPage s f).2.pages = s.pages.set f ⟨-1, 0, false, 0⟩ := by
  rw [resetPage_reduced, if_neg hid, if_pos hct]
  by_cases h3 : (getFrame s f).isDirty = true
  · rw [if_pos h3]
    rfl
  · rw [if_neg h3]
    rfl

theorem resetPage_main_dirty_disk (s : BP) (f : Nat)
    (hid : ¬ (getFrame s f).pageId = -1)
    (hct : containsPT s.pageTable (getFrame s f).pageId = true)
    (hdy : (getFrame s f).isDirty = true) :
    (resetPage s f).2.disk
      = diskWrite s.disk (getFrame s f).pageId (getFrame s f).data := by
  rw [resetPage_reduced, if_neg hid, if_pos hct, if_pos hdy]
  rfl

/-- Counterexample to C7 as stated: with the sentinel page id, the
operations `FetchPage(-1); UnpinPage(-1, true); DeletePage(-1)` (all
completed, no assertion fires) leave `DeletePage` returning `true`
while the page-table entry for `-1` survives and the frame goes back to
the free list still dirty and unreset — `ResetPage` returns early on a
sentinel-holding frame, erasing nothing. -/
theorem claim_C7_counterexample :
    Reachable (unpinPage (fetchPage (initBP 1 2) (-1)).2 (-1) true).2 ∧
    lookupPT (unpinPage (fetchPage (initBP 1 2) (-1)).2 (-1)
        true).2.pageTable (-1) = some 0 ∧
    (getFrame (unpinPage (fetchPage (initBP 1 2) (-1)).2 (-1) true).2
        0).pinCount = 0 ∧
    (deletePage (unpinPage (fetchPage (initBP 1 2) (-1)).2 (-1) true).2
        (-1)).1 = true ∧
    lookupPT (deletePage (unpinPage (fetchPage (initBP 1 2) (-1)).2 (-1)
        true).2 (-1)).2.pageTable (-1) = some 0 ∧
    (getFrame (deletePage (unpinPage (fetchPage (initBP 1 2) (-1)).2 (-1)
        true).2 (-1)).2 0).isDirty = true ∧
    0 ∈ (deletePage (unpinPage (fetchPage (initBP 1 2) (-1)).2 (-1)
        true).2 (-1)).2.freeList :=
  ⟨Reachable.unpinPage (-1) true
      (Reachable.fetchPage (-1) (Reachable.init 1 2 (by decide))
        (by decide)),
    by decide, by decide, by decide, by decide, by decide, by decide⟩

/-- **C7** (amended: for page ids other than the sentinel
`INVALID_PAGE_ID = -1`): `DeletePage(p)` succeeds trivially on an absent
page, fails on a pinned page, and otherwise flushes the frame if dirty,
removes the page-table entry, drops the frame from the replacer, appends
it to the free list, resets its metadata, records the deallocation and
returns true.  For `p = -1` the claim fails
(`claim_C7_counterexample`). -/
theorem claim_C7_deletePage (s : BP) (p : Int) (h : Reachable s)
    (hp : p ≠ -1) :
    (lookupPT s.pageTable p = none → deletePage s p = (true, s)) ∧
    (∀ f, lookupPT s.pageTable p = some f →
      0 < (getFrame s f).pinCount → deletePage s p = (false, s)) ∧
    (∀ f, lookupPT s.pageTable p = some f →
      (getFrame s f).pinCount ≤ 0 →
      (deletePage s p).1 = true ∧
      ((getFrame s f).isDirty = true →
        diskRead (deletePage s p).2.disk p = (getFrame s f).data) ∧
      lookupPT (deletePage s p).2.pageTable p = none ∧
      ¬ tracked (deletePage s p).2.replacer f ∧
      (deletePage s p).2.freeList = s.freeList ++ [f] ∧
      getFrame (deletePage s p).2 f = emptyFrame ∧
      p ∈ (deletePage s p).2.deallocated) := by
  have hV := Reachable_valid h
  refine ⟨?_, ?_, ?_⟩
  · intro hl
    unfold deletePage
    simp only [hl]
  · intro f hlf hpin
    have h0 : deletePage s p
        = (if (getFrame s f).pinCount > 0 then ((false, s) : Bool × BP)
          else if (resetPage s f).1 then
            (true, { (resetPage s f).2 with
              replacer := lrukRemove (resetPage s f).2.replacer f,
              freeList := (resetPage s f).2.freeList ++ [f],
              deallocated := (resetPage s f).2.deallocated ++ [p] })
          else (false, (resetPage s f).2)) := by
      unfold deletePage
      simp only [hlf]
    rw [h0, if_pos hpin]
  · intro f hlf hple
    have hpin0 : (getFrame s f).pinCount = 0 :=
      le_antisymm hple (hV.pinNonneg f)
    have hacc : (getFrame s f).pageId = p := hV.tableAccurate p f hp hlf
    have hfN : f < s.pages.length := hV.tableValuesLt _ (lookupPT_mem hlf)
    have hid2 : ¬ (getFrame s f).pageId = -1 := by
      rw [hacc]
      exact hp
    have hct : containsPT s.pageTable (getFrame s f).pageId = true := by
      rw [hacc]
      exact containsPT_eq_true_of_lookup hlf
    have hok := resetPage_main_ok s f hid2 hct
    have h0 : deletePage s p
        = (if (getFrame s f).pinCount > 0 then ((false, s) : Bool × BP)
          else if (resetPage s f).1 then
            (true, { (resetPage s f).2 with
              replacer := lrukRemove (resetPage s f).2.replacer f,
              freeList := (resetPage s f).2.freeList ++ [f],
              deallocated := (resetPage s f).2.deallocated ++ [p] })
          else (false, (resetPage s f).2)) := by
      unfold deletePage
      simp only [hlf]
    rw [h0, if_neg (by omega : ¬ (getFrame s f).pinCount > 0),
      if_pos hok]
    refine ⟨rfl, ?_, ?_, ?_, ?_, ?_, ?_⟩
    · intro hdy
      show diskRead (resetPage s f).2.disk p = (getFrame s f).data
      rw [resetPage_main_dirty_disk s f hid2 hct hdy, hacc]
      exact diskRead_diskWrite_self _ _ _
    · show lookupPT (resetPage s f).2.pageTable p = none
      rw [resetPage_main_pageTable s f hid2 hct, hacc]
      exact lookupPT_erasePT_self hV.tableKeysNodup
    · show ¬ tracked (lrukRemove (resetPage s f).2.replacer f) f
      rw [resetPage_replacer]
      have hne : ¬ tracked s.replacer f ∨ evictableIn s.replacer f := by
        by_cases ht : tracked s.replacer f
        · exact Or.inr (hV.zeroPinEvictable f ht hpin0)
        · exact Or.inl ht
      exact (lrukRemove_bundle hV.wf f hne).2.1
    · show (resetPage s f).2.freeList ++ [f] = s.freeList ++ [f]
      rw [resetPage_freeList]
    · show (resetPage s f).2.pages.getD f emptyFrame = emptyFrame
      rw [resetPage_main_pages s f hid2 hct, getD_set_eq _ _ hfN]
      rfl
    · show p ∈ (resetPage s f).2.deallocated ++ [p]
      exact List.mem_append_right _ (List.mem_singleton.2 rfl)

/-- Witness for C7 at a fresh pool: deleting the absent page 5 is a
no-op success. -/
theorem claim_C7_deletePage_witness :
    (lookupPT (initBP 2 1).pageTable 5 = none →
      deletePage (initBP 2 1) 5 = (true, initBP 2 1)) ∧
    (∀ f, lookupPT (initBP 2 1).pageTable 5 = some f →
      0 < (getFrame (initBP 2 1) f).pinCount →
      deletePage (initBP 2 1) 5 = (false, initBP 2 1)) ∧
    (∀ f, lookupPT (initBP 2 1).pageTable 5 = some f →
      (getFrame (initBP 2 1) f).pinCount ≤ 0 →
      (deletePage (initBP 2 1) 5).1 = true ∧
      ((getFrame (initBP 2 1) f).isDirty = true →
        diskRead (deletePage (initBP 2 1) 5).2.disk 5
          = (getFrame (initBP 2 1) f).data) ∧
      lookupPT (deletePage (initBP 2 1) 5).2.pageTable 5 = none ∧
      ¬ tracked (deletePage (initBP 2 1) 5).2.replacer f ∧
      (deletePage (initBP 2 1) 5).2.freeList
        = (initBP 2 1).freeList ++ [f] ∧
      getFrame (deletePage (initBP 2 1) 5).2 f = emptyFrame ∧
      (5 : Int) ∈ (deletePage (initBP 2 1) 5).2.deallocated) :=
  claim_C7_deletePage (initBP 2 1) 5 (Reachable.init 2 1 (by decide))
    (by decide)

end Bustub
